import Mathlib

/-! # Rundeck job translation: flat resource data and the job domain model

A shallow embedding of `rundeck/job_helpers.go`: the translators between the
Terraform resource data of a job (`jobFromResourceData`, `jobToResourceData`)
and the job definition sent to Rundeck, with the schedule codec
(`JobScheduleFromResourceData`, `scheduleToCronSpec`) and the command
translators (`commandFromResourceData`, `commandToResourceData`).

Conventions of the embedding:

* a Go `string` is a `String`; `strings.Split` and `strings.Join` work on the
  character list of the text;
* `diag.Diagnostics` is a list of diagnostics, and the Go test `err != nil` is
  the test that the list is not empty;
* a Go pointer that may be `nil` is an `Option`;
* a pair `(*T, diag.Diagnostics)` returned by a Go function is a pair
  `Option T × Diagnostics`;
* a call that ends in a run-time panic returns nothing: for `jobFromResourceData` and
  the loops inside it this is the pair `(none, [])`, neither a value nor diagnostics,
  which no `return` statement of `jobFromResourceData` produces; for
  `jobToResourceData` it is the result `none`;
* a `map[string]string` is an association list, and nil and empty slices or
  maps are not told apart.
-/

namespace Rundeck

/-! ## Diagnostics -/

/-- The two severities of `diag.Diagnostic` used by the translators. -/
inductive DiagSeverity where
  | Error
  | Warning
deriving DecidableEq

/-- One `diag.Diagnostic`: severity, summary and detail. -/
structure Diagnostic where
  Severity : DiagSeverity
  Summary : String
  Detail : String
deriving DecidableEq

/-- The slice type `diag.Diagnostics`; the empty list is the `nil` slice. -/
abbrev Diagnostics := List Diagnostic

/-- The diagnostics `diag.FromErr(fmt.Errorf(msg))`: a single error whose summary is the message. -/
def diag.FromErr (msg : String) : Diagnostics :=
  [{ Severity := DiagSeverity.Error, Summary := msg, Detail := "" }]

/-! ## Library string functions -/

/-- Pieces of a character list between consecutive occurrences of `sep`
(`strings.Split` with a one-character separator, on characters). -/
def splitChars (sep : Char) : List Char → List (List Char)
  | [] => [[]]
  | c :: cs =>
    if c = sep then [] :: splitChars sep cs
    else
      match splitChars sep cs with
      | [] => [[c]]
      | p :: ps => (c :: p) :: ps

/-- Concatenation of character lists with `sep` between consecutive ones
(`strings.Join` with a one-character separator, on characters). -/
def joinChars (sep : Char) : List (List Char) → List Char
  | [] => []
  | [p] => p
  | p :: q :: ps => p ++ sep :: joinChars sep (q :: ps)

/-- Go `strings.Split(s, sep)` for a separator of one character. -/
def strings.Split (s : String) (sep : Char) : List String :=
  (splitChars sep s.data).map String.mk

/-- Go `strings.Join(elems, sep)` for a separator of one character. -/
def strings.Join (elems : List String) (sep : Char) : String :=
  String.mk (joinChars sep (elems.map String.data))

/-- Whether a character is white space in the sense of `unicode.IsSpace` on ASCII text. -/
def isWhitespace (c : Char) : Bool :=
  c = ' ' || c = '\t' || c = '\n' || c = '\r' || c.toNat = 11 || c.toNat = 12

/-- Fields of a character list around runs of white space; `cur` is the field being read, reversed. -/
def fieldsChars : List Char → List Char → List (List Char)
  | [], cur => if cur = [] then [] else [cur.reverse]
  | c :: cs, cur =>
    if isWhitespace c then
      (if cur = [] then fieldsChars cs [] else cur.reverse :: fieldsChars cs [])
    else fieldsChars cs (c :: cur)

/-- Splitting a text on white space, as the specification words the schedule decoder
(the behaviour of `strings.Fields`); used only to state that wording. -/
def whitespaceFields (s : String) : List String :=
  (fieldsChars s.data []).map String.mk

/-! ## The job domain model -/

/-- A Go `map[string]string`. -/
abbrev StringMap := List (String × String)

/-- Modelled from the spec: the declaration of struct `JobDispatch` is not among the
sources; the fields are those the translators read and write. -/
structure JobDispatch where
  MaxThreadCount : Int
  ContinueNextNodeOnError : Bool
  RankAttribute : String
  RankOrder : String
  SuccessOnEmptyNodeFilter : Bool
deriving DecidableEq

/-- Modelled from the spec: the declaration of struct `JobNodeFilter` is not among the
sources; the fields are those the translators read and write. -/
structure JobNodeFilter where
  ExcludePrecedence : Bool
  Query : String
  ExcludeQuery : String
deriving DecidableEq

/-- Modelled from the spec: the declaration of struct `JobLogFilter` is not among the
sources; `Config` is a pointer to a `JobLogFilterConfig`, a map of strings. -/
structure JobLogFilter where
  Type_ : String
  Config : Option StringMap
deriving DecidableEq

/-- Modelled from the spec: the declaration of struct `JobPlugin` is not among the
sources; a plugin is a type and a configuration map. -/
structure JobPlugin where
  Type_ : String
  Config : StringMap
deriving DecidableEq

/-- Modelled from the spec: the declaration of struct `JobCommandScriptInterpreter` is
not among the sources; the fields are those the translators read and write. -/
structure JobCommandScriptInterpreter where
  InvocationString : String
  ArgsQuoted : Bool
deriving DecidableEq

/-- Modelled from the spec: the declaration of struct `JobCommandJobRef` is not among the
sources; the fields are those the translators read and write. -/
structure JobCommandJobRef where
  Name : String
  GroupName : String
  RunForEachNode : Bool
  Arguments : String
  NodeFilter : Option JobNodeFilter
deriving DecidableEq

/-- Modelled from the spec: the declaration of struct `JobCommand` is not among the
sources; a command holds six scalars, an optional error handler that is itself a
command, and four more optional sub-objects. -/
inductive JobCommand where
  | mk (Description ShellCommand Script ScriptFile ScriptFileArgs : String)
      (KeepGoingOnSuccess : Bool)
      (ErrorHandler : Option JobCommand)
      (ScriptInterpreter : Option JobCommandScriptInterpreter)
      (Job : Option JobCommandJobRef)
      (StepPlugin NodeStepPlugin : Option JobPlugin) : JobCommand

/-- Field `ErrorHandler` of a command. -/
def JobCommand.ErrorHandler : JobCommand → Option JobCommand
  | .mk _ _ _ _ _ _ eh _ _ _ _ => eh

/-- Field `ScriptInterpreter` of a command. -/
def JobCommand.ScriptInterpreter : JobCommand → Option JobCommandScriptInterpreter
  | .mk _ _ _ _ _ _ _ si _ _ _ => si

/-- Field `Job` of a command. -/
def JobCommand.Job : JobCommand → Option JobCommandJobRef
  | .mk _ _ _ _ _ _ _ _ job _ _ => job

/-- Field `StepPlugin` of a command. -/
def JobCommand.StepPlugin : JobCommand → Option JobPlugin
  | .mk _ _ _ _ _ _ _ _ _ sp _ => sp

/-- Field `NodeStepPlugin` of a command. -/
def JobCommand.NodeStepPlugin : JobCommand → Option JobPlugin
  | .mk _ _ _ _ _ _ _ _ _ _ nsp => nsp

/-- Modelled from the spec: the declaration of struct `JobCommandSequence` is not among
the sources; `GlobalLogFilters` is a pointer to a slice. -/
structure JobCommandSequence where
  ContinueOnError : Bool
  OrderingStrategy : String
  Commands : List JobCommand
  GlobalLogFilters : Option (List JobLogFilter)

/-- Modelled from the spec: the declaration of struct `JobOption` is not among the
sources; the fields are those the translators read and write. -/
structure JobOption where
  Name : String
  Label : String
  DefaultValue : String
  ValueChoices : List String
  ValueChoicesURL : String
  RequirePredefinedChoice : Bool
  ValidationRegex : String
  Description : String
  IsRequired : Bool
  AllowsMultipleValues : Bool
  MultiValueDelimiter : String
  ObscureInput : Bool
  ValueIsExposedToScripts : Bool
  StoragePath : String
  IsDate : Bool
  DateFormat : String
deriving DecidableEq

/-- Modelled from the spec: the declaration of struct `JobOptions` is not among the
sources; a preserve-order flag and the options in order. -/
structure JobOptions where
  PreserveOrder : Bool
  Options : List JobOption
deriving DecidableEq

/-- Modelled from the spec: the declaration of struct `JobScheduleTime` is not among the sources. -/
structure JobScheduleTime where
  Seconds : String
  Minute : String
  Hour : String
deriving DecidableEq

/-- Modelled from the spec: the declaration of struct `JobScheduleMonth` is not among the sources. -/
structure JobScheduleMonth where
  Day : String
  Month : String
deriving DecidableEq

/-- Modelled from the spec: the declaration of struct `JobScheduleWeekDay` is not among the sources. -/
structure JobScheduleWeekDay where
  Day : String
deriving DecidableEq

/-- Modelled from the spec: the declaration of struct `JobScheduleYear` is not among the sources. -/
structure JobScheduleYear where
  Year : String
deriving DecidableEq

/-- Modelled from the spec: the declaration of struct `JobSchedule` is not among the
sources; six cron fields grouped as time, month, week day and year. -/
structure JobSchedule where
  Time : JobScheduleTime
  Month : JobScheduleMonth
  WeekDay : JobScheduleWeekDay
  Year : JobScheduleYear
deriving DecidableEq

/-- Modelled from the spec: the declaration of struct `EmailNotification` is not among the sources. -/
structure EmailNotification where
  AttachLog : Bool
  Recipients : List String
  Subject : String
deriving DecidableEq

/-- Modelled from the spec: the declaration of struct `WebHookNotification` is not among the sources. -/
structure WebHookNotification where
  Urls : List String
deriving DecidableEq

/-- Modelled from the spec: the declaration of struct `Notification` is not among the
sources; optional email, web hook and plugin payloads and the web hook format and method. -/
structure Notification where
  Email : Option EmailNotification
  WebHook : Option WebHookNotification
  Plugin : Option JobPlugin
  Format : String
  HttpMethod : String
deriving DecidableEq

/-- Modelled from the spec: the declaration of struct `JobNotification` is not among the
sources; one optional notification per trigger type. -/
structure JobNotification where
  OnSuccess : Option Notification
  OnFailure : Option Notification
  OnStart : Option Notification
deriving DecidableEq

/-- Modelled from the spec: the declaration of struct `JobDetail` is not among the
sources; the fields are those the translators read and write. -/
structure JobDetail where
  ID : String
  Name : String
  GroupName : String
  ProjectName : String
  Description : String
  ExecutionEnabled : Bool
  Timeout : String
  ScheduleEnabled : Bool
  TimeZone : String
  LogLevel : String
  AllowConcurrentExecutions : Bool
  Retry : String
  Dispatch : Option JobDispatch
  CommandSequence : Option JobCommandSequence
  OptionsConfig : Option JobOptions
  NodeFilter : Option JobNodeFilter
  Schedule : Option JobSchedule
  Notification : Option JobNotification

/-! ## The flat view: resource data as read with `d.Get` -/

/-- Entry of a `script_interpreter` list (schema `resourceRundeckJobCommandScriptInterpreter`). -/
structure FlatScriptInterpreter where
  invocation_string : String
  args_quoted : Bool
deriving DecidableEq

/-- Entry of a `node_filters` list inside a job reference. -/
structure FlatNodeFilter where
  exclude_precedence : Bool
  filter : String
  exclude_filter : String
deriving DecidableEq

/-- Entry of a `job` list as read from resource data (schema `resourceRundeckJobCommandJob`). -/
structure FlatJobRef where
  name : String
  group_name : String
  run_for_each_node : Bool
  args : String
  node_filters : List FlatNodeFilter
deriving DecidableEq

/-- Entry of a `step_plugin`, `node_step_plugin` or notification `plugin` list
(schema `resourceRundeckJobPluginResource`). -/
structure FlatPlugin where
  type : String
  config : StringMap
deriving DecidableEq

/-- Entry of the `global_log_filter` list (schema `resourceRundeckJobFilter`). -/
structure FlatLogFilter where
  type : String
  config : StringMap
deriving DecidableEq

/-- The map `commandI` that `commandFromResourceData` receives. The key `error_handler`
is `none` when the map has no such key (the error-handler schema
`resourceRundeckJobCommandErrorHandler`), and `some l` when it holds the list `l`
(the command schema `resourceRundeckJobCommand`); the map type itself does not bound
the nesting. -/
inductive FlatCommand where
  | mk (description shell_command inline_script script_file script_file_args : String)
      (keep_going_on_success : Bool)
      (error_handler : Option (List FlatCommand))
      (script_interpreter : List FlatScriptInterpreter)
      (job : List FlatJobRef)
      (step_plugin node_step_plugin : List FlatPlugin) : FlatCommand

/-- Entry of an option `value_choices` list is a string or `nil`. -/
abbrev FlatValueChoice := Option String

/-- Entry of the `option` list as read from resource data. -/
structure FlatOption where
  name : String
  label : String
  default_value : String
  value_choices : List FlatValueChoice
  value_choices_url : String
  require_predefined_choice : Bool
  validation_regex : String
  description : String
  required : Bool
  allow_multiple_values : Bool
  multi_value_delimiter : String
  obscure_input : Bool
  exposed_to_scripts : Bool
  storage_path : String
  is_date : Bool
  date_format : String
deriving DecidableEq

/-- Entry of a list of strings (`recipients`, `webhook_urls`) as `d.Get` returns it: a
string, or `nil` for an empty string given in the configuration. -/
abbrev FlatString := Option String

/-- Entry of a notification `email` list. -/
structure FlatEmail where
  attach_log : Bool
  recipients : List FlatString
  subject : String
deriving DecidableEq

/-- Entry of the `notification` list as read from resource data. -/
structure FlatNotification where
  type : String
  email : List FlatEmail
  webhook_urls : List FlatString
  webhook_http_method : String
  webhook_format : String
  plugin : List FlatPlugin
deriving DecidableEq

/-- The resource data `d` of a job: its id and the value `d.Get` returns for each
attribute of the schema `resourceRundeckJob` (the zero value when the attribute is unset). -/
structure ResourceData where
  Id : String
  name : String
  group_name : String
  project_name : String
  description : String
  execution_enabled : Bool
  timeout : String
  schedule_enabled : Bool
  time_zone : String
  log_level : String
  allow_concurrent_executions : Bool
  retry : String
  max_thread_count : Int
  continue_next_node_on_error : Bool
  rank_attribute : String
  rank_order : String
  success_on_empty_node_filter : Bool
  continue_on_error : Bool
  command_ordering_strategy : String
  global_log_filter : List FlatLogFilter
  command : List FlatCommand
  preserve_options_order : Bool
  option : List FlatOption
  node_filter_exclude_precedence : Bool
  node_filter_query : String
  node_filter_exclude_query : String
  schedule : String
  notification : List FlatNotification

/-- Resource data in which no attribute is set. -/
def ResourceData.empty : ResourceData :=
  { Id := "", name := "", group_name := "", project_name := "", description := "",
    execution_enabled := false, timeout := "", schedule_enabled := false, time_zone := "",
    log_level := "", allow_concurrent_executions := false, retry := "",
    max_thread_count := 0, continue_next_node_on_error := false, rank_attribute := "",
    rank_order := "", success_on_empty_node_filter := false, continue_on_error := false,
    command_ordering_strategy := "", global_log_filter := [], command := [],
    preserve_options_order := false, option := [], node_filter_exclude_precedence := false,
    node_filter_query := "", node_filter_exclude_query := "", schedule := "",
    notification := [] }

/-! ## The schedule codec -/

/-- Message of the error for a schedule that does not split into seven pieces. -/
def malformedScheduleMessage : String :=
  "the Rundeck schedule must be formatted like a cron expression, as defined here: http://www.quartz-scheduler.org/documentation/quartz-2.2.x/tutorials/tutorial-lesson-06.html"

/-- Message of the error for a schedule whose day fields break the rule, citing the text. -/
def invalidScheduleMessage (scheduleKey cronSpec : String) : String :=
  "invalid '" ++ scheduleKey ++ "' specification " ++ cronSpec ++
    " - one of day-of-month (4th item) or day-of-week (6th) must be '?'"

/-- Go `JobScheduleFromResourceData(d, job)`: reads attribute `schedule` and, when it is
not empty, stores the decoded schedule in `job`. Returns the job after the call and the
diagnostics; the schedule is stored before the day fields are checked. -/
def JobScheduleFromResourceData (d : ResourceData) (job : JobDetail) : JobDetail × Diagnostics :=
  let scheduleKey := "schedule"
  let cronSpec := d.schedule
  if cronSpec ≠ "" then
    match strings.Split cronSpec ' ' with
    | [s0, s1, s2, s3, s4, s5, s6] =>
      let job := { job with
        Schedule := some
          { Time := { Seconds := s0, Minute := s1, Hour := s2 },
            Month := { Day := s3, Month := s4 },
            WeekDay := { Day := s5 },
            Year := { Year := s6 } } }
      if s3 = s5 then
        if s3 ≠ "*" then (job, diag.FromErr (invalidScheduleMessage scheduleKey cronSpec))
        else (job, [])
      else if s3 ≠ "?" ∧ s5 ≠ "?" then
        (job, diag.FromErr (invalidScheduleMessage scheduleKey cronSpec))
      else (job, [])
    | _ => (job, diag.FromErr malformedScheduleMessage)
  else (job, [])

/-- Go `scheduleToCronSpec(schedule)`: fills an empty day-of-month and an empty
day-of-week in the schedule it is given, then joins the seven fields with spaces.
Returns the schedule after the call, the text and the diagnostics. -/
def scheduleToCronSpec (schedule : JobSchedule) : JobSchedule × String × Diagnostics :=
  let schedule :=
    if schedule.Month.Day = "" then
      if schedule.WeekDay.Day = "*" ∨ schedule.WeekDay.Day = "" then
        { schedule with Month := { schedule.Month with Day := "*" } }
      else
        { schedule with Month := { schedule.Month with Day := "?" } }
    else schedule
  let schedule :=
    if schedule.WeekDay.Day = "" then
      if schedule.Month.Day = "*" then
        { schedule with WeekDay := { schedule.WeekDay with Day := "*" } }
      else
        { schedule with WeekDay := { schedule.WeekDay with Day := "?" } }
    else schedule
  let cronSpec : List String := []
  let cronSpec := cronSpec ++ [schedule.Time.Seconds]
  let cronSpec := cronSpec ++ [schedule.Time.Minute]
  let cronSpec := cronSpec ++ [schedule.Time.Hour]
  let cronSpec := cronSpec ++ [schedule.Month.Day]
  let cronSpec := cronSpec ++ [schedule.Month.Month]
  let cronSpec := cronSpec ++ [schedule.WeekDay.Day]
  let cronSpec := cronSpec ++ [schedule.Year.Year]
  (schedule, strings.Join cronSpec ' ', [])

/-! ## Commands: from the flat view -/

/-- Copy of a configuration map entry by entry, as the loops
`for key, value := range configI { config[key] = value.(string) }` do. -/
def copyConfig (configI : StringMap) : StringMap :=
  configI.map (fun kv => (kv.1, kv.2))

/-- Go `jobCommandJobRefFromResourceData(key, commandMap)`; `jobRefsI` is the list
`commandMap[key]`. With no entry it returns no job reference together with a warning. -/
def jobCommandJobRefFromResourceData (key : String) (jobRefsI : List FlatJobRef) :
    Option JobCommandJobRef × Diagnostics :=
  match jobRefsI with
  | _ :: _ :: _ => (none, diag.FromErr ("rundeck command may have no more than one " ++ key))
  | [] =>
    (none, [{ Severity := DiagSeverity.Warning,
              Summary := "Command Job with key: \"" ++ key ++ "\" returned no results",
              Detail := "Returning nil" }])
  | [jobRefMap] =>
    let jobRef : JobCommandJobRef :=
      { Name := jobRefMap.name,
        GroupName := jobRefMap.group_name,
        RunForEachNode := jobRefMap.run_for_each_node,
        Arguments := jobRefMap.args,
        NodeFilter := none }
    match jobRefMap.node_filters with
    | _ :: _ :: _ =>
      (none, diag.FromErr "rundeck command job reference may have no more than one node filter")
    | [nodeFilterMap] =>
      (some { jobRef with
          NodeFilter := some
            { Query := nodeFilterMap.filter,
              ExcludeQuery := nodeFilterMap.exclude_filter,
              ExcludePrecedence := nodeFilterMap.exclude_precedence } }, [])
    | [] => (some jobRef, [])

/-- Go `singlePluginFromResourceData(key, commandMap)`; `stepPluginsI` is the list
`commandMap[key]`. With no entry it returns `nil, nil`. -/
def singlePluginFromResourceData (key : String) (stepPluginsI : List FlatPlugin) :
    Option JobPlugin × Diagnostics :=
  match stepPluginsI with
  | _ :: _ :: _ => (none, diag.FromErr ("rundeck command may have no more than one " ++ key))
  | [] => (none, [])
  | [stepPluginMap] =>
    (some { Type_ := stepPluginMap.type, Config := copyConfig stepPluginMap.config }, [])

/-- The part of `commandFromResourceData` after the error handler (lines 516 to 539):
script interpreter, job reference and the two plugins, stopping at the first
diagnostics that are not `nil`. -/
def commandSubBlocksFromResourceData
    (description shell_command inline_script script_file script_file_args : String)
    (keep_going_on_success : Bool) (errorHandler : Option JobCommand)
    (scriptInterpretersI : List FlatScriptInterpreter) (jobRefsI : List FlatJobRef)
    (stepPluginsI nodeStepPluginsI : List FlatPlugin) : Option JobCommand × Diagnostics :=
  match scriptInterpretersI with
  | _ :: _ :: _ =>
    (none, diag.FromErr "rundeck command may have no more than one script interpreter")
  | _ =>
    let scriptInterpreter : Option JobCommandScriptInterpreter :=
      match scriptInterpretersI with
      | scriptInterpreterMap :: _ =>
        some { InvocationString := scriptInterpreterMap.invocation_string,
               ArgsQuoted := scriptInterpreterMap.args_quoted }
      | [] => none
    match jobCommandJobRefFromResourceData "job" jobRefsI with
    | (jobRef, []) =>
      match singlePluginFromResourceData "step_plugin" stepPluginsI with
      | (stepPlugin, []) =>
        match singlePluginFromResourceData "node_step_plugin" nodeStepPluginsI with
        | (nodeStepPlugin, []) =>
          (some (JobCommand.mk description shell_command inline_script script_file
              script_file_args keep_going_on_success errorHandler scriptInterpreter jobRef
              stepPlugin nodeStepPlugin), [])
        | (_, err) => (none, err)
      | (_, err) => (none, err)
    | (_, err) => (none, err)

/-- Go `commandFromResourceData(commandI)`: the error handler first (only when the key
exists and holds a list), by a recursive call on its single entry, then the other
sub-blocks. -/
def commandFromResourceData : FlatCommand → Option JobCommand × Diagnostics
  | .mk description shell_command inline_script script_file script_file_args
      keep_going_on_success error_handler script_interpreter job step_plugin
      node_step_plugin =>
    match error_handler with
    | some (_ :: _ :: _) =>
      (none, diag.FromErr "rundeck command may have no more than one error handler")
    | some [errorHandlerMap] =>
      match commandFromResourceData errorHandlerMap with
      | (errorHandler, []) =>
        commandSubBlocksFromResourceData description shell_command inline_script script_file
          script_file_args keep_going_on_success errorHandler script_interpreter job
          step_plugin node_step_plugin
      | (_, err) => (none, err)
    | _ =>
      commandSubBlocksFromResourceData description shell_command inline_script script_file
        script_file_args keep_going_on_success none script_interpreter job step_plugin
        node_step_plugin

/-- The loop over `commandConfigs` in `jobFromResourceData` (lines 69 to 75): each command
is appended to `sequence.Commands`; the first diagnostics that are not `nil` end the loop. -/
def commandsFromResourceData : List FlatCommand → List JobCommand →
    Option (List JobCommand) × Diagnostics
  | [], commands => (some commands, [])
  | commandI :: rest, commands =>
    match commandFromResourceData commandI with
    | (some command, []) => commandsFromResourceData rest (commands ++ [command])
    | (none, []) => (none, [])
    | (_, err) => (none, err)

/-! ## Options: from the flat view -/

/-- The loop over `value_choices` (lines 114 to 119): a `nil` entry is an error, any other
entry is appended to the choices. -/
def valueChoicesFromResourceData : List FlatValueChoice → List String →
    Option (List String) × Diagnostics
  | [], choices => (some choices, [])
  | none :: _, _ =>
    (none, diag.FromErr "argument \"value_choices\" can not have empty values; try \"required\"")
  | some iv :: rest, choices => valueChoicesFromResourceData rest (choices ++ [iv])

/-- The body of the loop over the option records (lines 85 to 121): builds the option,
checks the three rules on its fields, then reads the value choices. -/
def optionFromResourceData (optionMap : FlatOption) : Option JobOption × Diagnostics :=
  let option : JobOption :=
    { Name := optionMap.name,
      Label := optionMap.label,
      DefaultValue := optionMap.default_value,
      ValueChoices := [],
      ValueChoicesURL := optionMap.value_choices_url,
      RequirePredefinedChoice := optionMap.require_predefined_choice,
      ValidationRegex := optionMap.validation_regex,
      Description := optionMap.description,
      IsRequired := optionMap.required,
      AllowsMultipleValues := optionMap.allow_multiple_values,
      MultiValueDelimiter := optionMap.multi_value_delimiter,
      ObscureInput := optionMap.obscure_input,
      ValueIsExposedToScripts := optionMap.exposed_to_scripts,
      StoragePath := optionMap.storage_path,
      IsDate := optionMap.is_date,
      DateFormat := optionMap.date_format }
  if option.StoragePath ≠ "" ∧ option.ObscureInput = false then
    (none, diag.FromErr
      "argument \"obscure_input\" must be set to `true` when \"storage_path\" is not empty")
  else if option.ValueIsExposedToScripts = true ∧ option.ObscureInput = false then
    (none, diag.FromErr
      "argument \"obscure_input\" must be set to `true` when \"exposed_to_scripts\" is set to true")
  else if option.IsDate = true ∧ option.DateFormat = "" then
    (none, diag.FromErr "if \"is_data\" is set, you must set \"date_format\" (in momentjs)")
  else
    match valueChoicesFromResourceData optionMap.value_choices option.ValueChoices with
    | (some choices, []) => (some { option with ValueChoices := choices }, [])
    | (none, []) => (none, [])
    | (_, err) => (none, err)

/-- The loop over `optionConfigsI` (lines 84 to 122): each option is appended to
`optionsConfig.Options`; the first error ends the loop. -/
def optionsFromResourceData : List FlatOption → List JobOption →
    Option (List JobOption) × Diagnostics
  | [], options => (some options, [])
  | optionI :: rest, options =>
    match optionFromResourceData optionI with
    | (some option, []) => optionsFromResourceData rest (options ++ [option])
    | (none, []) => (none, [])
    | (_, err) => (none, err)

/-! ## Notifications: from the flat view -/

/-- Copy of a list of strings entry by entry, as the loops
`for _, iv := range l { out = append(out, iv.(string)) }` do (lines 159 to 161 and 171
to 173). The type assertion `iv.(string)` is made with no test for `nil`: on a `nil`
entry it panics, and the result is `none`. -/
def copyStrings : List FlatString → List String → Option (List String)
  | [], out => some out
  | some iv :: rest, out => copyStrings rest (out ++ [iv])
  | none :: _, _ => none

/-- The first part of the body of the loop over the notification blocks (lines 146 to
195): email payload from the first `email` entry, web hook payload when `webhook_urls`
is not empty, and at most one plugin payload. A `nil` entry of `recipients` or of
`webhook_urls` ends the call in a panic at the type assertion: the result is then
`(none, [])`, neither a notification nor diagnostics. -/
def notificationFromResourceData (notificationMap : FlatNotification) :
    Option Notification × Diagnostics :=
  let notification : Notification :=
    { Email := none, WebHook := none, Plugin := none, Format := "", HttpMethod := "" }
  let emailResult : Option Notification :=
    match notificationMap.email with
    | notificationEmailI :: _ =>
      match copyStrings notificationEmailI.recipients [] with
      | some recipients =>
        some { notification with
          Email := some
            { AttachLog := notificationEmailI.attach_log,
              Recipients := recipients,
              Subject := notificationEmailI.subject } }
      | none => none
    | [] => some notification
  match emailResult with
  | none => (none, [])
  | some notification =>
    let webHookResult : Option Notification :=
      if notificationMap.webhook_urls.length > 0 then
        match copyStrings notificationMap.webhook_urls [] with
        | some urls =>
          some { notification with
            WebHook := some { Urls := urls },
            Format := notificationMap.webhook_format,
            HttpMethod := notificationMap.webhook_http_method }
        | none => none
      else some notification
    match webHookResult with
    | none => (none, [])
    | some notification =>
      match notificationMap.plugin with
      | _ :: _ :: _ =>
        (none, diag.FromErr "rundeck command may have no more than one notification plugin")
      | [notificationPluginMap] =>
        (some { notification with
            Plugin := some
              { Type_ := notificationPluginMap.type,
                Config := copyConfig notificationPluginMap.config } }, [])
      | [] => (some notification, [])

/-- The `switch jobType` of the loop over the notification blocks (lines 197 to 218):
stores the notification in the slot of its type, unless the slot is taken or the type
is unknown. -/
def assignNotification (jobType : String) (notification : Notification)
    (jobNotification : JobNotification) : Option JobNotification × Diagnostics :=
  if jobType = "on_success" then
    if jobNotification.OnSuccess ≠ none then
      (none, diag.FromErr ("a block with " ++ jobType ++ " already exists"))
    else (some { jobNotification with OnSuccess := some notification }, [])
  else if jobType = "on_failure" then
    if jobNotification.OnFailure ≠ none then
      (none, diag.FromErr ("a block with " ++ jobType ++ " already exists"))
    else (some { jobNotification with OnFailure := some notification }, [])
  else if jobType = "on_start" then
    if jobNotification.OnStart ≠ none then
      (none, diag.FromErr ("a block with " ++ jobType ++ " already exists"))
    else (some { jobNotification with OnStart := some notification }, [])
  else
    (none, diag.FromErr
      "the notification type is not one of `on_success`, `on_failure`, `on_start`")

/-- The loop over `notificationsConfigI` (lines 145 to 219), threading `jobNotification`;
the first block that yields diagnostics, or on which the call panics, ends the loop. -/
def notificationsFromResourceData : List FlatNotification → JobNotification →
    Option JobNotification × Diagnostics
  | [], jobNotification => (some jobNotification, [])
  | notificationI :: rest, jobNotification =>
    match notificationFromResourceData notificationI with
    | (some notification, []) =>
      match assignNotification notificationI.type notification jobNotification with
      | (some jobNotification, []) => notificationsFromResourceData rest jobNotification
      | (none, []) => (none, [])
      | (_, err) => (none, err)
    | (none, []) => (none, [])
    | (_, err) => (none, err)

/-- The notification part of `jobFromResourceData` when there is at least one block
(lines 142 to 222): the notification set and the diagnostics. `job.Notification` points
to the local `jobNotification`, so it holds every slot assigned by the loop. -/
def jobNotificationFromResourceData (notificationsConfigI : List FlatNotification) :
    Option JobNotification × Diagnostics :=
  if notificationsConfigI.length ≤ 3 then
    notificationsFromResourceData notificationsConfigI
      { OnSuccess := none, OnFailure := none, OnStart := none }
  else
    (none, diag.FromErr
      "can only have up to three notification blocks, `on_success`, `on_failure`, `on_start`")

/-! ## The job: from the flat view -/

/-- The global log filters of `jobFromResourceData` (lines 48 to 67): set only when the
list is not empty, each filter with a copy of its configuration. -/
def globalLogFiltersFromResourceData (logFilterConfigs : List FlatLogFilter) :
    Option (List JobLogFilter) :=
  if logFilterConfigs.length > 0 then
    some (logFilterConfigs.foldl
      (fun globalLogFilters logFilterMap =>
        globalLogFilters ++
          [{ Type_ := logFilterMap.type, Config := some (copyConfig logFilterMap.config) }])
      [])
  else none

/-- Go `jobFromResourceData(d)`: scalars and dispatch, command sequence, options, node
filter, schedule, notifications, in this order; the first diagnostics that are not `nil`
are returned with no job. The result `(none, [])`, neither a job nor diagnostics, is that
of a call that panics while it reads the notification blocks. -/
def jobFromResourceData (d : ResourceData) : Option JobDetail × Diagnostics :=
  let job : JobDetail :=
    { ID := d.Id,
      Name := d.name,
      GroupName := d.group_name,
      ProjectName := d.project_name,
      Description := d.description,
      ExecutionEnabled := d.execution_enabled,
      Timeout := d.timeout,
      ScheduleEnabled := d.schedule_enabled,
      TimeZone := d.time_zone,
      LogLevel := d.log_level,
      AllowConcurrentExecutions := d.allow_concurrent_executions,
      Retry := d.retry,
      Dispatch := some
        { MaxThreadCount := d.max_thread_count,
          ContinueNextNodeOnError := d.continue_next_node_on_error,
          RankAttribute := d.rank_attribute,
          RankOrder := d.rank_order,
          SuccessOnEmptyNodeFilter := d.success_on_empty_node_filter },
      CommandSequence := none, OptionsConfig := none, NodeFilter := none,
      Schedule := none, Notification := none }
  let sequence : JobCommandSequence :=
    { ContinueOnError := d.continue_on_error,
      OrderingStrategy := d.command_ordering_strategy,
      Commands := [],
      GlobalLogFilters := globalLogFiltersFromResourceData d.global_log_filter }
  match commandsFromResourceData d.command sequence.Commands with
  | (none, []) => (none, [])
  | (some commands, []) =>
    let job := { job with CommandSequence := some { sequence with Commands := commands } }
    let optionsResult : Option (Option JobOptions) × Diagnostics :=
      if d.option.length > 0 then
        match optionsFromResourceData d.option [] with
        | (some options, []) =>
          (some (some { PreserveOrder := d.preserve_options_order, Options := options }), [])
        | (none, []) => (none, [])
        | (_, err) => (none, err)
      else (some job.OptionsConfig, [])
    match optionsResult with
    | (none, []) => (none, [])
    | (some optionsConfig, []) =>
      let job := { job with OptionsConfig := optionsConfig }
      let nodeFilter : JobNodeFilter :=
        { ExcludePrecedence := d.node_filter_exclude_precedence, Query := "", ExcludeQuery := "" }
      let nodeFilter :=
        if d.node_filter_query ≠ "" then { nodeFilter with Query := d.node_filter_query }
        else nodeFilter
      let nodeFilter :=
        if d.node_filter_exclude_query ≠ "" then
          { nodeFilter with ExcludeQuery := d.node_filter_exclude_query }
        else nodeFilter
      let job := { job with NodeFilter := some nodeFilter }
      match JobScheduleFromResourceData d job with
      | (job, []) =>
        if d.notification.length > 0 then
          match jobNotificationFromResourceData d.notification with
          | (some jobNotification, []) =>
            (some { job with Notification := some jobNotification }, [])
          | (none, []) => (none, [])
          | (_, err) => (none, err)
        else (some job, [])
      | (_, err) => (none, err)
    | (_, err) => (none, err)
  | (_, err) => (none, err)

/-! ## The maps written by the read path, and how resource data returns them -/

/-- The map built for a job reference by `commandToResourceData`; `node_filters` is
`none` when the key is not written. -/
structure JobRefConfig where
  name : String
  group_name : String
  run_for_each_node : Bool
  args : String
  node_filters : Option (List FlatNodeFilter)
deriving DecidableEq

/-- The map returned by `commandToResourceData`; each sub-block is `none` when its key is
not written, and `some l` when the key holds the list `l`. -/
inductive CommandConfig where
  | mk (description shell_command inline_script script_file script_file_args : String)
      (keep_going_on_success : Bool)
      (error_handler : Option (List CommandConfig))
      (script_interpreter : Option (List FlatScriptInterpreter))
      (job : Option (List JobRefConfig))
      (step_plugin node_step_plugin : Option (List FlatPlugin)) : CommandConfig

/-- The map built for an option by `jobToResourceData`: fourteen keys. -/
structure OptionConfig where
  name : String
  label : String
  default_value : String
  value_choices : List String
  value_choices_url : String
  require_predefined_choice : Bool
  validation_regex : String
  description : String
  required : Bool
  allow_multiple_values : Bool
  multi_value_delimiter : String
  obscure_input : Bool
  exposed_to_scripts : Bool
  storage_path : String
deriving DecidableEq

/-- The map built for an email payload by `readNotification`. -/
structure EmailConfig where
  attach_log : Bool
  subject : String
  recipients : List String
deriving DecidableEq

/-- The map returned by `readNotification`; a key that is not written is `none`. -/
structure NotificationConfig where
  type : String
  webhook_urls : Option (List String)
  webhook_http_method : Option String
  webhook_format : Option String
  email : Option (List EmailConfig)
  plugin : Option (List FlatPlugin)
deriving DecidableEq

/-- A job reference map as resource data returns it after `d.Set`: a key that was
not written reads as the empty list. -/
def JobRefConfig.stored (c : JobRefConfig) : FlatJobRef :=
  { name := c.name, group_name := c.group_name, run_for_each_node := c.run_for_each_node,
    args := c.args, node_filters := c.node_filters.getD [] }

/-- The entries of a written list as resource data returns them after `d.Set`, or `none`
when the write of one of them is refused. -/
def storedEach {α β : Type} (stored : α → Option β) : List α → Option (List β)
  | [] => some []
  | entry :: rest =>
    match stored entry, storedEach stored rest with
    | some entryI, some restI => some (entryI :: restI)
    | _, _ => none

/-- An error-handler map as resource data returns it after `d.Set`, or `none` when the
write is refused. The keys are those of the schema `resourceRundeckJobCommandErrorHandler`,
which has no key `error_handler`: `d.Set` refuses a map that holds this key (invalid
address `command.N.error_handler.0.error_handler`). A sub-block that was not written
reads as the empty list. -/
def CommandConfig.storedErrorHandler : CommandConfig → Option FlatCommand
  | .mk description shell_command inline_script script_file script_file_args
      keep_going_on_success error_handler script_interpreter job step_plugin
      node_step_plugin =>
    match error_handler with
    | some _ => none
    | none =>
      some (FlatCommand.mk description shell_command inline_script script_file
        script_file_args keep_going_on_success none (script_interpreter.getD [])
        ((job.getD []).map JobRefConfig.stored) (step_plugin.getD [])
        (node_step_plugin.getD []))

/-- A command map as resource data returns it after `d.Set`, or `none` when the write is
refused, which it is when an error-handler map is. The keys are those of the schema
`resourceRundeckJobCommand`; a sub-block that was not written reads as the empty list. -/
def CommandConfig.stored : CommandConfig → Option FlatCommand
  | .mk description shell_command inline_script script_file script_file_args
      keep_going_on_success error_handler script_interpreter job step_plugin
      node_step_plugin =>
    match storedEach CommandConfig.storedErrorHandler (error_handler.getD []) with
    | some errorHandlersI =>
      some (FlatCommand.mk description shell_command inline_script script_file
        script_file_args keep_going_on_success (some errorHandlersI)
        (script_interpreter.getD []) ((job.getD []).map JobRefConfig.stored)
        (step_plugin.getD []) (node_step_plugin.getD []))
    | none => none

/-- An option map as resource data returns it after `d.Set`: the keys `is_date` and
`date_format`, which the map does not hold, read as the zero values; a value choice
written with `d.Set` reads back as that string. -/
def OptionConfig.stored (c : OptionConfig) : FlatOption :=
  { name := c.name, label := c.label, default_value := c.default_value,
    value_choices := c.value_choices.map some, value_choices_url := c.value_choices_url,
    require_predefined_choice := c.require_predefined_choice,
    validation_regex := c.validation_regex, description := c.description,
    required := c.required, allow_multiple_values := c.allow_multiple_values,
    multi_value_delimiter := c.multi_value_delimiter, obscure_input := c.obscure_input,
    exposed_to_scripts := c.exposed_to_scripts, storage_path := c.storage_path,
    is_date := false, date_format := "" }

/-- An email map as resource data returns it after `d.Set`: a recipient written with
`d.Set` reads back as that string. -/
def EmailConfig.stored (c : EmailConfig) : FlatEmail :=
  { attach_log := c.attach_log, recipients := c.recipients.map some, subject := c.subject }

/-- A notification map as resource data returns it after `d.Set`: a key that was not
written reads as the zero value of its type, and a URL written with `d.Set` reads back
as that string. -/
def NotificationConfig.stored (c : NotificationConfig) : FlatNotification :=
  { type := c.type, email := (c.email.getD []).map EmailConfig.stored,
    webhook_urls := (c.webhook_urls.getD []).map some,
    webhook_http_method := c.webhook_http_method.getD "",
    webhook_format := c.webhook_format.getD "", plugin := c.plugin.getD [] }

/-! ## Commands and notifications: to the flat view -/

/-- Go `commandToResourceData(command)`: the six scalars, then one single-entry list for
each sub-object that is present, the error handler by a recursive call. -/
def commandToResourceData : JobCommand → Option CommandConfig × Diagnostics
  | .mk Description ShellCommand Script ScriptFile ScriptFileArgs KeepGoingOnSuccess
      ErrorHandler ScriptInterpreter Job StepPlugin NodeStepPlugin =>
    let scriptInterpreter : Option (List FlatScriptInterpreter) :=
      match ScriptInterpreter with
      | some si => some [{ invocation_string := si.InvocationString, args_quoted := si.ArgsQuoted }]
      | none => none
    let job : Option (List JobRefConfig) :=
      match Job with
      | some jobRef =>
        let nodeFilters : Option (List FlatNodeFilter) :=
          match jobRef.NodeFilter with
          | some nodeFilter =>
            some ([] ++
              [{ exclude_precedence := nodeFilter.ExcludePrecedence,
                 filter := nodeFilter.Query,
                 exclude_filter := nodeFilter.ExcludeQuery }])
          | none => none
        some ([] ++
          [{ name := jobRef.Name, group_name := jobRef.GroupName,
             run_for_each_node := jobRef.RunForEachNode, args := jobRef.Arguments,
             node_filters := nodeFilters }])
      | none => none
    let stepPlugin : Option (List FlatPlugin) :=
      match StepPlugin with
      | some plugin => some [{ type := plugin.Type_, config := plugin.Config }]
      | none => none
    let nodeStepPlugin : Option (List FlatPlugin) :=
      match NodeStepPlugin with
      | some plugin => some [{ type := plugin.Type_, config := plugin.Config }]
      | none => none
    match ErrorHandler with
    | some errorHandler =>
      match commandToResourceData errorHandler with
      | (some errorHandlerI, []) =>
        (some (CommandConfig.mk Description ShellCommand Script ScriptFile ScriptFileArgs
          KeepGoingOnSuccess (some [errorHandlerI]) scriptInterpreter job stepPlugin
          nodeStepPlugin), [])
      | (none, []) => (none, [])
      | (_, err) => (none, err)
    | none =>
      (some (CommandConfig.mk Description ShellCommand Script ScriptFile ScriptFileArgs
        KeepGoingOnSuccess none scriptInterpreter job stepPlugin nodeStepPlugin), [])

/-- The loop over `job.CommandSequence.Commands` in `jobToResourceData` (lines 372 to
378); the first diagnostics that are not `nil` end the loop. -/
def commandsToResourceData : List JobCommand → List CommandConfig →
    Option (List CommandConfig) × Diagnostics
  | [], commandConfigsI => (some commandConfigsI, [])
  | command :: rest, commandConfigsI =>
    match commandToResourceData command with
    | (some commandConfigI, []) => commandsToResourceData rest (commandConfigsI ++ [commandConfigI])
    | (none, []) => (none, [])
    | (_, err) => (none, err)

/-- Go `readNotification(notification, notificationType)`. -/
def readNotification (notification : Notification) (notificationType : String) :
    NotificationConfig :=
  let notificationConfigI : NotificationConfig :=
    { type := notificationType, webhook_urls := none, webhook_http_method := none,
      webhook_format := none, email := none, plugin := none }
  let notificationConfigI :=
    match notification.WebHook with
    | some webHook =>
      { notificationConfigI with
        webhook_urls := some webHook.Urls,
        webhook_http_method := some notification.HttpMethod,
        webhook_format := some notification.Format }
    | none => notificationConfigI
  let notificationConfigI :=
    match notification.Email with
    | some email =>
      { notificationConfigI with
        email := some
          [{ attach_log := email.AttachLog, subject := email.Subject,
             recipients := email.Recipients }] }
    | none => notificationConfigI
  let notificationConfigI :=
    match notification.Plugin with
    | some plugin =>
      { notificationConfigI with
        plugin := some [{ type := plugin.Type_, config := plugin.Config }] }
    | none => notificationConfigI
  notificationConfigI

/-! ## The job: to the flat view -/

/-- The loop over the global log filters in `jobToResourceData` (lines 359 to 365). It
dereferences `logFilter.Config`; the result is `none` when that pointer is `nil`, where
the Go code does not return. -/
def globalLogFiltersToResourceData : List JobLogFilter → List FlatLogFilter →
    Option (List FlatLogFilter)
  | [], globalLogFilterConfigsI => some globalLogFilterConfigsI
  | logFilter :: rest, globalLogFilterConfigsI =>
    match logFilter.Config with
    | some config =>
      globalLogFiltersToResourceData rest
        (globalLogFilterConfigsI ++ [{ type := logFilter.Type_, config := config }])
    | none => none

/-- The map built for one option in `jobToResourceData` (lines 326 to 341). -/
def optionToResourceData (option : JobOption) : OptionConfig :=
  { name := option.Name,
    label := option.Label,
    default_value := option.DefaultValue,
    value_choices := option.ValueChoices,
    value_choices_url := option.ValueChoicesURL,
    require_predefined_choice := option.RequirePredefinedChoice,
    validation_regex := option.ValidationRegex,
    description := option.Description,
    required := option.IsRequired,
    allow_multiple_values := option.AllowsMultipleValues,
    multi_value_delimiter := option.MultiValueDelimiter,
    obscure_input := option.ObscureInput,
    exposed_to_scripts := option.ValueIsExposedToScripts,
    storage_path := option.StoragePath }

/-- The list `optionConfigsI` built in `jobToResourceData` (lines 320 to 344): one map
per option, in order, and the empty list when the job has no options. -/
def optionsToResourceData (optionsConfig : Option JobOptions) : List OptionConfig :=
  let optionConfigsI : List OptionConfig := []
  match optionsConfig with
  | some optionsConfig =>
    optionsConfig.Options.foldl
      (fun optionConfigsI option => optionConfigsI ++ [optionToResourceData option])
      optionConfigsI
  | none => optionConfigsI

/-- The list `notificationConfigsI` built in `jobToResourceData` (lines 393 to 407): one
map per populated slot, in the order success, failure, start. -/
def jobNotificationToResourceData (notification : Option JobNotification) :
    List NotificationConfig :=
  let notificationConfigsI : List NotificationConfig := []
  match notification with
  | some jobNotification =>
    let notificationConfigsI :=
      match jobNotification.OnSuccess with
      | some notification =>
        notificationConfigsI ++ [readNotification notification "on_success"]
      | none => notificationConfigsI
    let notificationConfigsI :=
      match jobNotification.OnFailure with
      | some notification =>
        notificationConfigsI ++ [readNotification notification "on_failure"]
      | none => notificationConfigsI
    let notificationConfigsI :=
      match jobNotification.OnStart with
      | some notification =>
        notificationConfigsI ++ [readNotification notification "on_start"]
      | none => notificationConfigsI
    notificationConfigsI
  | none => notificationConfigsI

/-- Text of the error with which `d.Set` refuses a value that holds a key the schema does
not have; the text of the library goes on with the address of the key. -/
def invalidAddressMessage : String := "Invalid address to set"

/-- The command sequence part of `jobToResourceData` (lines 349 to 382): the resource
data after it and the diagnostics returned at this point, if any; `none` when the Go
code does not return. The write `d.Set("command", commandConfigsI)` is refused when an
error-handler map holds the key `error_handler`; the error is wrapped and returned
(lines 379 to 381), and the resource data are then taken as they were before this
write. -/
def commandSequenceToResourceData (commandSequence : Option JobCommandSequence)
    (d : ResourceData) : Option (ResourceData × Diagnostics) :=
  match commandSequence with
  | some sequence =>
    let d := { d with command_ordering_strategy := sequence.OrderingStrategy }
    let d := { d with continue_on_error := sequence.ContinueOnError }
    let logFiltersResult : Option ResourceData :=
      match sequence.GlobalLogFilters with
      | some globalLogFilters =>
        if globalLogFilters.length > 0 then
          match globalLogFiltersToResourceData globalLogFilters [] with
          | some globalLogFilterConfigsI =>
            some { d with global_log_filter := globalLogFilterConfigsI }
          | none => none
        else some d
      | none => some d
    match logFiltersResult with
    | some d =>
      match commandsToResourceData sequence.Commands [] with
      | (some commandConfigsI, []) =>
        match storedEach CommandConfig.stored commandConfigsI with
        | some commandsI => some ({ d with command := commandsI }, [])
        | none =>
          some (d, diag.FromErr ("failed to set `command`: " ++ invalidAddressMessage))
      | (none, []) => none
      | (_, err) => some (d, err)
    | none => none
  | none => some (d, [])

/-- The first part of `jobToResourceData` (lines 231 to 347): the id, the scalar
attributes, the dispatch and node filter attributes and the options. Every `d.Set` of a
value of the attribute type succeeds and stores it; setting `nil` unsets the attribute,
which then reads as the zero value. -/
def jobAttributesToResourceData (job : JobDetail) (d : ResourceData) : ResourceData :=
  let d := { d with Id := job.ID }
  let d := { d with name := job.Name }
  let d := { d with group_name := job.GroupName }
  let d := if job.ProjectName ≠ "" then { d with project_name := job.ProjectName } else d
  let d := { d with description := job.Description }
  let d := { d with execution_enabled := job.ExecutionEnabled }
  let d := { d with schedule_enabled := job.ScheduleEnabled }
  let d := { d with time_zone := job.TimeZone }
  let d := { d with log_level := job.LogLevel }
  let d := { d with allow_concurrent_executions := job.AllowConcurrentExecutions }
  let d := { d with retry := job.Retry }
  let d :=
    match job.Dispatch with
    | some dispatch =>
      { d with
        max_thread_count := dispatch.MaxThreadCount,
        continue_next_node_on_error := dispatch.ContinueNextNodeOnError,
        rank_attribute := dispatch.RankAttribute,
        rank_order := dispatch.RankOrder }
    | none =>
      { d with
        max_thread_count := 1,
        continue_next_node_on_error := false,
        rank_attribute := "",
        rank_order := "ascending" }
  let d :=
    match job.NodeFilter with
    | some nodeFilter =>
      { d with
        node_filter_query := nodeFilter.Query,
        node_filter_exclude_query := nodeFilter.ExcludeQuery,
        node_filter_exclude_precedence := nodeFilter.ExcludePrecedence }
    | none =>
      { d with
        node_filter_query := "",
        node_filter_exclude_query := "",
        node_filter_exclude_precedence := false }
  let d :=
    match job.OptionsConfig with
    | some optionsConfig => { d with preserve_options_order := optionsConfig.PreserveOrder }
    | none => d
  let optionConfigsI := optionsToResourceData job.OptionsConfig
  { d with option := optionConfigsI.map OptionConfig.stored }

/-- The schedule part of `jobToResourceData` (lines 384 to 392): the attribute
`schedule` is set only when the job has a schedule. Returns the resource data after it
and the diagnostics returned at this point, if any. -/
def jobScheduleToResourceData (schedule : Option JobSchedule) (d : ResourceData) :
    ResourceData × Diagnostics :=
  match schedule with
  | some schedule =>
    match scheduleToCronSpec schedule with
    | (_, cronSpec, []) => ({ d with schedule := cronSpec }, [])
    | (_, _, err) => (d, err)
  | none => (d, [])

/-- Go `jobToResourceData(job, d)`: writes the job into the resource data `d`, part by
part. Returns the resource data after the call and the diagnostics, or `none` when the
Go code does not return. Diagnostics returned by the command sequence part (a refused
write of `command`) or by the schedule encoder end the call before the later writes. -/
def jobToResourceData (job : JobDetail) (d : ResourceData) :
    Option (ResourceData × Diagnostics) :=
  let d := jobAttributesToResourceData job d
  match commandSequenceToResourceData job.CommandSequence d with
  | some (d, []) =>
    match jobScheduleToResourceData job.Schedule d with
    | (d, []) =>
      let notificationConfigsI := jobNotificationToResourceData job.Notification
      let d := { d with notification := notificationConfigsI.map NotificationConfig.stored }
      some (d, [])
    | (d, err) => some (d, err)
  | some (d, err) => some (d, err)
  | none => none

/-- Translation of a job to the flat view and back: `jobFromResourceData` on the
resource data that `jobToResourceData job d` leaves, when that call returns with no
diagnostics. -/
def roundTrip (job : JobDetail) (d : ResourceData) : Option JobDetail × Diagnostics :=
  match jobToResourceData job d with
  | some (d, []) => jobFromResourceData d
  | some (_, err) => (none, err)
  | none => (none, [])

/-- A job with every field empty, used as the job under construction in examples. -/
def JobDetail.blank : JobDetail :=
  { ID := "", Name := "", GroupName := "", ProjectName := "", Description := "",
    ExecutionEnabled := false, Timeout := "", ScheduleEnabled := false, TimeZone := "",
    LogLevel := "", AllowConcurrentExecutions := false, Retry := "", Dispatch := none,
    CommandSequence := none, OptionsConfig := none, NodeFilter := none, Schedule := none,
    Notification := none }

/-! ## Properties named in the specification -/

/-- The rule on the two day fields, in the words of the specification: both are `*`, or
exactly one of them is `?`. -/
def dayFieldsExclusive (dom dow : String) : Prop :=
  (dom = "*" ∧ dow = "*") ∨ (dom = "?" ∧ dow ≠ "?") ∨ (dom ≠ "?" ∧ dow = "?")

instance (dom dow : String) : Decidable (dayFieldsExclusive dom dow) := by
  unfold dayFieldsExclusive; infer_instance

/-- The seven fields of a schedule in the order of the cron text. -/
def JobSchedule.fields (s : JobSchedule) : List String :=
  [s.Time.Seconds, s.Time.Minute, s.Time.Hour, s.Month.Day, s.Month.Month, s.WeekDay.Day,
    s.Year.Year]

/-- The four rules on an option record, in the words of the specification: a storage
path requires an obscured input, exposure to scripts requires an obscured input, a date
option requires a date format, and no value choice is null. -/
def optionInvariants (o : FlatOption) : Prop :=
  (o.storage_path ≠ "" → o.obscure_input = true) ∧
  (o.exposed_to_scripts = true → o.obscure_input = true) ∧
  (o.is_date = true → o.date_format ≠ "") ∧
  (∀ v ∈ o.value_choices, v ≠ none)

instance (o : FlatOption) : Decidable (optionInvariants o) := by
  unfold optionInvariants; infer_instance

/-- The option that the loop body builds from a record that passes the checks. -/
def FlatOption.toJobOption (optionMap : FlatOption) : JobOption :=
  { Name := optionMap.name,
    Label := optionMap.label,
    DefaultValue := optionMap.default_value,
    ValueChoices := optionMap.value_choices.filterMap id,
    ValueChoicesURL := optionMap.value_choices_url,
    RequirePredefinedChoice := optionMap.require_predefined_choice,
    ValidationRegex := optionMap.validation_regex,
    Description := optionMap.description,
    IsRequired := optionMap.required,
    AllowsMultipleValues := optionMap.allow_multiple_values,
    MultiValueDelimiter := optionMap.multi_value_delimiter,
    ObscureInput := optionMap.obscure_input,
    ValueIsExposedToScripts := optionMap.exposed_to_scripts,
    StoragePath := optionMap.storage_path,
    IsDate := optionMap.is_date,
    DateFormat := optionMap.date_format }

/-- A job with an empty command sequence, a node filter and one date option named
`when` with the date format `YYYY-MM-DD`. -/
def jobWithDateOption : JobDetail :=
  { JobDetail.blank with
    Dispatch := some ⟨1, false, "", "ascending", false⟩,
    CommandSequence := some ⟨false, "node-first", [], none⟩,
    NodeFilter := some ⟨false, "", ""⟩,
    OptionsConfig := some
      { PreserveOrder := false,
        Options :=
          [{ Name := "when", Label := "", DefaultValue := "", ValueChoices := [],
             ValueChoicesURL := "", RequirePredefinedChoice := false, ValidationRegex := "",
             Description := "", IsRequired := false, AllowsMultipleValues := false,
             MultiValueDelimiter := "", ObscureInput := false,
             ValueIsExposedToScripts := false, StoragePath := "", IsDate := true,
             DateFormat := "YYYY-MM-DD" }] } }

/-- A job with an empty command sequence and a node filter, and no dispatch settings. -/
def jobWithoutDispatch : JobDetail :=
  { JobDetail.blank with
    Name := "nightly",
    CommandSequence := some ⟨false, "node-first", [], none⟩,
    NodeFilter := some ⟨false, "", ""⟩ }

/-- A command that the two command translators carry to the flat view and back: it
holds a job reference, and its error handler, if any, holds a job reference and has no
error handler of its own. -/
def JobCommand.roundTrips (command : JobCommand) : Prop :=
  command.Job ≠ none ∧
    ∀ errorHandler, command.ErrorHandler = some errorHandler →
      errorHandler.Job ≠ none ∧ errorHandler.ErrorHandler = none

/-- A notification that `readNotification` and the notification reader carry to the
flat view and back: a web hook has at least one URL, and without a web hook the format
and the method are empty. -/
def Notification.roundTrips (notification : Notification) : Prop :=
  (∀ webHook, notification.WebHook = some webHook → webHook.Urls ≠ []) ∧
    (notification.WebHook = none → notification.Format = "" ∧ notification.HttpMethod = "")

/-- A notification set that is carried to the flat view and back: at least one slot is
populated and every populated slot holds a notification that is carried back. -/
def JobNotification.roundTrips (jobNotification : JobNotification) : Prop :=
  (jobNotification.OnSuccess ≠ none ∨ jobNotification.OnFailure ≠ none ∨
      jobNotification.OnStart ≠ none) ∧
    (∀ n, jobNotification.OnSuccess = some n → n.roundTrips) ∧
    (∀ n, jobNotification.OnFailure = some n → n.roundTrips) ∧
    (∀ n, jobNotification.OnStart = some n → n.roundTrips)

/-- An option that the option copies carry to the flat view and back: the storage path
and the exposure to scripts each come with an obscured input, and the option is not a
date option (`IsDate` false, `DateFormat` empty). -/
def JobOption.roundTrips (o : JobOption) : Prop :=
  (o.StoragePath ≠ "" → o.ObscureInput = true) ∧
    (o.ValueIsExposedToScripts = true → o.ObscureInput = true) ∧
    o.IsDate = false ∧ o.DateFormat = ""

/-- A schedule that the schedule codec carries to the cron text and back: no field
holds a space, neither day field is empty, and the day fields satisfy the rule. -/
def JobSchedule.roundTrips (s : JobSchedule) : Prop :=
  (∀ f ∈ s.fields, ' ' ∉ f.data) ∧ s.Month.Day ≠ "" ∧ s.WeekDay.Day ≠ "" ∧
    dayFieldsExclusive s.Month.Day s.WeekDay.Day

/-- The jobs, with the resource data they are written into, for which the translation
to the flat view and back is shown to return the job: dispatch, node filter and command
sequence are present; every command is carried back; the global log filters are absent
or a non-empty list of filters with a configuration; the options, if any, are a
non-empty list of options that are carried back; the schedule and the notification set,
if any, are carried back; and the attributes that `jobToResourceData` leaves untouched
already agree with the job. -/
def JobDetail.roundTripsFrom (job : JobDetail) (d : ResourceData) : Prop :=
  (∃ dispatch, job.Dispatch = some dispatch ∧
      d.success_on_empty_node_filter = dispatch.SuccessOnEmptyNodeFilter) ∧
  job.NodeFilter ≠ none ∧
  (∃ sequence, job.CommandSequence = some sequence ∧
      (∀ c ∈ sequence.Commands, c.roundTrips) ∧
      ((sequence.GlobalLogFilters = none ∧ d.global_log_filter = []) ∨
        ∃ l, sequence.GlobalLogFilters = some l ∧ l ≠ [] ∧ ∀ f ∈ l, f.Config ≠ none)) ∧
  (∀ optionsConfig, job.OptionsConfig = some optionsConfig →
      optionsConfig.Options ≠ [] ∧ ∀ o ∈ optionsConfig.Options, o.roundTrips) ∧
  ((job.Schedule = none ∧ d.schedule = "") ∨
      ∃ schedule, job.Schedule = some schedule ∧ schedule.roundTrips) ∧
  (∀ jobNotification, job.Notification = some jobNotification → jobNotification.roundTrips) ∧
  d.timeout = job.Timeout ∧
  (job.ProjectName = "" → d.project_name = "")

/-- An error handler that runs the job `alert`. -/
def sampleErrorHandler : JobCommand :=
  JobCommand.mk "notify" "" "" "" "" false none none
    (some ⟨"alert", "ops", false, "", none⟩) none none

/-- A command that runs the job `deploy` on each node, with an error handler, a script
interpreter and a step plugin. -/
def sampleCommand : JobCommand :=
  JobCommand.mk "run deploy" "" "" "" "" true (some sampleErrorHandler)
    (some ⟨"bash", true⟩)
    (some ⟨"deploy", "ops", true, "-x", some ⟨false, "name: a", ""⟩⟩)
    (some ⟨"plug", [("k", "v")]⟩) none

/-- A job with dispatch settings, a node filter, one command, one secure option, a
schedule and two notifications. -/
def sampleJob : JobDetail :=
  { ID := "42", Name := "nightly", GroupName := "batch", ProjectName := "ops",
    Description := "nightly deploy", ExecutionEnabled := true, Timeout := "",
    ScheduleEnabled := true, TimeZone := "UTC", LogLevel := "INFO",
    AllowConcurrentExecutions := false, Retry := "1",
    Dispatch := some ⟨2, true, "rank", "descending", false⟩,
    CommandSequence := some ⟨true, "step-first", [sampleCommand], none⟩,
    OptionsConfig := some
      { PreserveOrder := true,
        Options :=
          [{ Name := "key", Label := "Key", DefaultValue := "", ValueChoices := ["a", "b"],
             ValueChoicesURL := "", RequirePredefinedChoice := true, ValidationRegex := "",
             Description := "", IsRequired := true, AllowsMultipleValues := false,
             MultiValueDelimiter := "", ObscureInput := true,
             ValueIsExposedToScripts := true, StoragePath := "/keys/x", IsDate := false,
             DateFormat := "" }] },
    NodeFilter := some ⟨true, "tags: web", ""⟩,
    Schedule := some ⟨⟨"0", "0", "12"⟩, ⟨"?", "1"⟩, ⟨"MON"⟩, ⟨"*"⟩⟩,
    Notification := some
      { OnSuccess := some
          { Email := some ⟨true, ["a@example.org"], "done"⟩,
            WebHook := some ⟨["http://hook.example.org"]⟩,
            Plugin := none, Format := "json", HttpMethod := "post" },
        OnFailure := none,
        OnStart := some
          { Email := none, WebHook := none, Plugin := some ⟨"pager", []⟩, Format := "",
            HttpMethod := "" } } }

/-- The job that `jobFromResourceData` assembles from resource data once the commands,
the options, the schedule and the notification set have been translated. -/
def JobDetail.ofParts (d : ResourceData) (commands : List JobCommand)
    (options : Option JobOptions) (schedule : Option JobSchedule)
    (notification : Option JobNotification) : JobDetail :=
  { ID := d.Id,
    Name := d.name,
    GroupName := d.group_name,
    ProjectName := d.project_name,
    Description := d.description,
    ExecutionEnabled := d.execution_enabled,
    Timeout := d.timeout,
    ScheduleEnabled := d.schedule_enabled,
    TimeZone := d.time_zone,
    LogLevel := d.log_level,
    AllowConcurrentExecutions := d.allow_concurrent_executions,
    Retry := d.retry,
    Dispatch := some
      { MaxThreadCount := d.max_thread_count,
        ContinueNextNodeOnError := d.continue_next_node_on_error,
        RankAttribute := d.rank_attribute,
        RankOrder := d.rank_order,
        SuccessOnEmptyNodeFilter := d.success_on_empty_node_filter },
    CommandSequence := some
      { ContinueOnError := d.continue_on_error,
        OrderingStrategy := d.command_ordering_strategy,
        Commands := commands,
        GlobalLogFilters := globalLogFiltersFromResourceData d.global_log_filter },
    OptionsConfig := options,
    NodeFilter := some
      { ExcludePrecedence := d.node_filter_exclude_precedence,
        Query := d.node_filter_query,
        ExcludeQuery := d.node_filter_exclude_query },
    Schedule := schedule,
    Notification := notification }

/-- Resource data with two valid option records, `env` with two value choices and the
secure option `key`, and the attribute `preserve_options_order` set. -/
def twoOptionsData : ResourceData :=
  { ResourceData.empty with
    preserve_options_order := true,
    option :=
      [⟨"env", "", "dev", [some "dev", some "prod"], "", true, "", "", false, false, "", false,
          false, "", false, ""⟩,
       ⟨"key", "", "", [], "", false, "", "", false, false, "", true, false, "/keys/x", false,
          ""⟩] }

/-- Resource data of a job with dispatch attributes set and the node filter queries
unset. -/
def dispatchData : ResourceData :=
  { ResourceData.empty with
    name := "nightly", max_thread_count := 4, continue_next_node_on_error := true,
    rank_attribute := "rank", rank_order := "descending",
    success_on_empty_node_filter := true, node_filter_exclude_precedence := true }

/-- The four messages of the option checks of `jobFromResourceData` (lines 105, 108, 111
and 116), in the order of the checks. -/
def optionErrorMessages : List String :=
  ["argument \"obscure_input\" must be set to `true` when \"storage_path\" is not empty",
   "argument \"obscure_input\" must be set to `true` when \"exposed_to_scripts\" is set to true",
   "if \"is_data\" is set, you must set \"date_format\" (in momentjs)",
   "argument \"value_choices\" can not have empty values; try \"required\""]

/-- Resource data whose only option, named `alpha`, has a storage path and no obscured
input. -/
def badOptionAlphaData : ResourceData :=
  { ResourceData.empty with
    option :=
      [⟨"alpha", "", "", [], "", false, "", "", false, false, "", false, false, "/keys/a",
          false, ""⟩] }

/-- Resource data whose second option, named `beta`, has a storage path and no obscured
input, after a valid first option. -/
def badOptionBetaData : ResourceData :=
  { ResourceData.empty with
    option :=
      [⟨"first", "", "", [], "", false, "", "", false, false, "", false, false, "", false, ""⟩,
       ⟨"beta", "", "", [], "", false, "", "", false, false, "", false, false, "/keys/b",
          false, ""⟩] }

/-- The three trigger types of a notification block. -/
def notificationTypes : List String := ["on_success", "on_failure", "on_start"]

/-- The slot of a notification set for a trigger type; no slot for any other text. -/
def JobNotification.slot (jobNotification : JobNotification) (jobType : String) :
    Option Notification :=
  if jobType = "on_success" then jobNotification.OnSuccess
  else if jobType = "on_failure" then jobNotification.OnFailure
  else if jobType = "on_start" then jobNotification.OnStart
  else none

/-- The conditions of the specification on a list of notification blocks: at most three
blocks, every type one of the three trigger types, at most one plugin entry in every
block, and no type given twice. -/
def notificationBlocksValid (l : List FlatNotification) : Prop :=
  l.length ≤ 3 ∧ (∀ b ∈ l, b.type ∈ notificationTypes) ∧ (∀ b ∈ l, b.plugin.length ≤ 1) ∧
    (l.map (fun b => b.type)).Nodup

instance (l : List FlatNotification) : Decidable (notificationBlocksValid l) := by
  unfold notificationBlocksValid; infer_instance

/-- Resource data with one notification block of each trigger type. -/
def threeNotificationsData : ResourceData :=
  { ResourceData.empty with
    notification :=
      [⟨"on_start", [], [], "", "", [⟨"pager", []⟩]⟩,
       ⟨"on_success", [⟨false, [some "a@example.org"], "ok"⟩], [], "", "", []⟩,
       ⟨"on_failure", [], [some "http://hook.example.org"], "post", "json", []⟩] }

/-- Resource data with two notification blocks of type `on_success`. -/
def twoSuccessNotificationsData : ResourceData :=
  { ResourceData.empty with
    notification :=
      [⟨"on_success", [⟨false, [some "a@example.org"], "ok"⟩], [], "", "", []⟩,
       ⟨"on_success", [], [some "http://hook.example.org"], "post", "json", []⟩] }

/-- A notification block in which no entry of the `recipients` list that is read (that of
the first `email` entry) and no entry of `webhook_urls` is `nil`. -/
def FlatNotification.hasNoNilEntry (b : FlatNotification) : Prop :=
  (∀ iv ∈ (b.email.head?.map (fun notificationEmailI => notificationEmailI.recipients)).getD [],
      iv ≠ none) ∧
    ∀ iv ∈ b.webhook_urls, iv ≠ none

instance (b : FlatNotification) : Decidable b.hasNoNilEntry := by
  unfold FlatNotification.hasNoNilEntry; infer_instance

/-- Resource data with one notification block of type `on_success` whose email entry has
the recipient list `[""]` in the configuration, which `d.Get` returns as a list with one
`nil` entry. -/
def nilRecipientData : ResourceData :=
  { ResourceData.empty with
    notification := [⟨"on_success", [⟨false, [none], ""⟩], [], "", "", []⟩] }

/-- Resource data with one notification block of type `on_failure` whose `webhook_urls`
list is `[""]` in the configuration, which `d.Get` returns as a list with one `nil`
entry. -/
def nilWebhookUrlData : ResourceData :=
  { ResourceData.empty with
    notification := [⟨"on_failure", [], [none], "", "", []⟩] }

/-- Field `Description` of a command. -/
def JobCommand.Description : JobCommand → String
  | .mk d _ _ _ _ _ _ _ _ _ _ => d

/-- Field `ShellCommand` of a command. -/
def JobCommand.ShellCommand : JobCommand → String
  | .mk _ s _ _ _ _ _ _ _ _ _ => s

/-- Field `Script` of a command. -/
def JobCommand.Script : JobCommand → String
  | .mk _ _ sc _ _ _ _ _ _ _ _ => sc

/-- Field `ScriptFile` of a command. -/
def JobCommand.ScriptFile : JobCommand → String
  | .mk _ _ _ sf _ _ _ _ _ _ _ => sf

/-- Field `ScriptFileArgs` of a command. -/
def JobCommand.ScriptFileArgs : JobCommand → String
  | .mk _ _ _ _ sfa _ _ _ _ _ _ => sfa

/-- Field `KeepGoingOnSuccess` of a command. -/
def JobCommand.KeepGoingOnSuccess : JobCommand → Bool
  | .mk _ _ _ _ _ k _ _ _ _ _ => k

/-- Key `description` of a written command map. -/
def CommandConfig.description : CommandConfig → String
  | .mk d _ _ _ _ _ _ _ _ _ _ => d

/-- Key `shell_command` of a written command map. -/
def CommandConfig.shell_command : CommandConfig → String
  | .mk _ s _ _ _ _ _ _ _ _ _ => s

/-- Key `inline_script` of a written command map. -/
def CommandConfig.inline_script : CommandConfig → String
  | .mk _ _ sc _ _ _ _ _ _ _ _ => sc

/-- Key `script_file` of a written command map. -/
def CommandConfig.script_file : CommandConfig → String
  | .mk _ _ _ sf _ _ _ _ _ _ _ => sf

/-- Key `script_file_args` of a written command map. -/
def CommandConfig.script_file_args : CommandConfig → String
  | .mk _ _ _ _ sfa _ _ _ _ _ _ => sfa

/-- Key `keep_going_on_success` of a written command map. -/
def CommandConfig.keep_going_on_success : CommandConfig → Bool
  | .mk _ _ _ _ _ k _ _ _ _ _ => k

/-- Key `error_handler` of a written command map, `none` when the key is not written. -/
def CommandConfig.error_handler : CommandConfig → Option (List CommandConfig)
  | .mk _ _ _ _ _ _ eh _ _ _ _ => eh

/-- Key `script_interpreter` of a written command map, `none` when the key is not written. -/
def CommandConfig.script_interpreter : CommandConfig → Option (List FlatScriptInterpreter)
  | .mk _ _ _ _ _ _ _ si _ _ _ => si

/-- Key `job` of a written command map, `none` when the key is not written. -/
def CommandConfig.job : CommandConfig → Option (List JobRefConfig)
  | .mk _ _ _ _ _ _ _ _ job _ _ => job

/-- Key `step_plugin` of a written command map, `none` when the key is not written. -/
def CommandConfig.step_plugin : CommandConfig → Option (List FlatPlugin)
  | .mk _ _ _ _ _ _ _ _ _ sp _ => sp

/-- Key `node_step_plugin` of a written command map, `none` when the key is not written. -/
def CommandConfig.node_step_plugin : CommandConfig → Option (List FlatPlugin)
  | .mk _ _ _ _ _ _ _ _ _ _ nsp => nsp

/-- A job with dispatch settings, an empty command sequence and notifications for the
triggers start and success, the set being written with the start slot last. -/
def notifyingJob : JobDetail :=
  { JobDetail.blank with
    Name := "nightly",
    Dispatch := some ⟨1, false, "", "ascending", false⟩,
    CommandSequence := some ⟨false, "node-first", [], none⟩,
    NodeFilter := some ⟨false, "", ""⟩,
    Notification := some
      { OnStart := some
          { Email := none, WebHook := some ⟨["http://hook.example.org"]⟩, Plugin := none,
            Format := "json", HttpMethod := "post" },
        OnFailure := none,
        OnSuccess := some
          { Email := some ⟨true, ["a@example.org"], "done"⟩, WebHook := none,
            Plugin := some ⟨"pager", []⟩, Format := "", HttpMethod := "" } } }

/-- A shell command with no job reference and no other sub-object. -/
def shellCommand : JobCommand :=
  JobCommand.mk "say hello" "echo hello" "" "" "" false none none none none none

/-- A command whose error handler has an error handler of its own. -/
def nestedHandlerCommand : JobCommand :=
  JobCommand.mk "outer" "" "" "" "" false
    (some (JobCommand.mk "handler" "" "" "" "" false
      (some sampleErrorHandler) none (some ⟨"recover", "ops", false, "", none⟩) none none))
    none (some ⟨"deploy", "ops", false, "", none⟩) none none

/-- A job with dispatch settings, a node filter and a command sequence of one command
that runs a shell command; it has no options, schedule or notifications, an empty
timeout, and its command has no error handler. -/
def jobWithShellCommand : JobDetail :=
  { JobDetail.blank with
    Name := "hello", ProjectName := "ops",
    Dispatch := some ⟨1, false, "", "ascending", false⟩,
    NodeFilter := some ⟨false, "", ""⟩,
    CommandSequence := some ⟨false, "node-first", [shellCommand], none⟩ }

/-- Key `error_handler` of a flat command record, `none` when the record has no such key. -/
def FlatCommand.error_handler : FlatCommand → Option (List FlatCommand)
  | .mk _ _ _ _ _ _ eh _ _ _ _ => eh

/-- A record of the schema `resourceRundeckJobCommandErrorHandler`, which has no key
`error_handler`. -/
def FlatCommand.isErrorHandlerRecord (commandI : FlatCommand) : Prop :=
  commandI.error_handler = none

/-- A record of the schema `resourceRundeckJobCommand`: the key `error_handler` holds a
list of records of the schema `resourceRundeckJobCommandErrorHandler`. -/
def FlatCommand.isCommandRecord (commandI : FlatCommand) : Prop :=
  ∃ errorHandlersI, commandI.error_handler = some errorHandlersI ∧
    ∀ errorHandlerMap ∈ errorHandlersI, errorHandlerMap.isErrorHandlerRecord

/-- A job without global log filters: there is no command sequence, or its pointer to
the filters is `nil`, or the slice it points to is empty. -/
def JobDetail.hasNoGlobalLogFilters (job : JobDetail) : Prop :=
  ∀ sequence, job.CommandSequence = some sequence →
    sequence.GlobalLogFilters = none ∨ sequence.GlobalLogFilters = some []

/-- A job whose global log filters, if any, each point to a configuration. -/
def JobDetail.logFiltersHaveConfig (job : JobDetail) : Prop :=
  ∀ sequence filters, job.CommandSequence = some sequence →
    sequence.GlobalLogFilters = some filters → ∀ f ∈ filters, f.Config ≠ none

/-- A job in whose command sequence no error handler has an error handler of its own. -/
def JobDetail.handlersHaveNoHandler (job : JobDetail) : Prop :=
  ∀ sequence, job.CommandSequence = some sequence →
    ∀ command ∈ sequence.Commands, ∀ errorHandler,
      command.ErrorHandler = some errorHandler → errorHandler.ErrorHandler = none

/-- In the words of the specification, the block for a notification of a trigger type,
as resource data return it: the type literal, one email entry exactly when there is an
email, the URLs, method and format of the web hook exactly when there is a web hook, and
one plugin entry exactly when there is a plugin. -/
def expectedNotificationBlock (notificationType : String) (notification : Notification) :
    FlatNotification :=
  { type := notificationType,
    email := notification.Email.toList.map
      (fun email =>
        { attach_log := email.AttachLog, recipients := email.Recipients.map some,
          subject := email.Subject }),
    webhook_urls := (notification.WebHook.map (fun webHook => webHook.Urls.map some)).getD [],
    webhook_http_method := (notification.WebHook.map (fun _ => notification.HttpMethod)).getD "",
    webhook_format := (notification.WebHook.map (fun _ => notification.Format)).getD "",
    plugin := notification.Plugin.toList.map
      (fun plugin => { type := plugin.Type_, config := plugin.Config }) }

/-- In the words of the specification, the blocks for a notification set: one block per
populated slot, in the order success, failure, start, and the empty list for an absent
set. -/
def expectedNotificationBlocks (notification : Option JobNotification) :
    List FlatNotification :=
  match notification with
  | none => []
  | some jobNotification =>
    jobNotification.OnSuccess.toList.map (expectedNotificationBlock "on_success") ++
      jobNotification.OnFailure.toList.map (expectedNotificationBlock "on_failure") ++
      jobNotification.OnStart.toList.map (expectedNotificationBlock "on_start")

/-- The job that holds a notification set and, besides it, only dispatch settings, a
node filter and an empty command sequence. -/
def jobWithNotification (jobNotification : JobNotification) : JobDetail :=
  { JobDetail.blank with
    Dispatch := some ⟨1, false, "", "ascending", false⟩,
    CommandSequence := some ⟨false, "", [], none⟩,
    NodeFilter := some ⟨false, "", ""⟩,
    Notification := some jobNotification }

/-- Resource data of a job already in the state: project `ops`, a schedule, one global
log filter, three threads and a descending rank order. -/
def priorData : ResourceData :=
  { ResourceData.empty with
    Id := "42", name := "old name", project_name := "ops", max_thread_count := 3,
    continue_next_node_on_error := true, rank_attribute := "rank",
    rank_order := "descending", schedule := "0 0 12 ? 1 MON *",
    global_log_filter := [⟨"mask-passwords", [("color", "red")]⟩] }

/-- A job as retrieved without dispatch settings, project name, schedule and global log
filters. -/
def retrievedJob : JobDetail :=
  { JobDetail.blank with
    ID := "42", Name := "nightly",
    CommandSequence := some ⟨false, "node-first", [], none⟩,
    NodeFilter := some ⟨false, "", ""⟩ }

/-- A job as retrieved without dispatch settings, whose one command `outer` has an error
handler `handler` that has an error handler of its own. -/
def retrievedNestedJob : JobDetail :=
  { JobDetail.blank with
    ID := "42", Name := "nightly",
    CommandSequence := some ⟨false, "node-first", [nestedHandlerCommand], none⟩,
    NodeFilter := some ⟨false, "", ""⟩ }

/-- A job whose command sequence holds one global log filter without a configuration. -/
def jobWithBareLogFilter : JobDetail :=
  { JobDetail.blank with
    Name := "nightly",
    Dispatch := some ⟨1, false, "", "ascending", false⟩,
    CommandSequence := some ⟨false, "node-first", [], some [⟨"mask-passwords", none⟩]⟩,
    NodeFilter := some ⟨false, "", ""⟩ }

/-- Resource data with a schedule whose two day fields are both concrete and an option
that has a storage path and no obscured input. -/
def badScheduleAndOptionData : ResourceData :=
  { ResourceData.empty with
    schedule := "0 0 12 15 1 MON *",
    option :=
      [⟨"key", "", "", [], "", false, "", "", false, false, "", false, false, "/keys/x",
          false, ""⟩] }

/-- A job with a timeout and with the dispatch flag for success on an empty node filter
set. -/
def jobWithTimeout : JobDetail :=
  { JobDetail.blank with
    Name := "nightly", GroupName := "batch", Description := "nightly deploy",
    ExecutionEnabled := true, ScheduleEnabled := true, TimeZone := "UTC",
    LogLevel := "INFO", AllowConcurrentExecutions := true, Retry := "1", Timeout := "30s",
    Dispatch := some ⟨2, true, "rank", "descending", true⟩,
    CommandSequence := some ⟨false, "node-first", [], none⟩,
    NodeFilter := some ⟨false, "", ""⟩ }

/-! ## Splitting and joining -/

theorem splitChars_ne_nil (sep : Char) (cs : List Char) : splitChars sep cs ≠ [] := by
  cases cs with
  | nil => simp [splitChars]
  | cons c cs =>
    unfold splitChars
    split
    · simp
    · split <;> simp

theorem joinChars_splitChars (sep : Char) (cs : List Char) :
    joinChars sep (splitChars sep cs) = cs := by
  induction cs with
  | nil => simp [splitChars, joinChars]
  | cons c cs ih =>
    unfold splitChars
    by_cases hc : c = sep
    · simp only [hc, if_true]
      cases hs : splitChars sep cs with
      | nil => exact absurd hs (splitChars_ne_nil sep cs)
      | cons q qs =>
        rw [hs] at ih
        simp [joinChars, ih]
    · simp only [hc, if_false]
      cases hs : splitChars sep cs with
      | nil => exact absurd hs (splitChars_ne_nil sep cs)
      | cons p ps =>
        rw [hs] at ih
        cases ps with
        | nil => simpa [joinChars] using ih
        | cons q qs =>
          simp only [joinChars] at ih ⊢
          simp [ih]

theorem splitChars_of_not_mem (sep : Char) (p : List Char) (hp : sep ∉ p) :
    splitChars sep p = [p] := by
  induction p with
  | nil => simp [splitChars]
  | cons c cs ih =>
    have hc : c ≠ sep := fun h => hp (by simp [h])
    have hcs : sep ∉ cs := fun h => hp (by simp [h])
    simp [splitChars, hc, ih hcs]

theorem splitChars_append_sep (sep : Char) (p rest : List Char) (hp : sep ∉ p) :
    splitChars sep (p ++ sep :: rest) = p :: splitChars sep rest := by
  induction p with
  | nil => simp [splitChars]
  | cons c cs ih =>
    have hc : c ≠ sep := fun h => hp (by simp [h])
    have hcs : sep ∉ cs := fun h => hp (by simp [h])
    simp [splitChars, hc, ih hcs]

theorem splitChars_joinChars (sep : Char) (ps : List (List Char)) (hne : ps ≠ [])
    (hps : ∀ p ∈ ps, sep ∉ p) : splitChars sep (joinChars sep ps) = ps := by
  induction ps with
  | nil => exact absurd rfl hne
  | cons p ps ih =>
    cases ps with
    | nil => simpa [joinChars] using splitChars_of_not_mem sep p (hps p (by simp))
    | cons q qs =>
      simp only [joinChars]
      rw [splitChars_append_sep sep p _ (hps p (by simp))]
      rw [ih (by simp) (fun r hr => hps r (by simp [hr]))]

theorem strings_Join_Split (s : String) (sep : Char) :
    strings.Join (strings.Split s sep) sep = s := by
  simp [strings.Join, strings.Split, List.map_map, Function.comp_def, joinChars_splitChars]

theorem strings_Split_Join (l : List String) (sep : Char) (hne : l ≠ [])
    (hl : ∀ s ∈ l, sep ∉ s.data) : strings.Split (strings.Join l sep) sep = l := by
  unfold strings.Split strings.Join
  simp only
  rw [splitChars_joinChars sep (l.map String.data) (by simpa using hne)
    (by intro p hp; simp only [List.mem_map] at hp; obtain ⟨s, hs, rfl⟩ := hp; exact hl s hs)]
  simp [List.map_map, Function.comp_def]

theorem strings_Split_empty (sep : Char) : strings.Split "" sep = [""] := by
  simp [strings.Split, splitChars]

/-! ## The schedule codec: decoding -/

theorem schedule_ne_empty_of_seven (c : String) (s0 s1 s2 s3 s4 s5 s6 : String)
    (h : strings.Split c ' ' = [s0, s1, s2, s3, s4, s5, s6]) : c ≠ "" := by
  intro hc
  rw [hc, strings_Split_empty] at h
  simp at h

theorem invalid_ne_malformed (k c : String) :
    diag.FromErr (invalidScheduleMessage k c) ≠ diag.FromErr malformedScheduleMessage := by
  intro h
  simp only [diag.FromErr, List.cons.injEq, Diagnostic.mk.injEq, and_true, true_and] at h
  have h2 := congrArg (fun s => s.data.head?) h
  simp [invalidScheduleMessage, malformedScheduleMessage, String.data_append] at h2

theorem JobScheduleFromResourceData_seven (d : ResourceData) (job : JobDetail)
    (s0 s1 s2 s3 s4 s5 s6 : String)
    (h : strings.Split d.schedule ' ' = [s0, s1, s2, s3, s4, s5, s6]) :
    JobScheduleFromResourceData d job =
      ({ job with
          Schedule := some
            { Time := { Seconds := s0, Minute := s1, Hour := s2 },
              Month := { Day := s3, Month := s4 },
              WeekDay := { Day := s5 },
              Year := { Year := s6 } } },
        if dayFieldsExclusive s3 s5 then []
        else diag.FromErr (invalidScheduleMessage "schedule" d.schedule)) := by
  have hne := schedule_ne_empty_of_seven d.schedule s0 s1 s2 s3 s4 s5 s6 h
  unfold JobScheduleFromResourceData
  simp only [hne, ne_eq, not_false_eq_true, if_true, h]
  unfold dayFieldsExclusive
  by_cases h35 : s3 = s5
  · subst h35
    by_cases hs : s3 = "*"
    · simp [hs]
    · by_cases hq : s3 = "?"
      · simp [hq]
      · simp [hs, hq]
  · by_cases h3 : s3 = "?"
    · have : s5 ≠ "?" := fun h5 => h35 (h3.trans h5.symm)
      simp [h35, h3, this, Ne.symm this]
    · by_cases h5 : s5 = "?"
      · simp [h35, h3, h5]
      · have : ¬ (s3 = "*" ∧ s5 = "*") := fun hh => h35 (hh.1.trans hh.2.symm)
        simp [h35, h3, h5, this]

/-- C4: for a cron text that splits into exactly seven pieces, the schedule decoder
succeeds exactly when the day-of-month and day-of-week pieces are both `*` or exactly one
of them is `?`, and in every other case it returns the invalid-specification error. -/
theorem C4_schedule_exclusivity (d : ResourceData) (job : JobDetail)
    (s0 s1 s2 dom s4 dow s6 : String)
    (h : strings.Split d.schedule ' ' = [s0, s1, s2, dom, s4, dow, s6]) :
    ((JobScheduleFromResourceData d job).2 = [] ↔
        ((dom = "*" ∧ dow = "*") ∨ (dom = "?" ∧ dow ≠ "?") ∨ (dom ≠ "?" ∧ dow = "?"))) ∧
      ((JobScheduleFromResourceData d job).2 ≠ [] →
        (JobScheduleFromResourceData d job).2 =
          diag.FromErr (invalidScheduleMessage "schedule" d.schedule)) := by
  rw [JobScheduleFromResourceData_seven d job s0 s1 s2 dom s4 dow s6 h]
  by_cases hx : dayFieldsExclusive dom dow
  · simp only [hx, if_true, ne_eq, not_true_eq_false, false_implies, and_true, true_iff]
    exact hx
  · simp only [hx, if_false, ne_eq, not_false_eq_true, true_implies, and_true]
    refine ⟨⟨fun h0 => ?_, fun h0 => absurd h0 hx⟩, fun _ => trivial⟩
    simp [diag.FromErr] at h0

theorem C4_schedule_exclusivity_witness :
    (JobScheduleFromResourceData { ResourceData.empty with schedule := "0 0 12 15 1 MON *" }
        JobDetail.blank).2 =
      diag.FromErr (invalidScheduleMessage "schedule" "0 0 12 15 1 MON *") ∧
    (JobScheduleFromResourceData { ResourceData.empty with schedule := "0 0 12 ? 1 MON *" }
        JobDetail.blank).2 = [] ∧
    (JobScheduleFromResourceData { ResourceData.empty with schedule := "0 0 12 * 1 * *" }
        JobDetail.blank).2 = [] :=
  ⟨(C4_schedule_exclusivity { ResourceData.empty with schedule := "0 0 12 15 1 MON *" }
      JobDetail.blank "0" "0" "12" "15" "1" "MON" "*" (by decide)).2
      (fun h0 => absurd
        ((C4_schedule_exclusivity { ResourceData.empty with schedule := "0 0 12 15 1 MON *" }
          JobDetail.blank "0" "0" "12" "15" "1" "MON" "*" (by decide)).1.mp h0) (by decide)),
   (C4_schedule_exclusivity { ResourceData.empty with schedule := "0 0 12 ? 1 MON *" }
      JobDetail.blank "0" "0" "12" "?" "1" "MON" "*" (by decide)).1.mpr (by decide),
   (C4_schedule_exclusivity { ResourceData.empty with schedule := "0 0 12 * 1 * *" }
      JobDetail.blank "0" "0" "12" "*" "1" "*" "*" (by decide)).1.mpr (by decide)⟩

theorem JobScheduleFromResourceData_not_seven (d : ResourceData) (job : JobDetail)
    (hne : d.schedule ≠ "") (h : (strings.Split d.schedule ' ').length ≠ 7) :
    JobScheduleFromResourceData d job = (job, diag.FromErr malformedScheduleMessage) := by
  unfold JobScheduleFromResourceData
  simp only [hne, ne_eq, not_false_eq_true, if_true]
  split
  · rename_i heq
    rw [heq] at h
    simp at h
  · rfl

theorem exists_of_length_seven (l : List String) (h : l.length = 7) :
    ∃ s0 s1 s2 s3 s4 s5 s6, l = [s0, s1, s2, s3, s4, s5, s6] := by
  match l, h with
  | [s0, s1, s2, s3, s4, s5, s6], _ => exact ⟨s0, s1, s2, s3, s4, s5, s6, rfl⟩

theorem scheduleToCronSpec_of_days (s : JobSchedule) (hdom : s.Month.Day ≠ "")
    (hdow : s.WeekDay.Day ≠ "") :
    scheduleToCronSpec s = (s, strings.Join s.fields ' ', []) := by
  simp [scheduleToCronSpec, hdom, hdow, JobSchedule.fields]

/-- C5 (amended): for a non-empty cron text the decoder returns the malformed-schedule
error exactly when cutting the text at every single space character does not give
exactly seven pieces. -/
theorem C5_malformed_iff_split (d : ResourceData) (job : JobDetail) (hne : d.schedule ≠ "") :
    (JobScheduleFromResourceData d job).2 = diag.FromErr malformedScheduleMessage ↔
      (strings.Split d.schedule ' ').length ≠ 7 := by
  constructor
  · intro hres hlen
    obtain ⟨s0, s1, s2, s3, s4, s5, s6, hs⟩ := exists_of_length_seven _ hlen
    rw [JobScheduleFromResourceData_seven d job s0 s1 s2 s3 s4 s5 s6 hs] at hres
    by_cases hx : dayFieldsExclusive s3 s5
    · simp [hx, diag.FromErr] at hres
    · simp only [hx, if_false] at hres
      exact invalid_ne_malformed _ _ hres
  · intro hlen
    rw [JobScheduleFromResourceData_not_seven d job hne hlen]

theorem C5_malformed_iff_split_witness :
    (JobScheduleFromResourceData { ResourceData.empty with schedule := "0 0 12 ? 1 MON" }
        JobDetail.blank).2 = diag.FromErr malformedScheduleMessage :=
  (C5_malformed_iff_split { ResourceData.empty with schedule := "0 0 12 ? 1 MON" }
    JobDetail.blank (by decide)).mpr (by decide)

/-- C5 (counterexample): a text whose seven fields are separated by a run of two spaces,
and one whose seven fields are separated by tabs, have exactly seven fields when split on
white space, yet the decoder rejects both as malformed. -/
theorem C5_counterexample :
    ((whitespaceFields "0  0 12 ? 1 MON *").length = 7 ∧
      (JobScheduleFromResourceData { ResourceData.empty with schedule := "0  0 12 ? 1 MON *" }
        JobDetail.blank).2 = diag.FromErr malformedScheduleMessage) ∧
    ((whitespaceFields "0\t0\t12\t?\t1\tMON\t*").length = 7 ∧
      (JobScheduleFromResourceData
        { ResourceData.empty with schedule := "0\t0\t12\t?\t1\tMON\t*" }
        JobDetail.blank).2 = diag.FromErr malformedScheduleMessage) :=
  ⟨⟨by decide, rfl⟩, ⟨by decide, rfl⟩⟩

/-- C6 (counterexample): the text `0 0 12 ? 1  *`, whose day-of-week piece is empty, is
accepted by the decoder, and encoding the decoded schedule gives `0 0 12 ? 1 ? *`, which
is not the text. -/
theorem C6_counterexample :
    (JobScheduleFromResourceData { ResourceData.empty with schedule := "0 0 12 ? 1  *" }
        JobDetail.blank).2 = [] ∧
    (JobScheduleFromResourceData { ResourceData.empty with schedule := "0 0 12 ? 1  *" }
        JobDetail.blank).1.Schedule = some ⟨⟨"0", "0", "12"⟩, ⟨"?", "1"⟩, ⟨""⟩, ⟨"*"⟩⟩ ∧
    (scheduleToCronSpec ⟨⟨"0", "0", "12"⟩, ⟨"?", "1"⟩, ⟨""⟩, ⟨"*"⟩⟩).2.1 = "0 0 12 ? 1 ? *" ∧
    (scheduleToCronSpec ⟨⟨"0", "0", "12"⟩, ⟨"?", "1"⟩, ⟨""⟩, ⟨"*"⟩⟩).2.1 ≠ "0 0 12 ? 1  *" := by
  decide

/-- C6 (amended): for every non-empty cron text that the decoder accepts, a schedule is
decoded, and when neither its day-of-month nor its day-of-week is empty the encoder
applied to it returns exactly the text. -/
theorem C6_encode_decode (d : ResourceData) (job : JobDetail) (hne : d.schedule ≠ "")
    (hok : (JobScheduleFromResourceData d job).2 = []) :
    ∃ schedule, (JobScheduleFromResourceData d job).1.Schedule = some schedule ∧
      (schedule.Month.Day ≠ "" → schedule.WeekDay.Day ≠ "" →
        (scheduleToCronSpec schedule).2.1 = d.schedule) := by
  by_cases hlen : (strings.Split d.schedule ' ').length = 7
  · obtain ⟨s0, s1, s2, s3, s4, s5, s6, hs⟩ := exists_of_length_seven _ hlen
    rw [JobScheduleFromResourceData_seven d job s0 s1 s2 s3 s4 s5 s6 hs]
    refine ⟨_, rfl, fun hdom hdow => ?_⟩
    rw [scheduleToCronSpec_of_days _ hdom hdow]
    simp only [JobSchedule.fields]
    rw [← hs, strings_Join_Split]
  · rw [JobScheduleFromResourceData_not_seven d job hne hlen] at hok
    simp [diag.FromErr] at hok

theorem C6_encode_decode_witness :
    ∃ schedule,
      (JobScheduleFromResourceData { ResourceData.empty with schedule := "0 0 12 ? 1 MON *" }
        JobDetail.blank).1.Schedule = some schedule ∧
      (schedule.Month.Day ≠ "" → schedule.WeekDay.Day ≠ "" →
        (scheduleToCronSpec schedule).2.1 = "0 0 12 ? 1 MON *") :=
  C6_encode_decode { ResourceData.empty with schedule := "0 0 12 ? 1 MON *" } JobDetail.blank
    (by decide) (by decide)

theorem JobScheduleFromResourceData_encoded (s : JobSchedule) (d : ResourceData)
    (job : JobDetail) (hsp : ∀ f ∈ s.fields, ' ' ∉ f.data) :
    JobScheduleFromResourceData { d with schedule := strings.Join s.fields ' ' } job =
      ({ job with Schedule := some s },
        if dayFieldsExclusive s.Month.Day s.WeekDay.Day then []
        else diag.FromErr (invalidScheduleMessage "schedule" (strings.Join s.fields ' '))) := by
  have hsplit : strings.Split (strings.Join s.fields ' ') ' ' = s.fields :=
    strings_Split_Join s.fields ' ' (by simp [JobSchedule.fields]) hsp
  exact JobScheduleFromResourceData_seven { d with schedule := strings.Join s.fields ' ' } job
    s.Time.Seconds s.Time.Minute s.Time.Hour s.Month.Day s.Month.Month s.WeekDay.Day
    s.Year.Year hsplit

/-- C7 (counterexample): the schedule with day-of-month `?` and an empty day-of-week
satisfies the exclusivity rule (exactly one of the two is `?`), yet the text the encoder
produces for it, `0 0 12 ? 1 ? *`, is rejected by the decoder. -/
theorem C7_counterexample :
    dayFieldsExclusive "?" "" ∧
    (scheduleToCronSpec ⟨⟨"0", "0", "12"⟩, ⟨"?", "1"⟩, ⟨""⟩, ⟨"*"⟩⟩).2.1 = "0 0 12 ? 1 ? *" ∧
    (JobScheduleFromResourceData
        { ResourceData.empty with
          schedule := (scheduleToCronSpec ⟨⟨"0", "0", "12"⟩, ⟨"?", "1"⟩, ⟨""⟩, ⟨"*"⟩⟩).2.1 }
        JobDetail.blank).2 =
      diag.FromErr (invalidScheduleMessage "schedule" "0 0 12 ? 1 ? *") := by
  decide

/-- C7 (amended): for every schedule whose seven fields contain no space, whose
day-of-month and day-of-week are both non-empty and satisfy the exclusivity rule, decoding
the text produced by the encoder succeeds and stores a schedule equal to the original. -/
theorem C7_decode_encode (s : JobSchedule) (d : ResourceData) (job : JobDetail)
    (hsp : ∀ f ∈ s.fields, ' ' ∉ f.data) (hdom : s.Month.Day ≠ "") (hdow : s.WeekDay.Day ≠ "")
    (hx : dayFieldsExclusive s.Month.Day s.WeekDay.Day) :
    JobScheduleFromResourceData { d with schedule := (scheduleToCronSpec s).2.1 } job =
      ({ job with Schedule := some s }, []) := by
  rw [scheduleToCronSpec_of_days s hdom hdow]
  simp only
  rw [JobScheduleFromResourceData_encoded s d job hsp]
  simp [hx]

theorem C7_decode_encode_witness :
    JobScheduleFromResourceData
        { ResourceData.empty with
          schedule := (scheduleToCronSpec ⟨⟨"0", "0", "12"⟩, ⟨"?", "1"⟩, ⟨"MON"⟩, ⟨"*"⟩⟩).2.1 }
        JobDetail.blank =
      ({ JobDetail.blank with Schedule := some ⟨⟨"0", "0", "12"⟩, ⟨"?", "1"⟩, ⟨"MON"⟩, ⟨"*"⟩⟩ },
        []) :=
  C7_decode_encode ⟨⟨"0", "0", "12"⟩, ⟨"?", "1"⟩, ⟨"MON"⟩, ⟨"*"⟩⟩ ResourceData.empty
    JobDetail.blank (by decide) (by decide) (by decide) (by decide)

/-- C8: the encoder returns the seconds, minute, hour, day-of-month, month, day-of-week
and year joined by single spaces, an empty day-of-month being replaced by `*` when the
day-of-week is `*` or empty and by `?` otherwise, and an empty day-of-week by `*` when
the day-of-month given is `*` or empty and by `?` otherwise. -/
theorem C8_cron_text (s : JobSchedule) :
    (scheduleToCronSpec s).2.1 =
      s.Time.Seconds ++ " " ++ s.Time.Minute ++ " " ++ s.Time.Hour ++ " " ++
        (if s.Month.Day ≠ "" then s.Month.Day
          else if s.WeekDay.Day = "*" ∨ s.WeekDay.Day = "" then "*" else "?") ++ " " ++
        s.Month.Month ++ " " ++
        (if s.WeekDay.Day ≠ "" then s.WeekDay.Day
          else if s.Month.Day = "*" ∨ s.Month.Day = "" then "*" else "?") ++ " " ++
        s.Year.Year := by
  have hjoin : ∀ a b c e f g h : String,
      strings.Join [a, b, c, e, f, g, h] ' ' =
        a ++ " " ++ b ++ " " ++ c ++ " " ++ e ++ " " ++ f ++ " " ++ g ++ " " ++ h := by
    intro a b c e f g h
    apply String.ext
    simp [strings.Join, joinChars, String.data_append]
  rw [← hjoin]
  unfold scheduleToCronSpec
  by_cases hdom : s.Month.Day = "" <;> by_cases hdow : s.WeekDay.Day = "" <;>
    by_cases hdoms : s.Month.Day = "*" <;> by_cases hdows : s.WeekDay.Day = "*" <;>
    simp_all

/-! ## Commands: from the flat view -/

theorem jobCommandJobRefFromResourceData_cases (key : String) (jobRefsI : List FlatJobRef) :
    (∃ jobRef, jobCommandJobRefFromResourceData key jobRefsI = (some jobRef, [])) ∨
      ((jobCommandJobRefFromResourceData key jobRefsI).1 = none ∧
        (jobCommandJobRefFromResourceData key jobRefsI).2 ≠ []) := by
  unfold jobCommandJobRefFromResourceData
  split
  · right; simp [diag.FromErr]
  · right; simp
  · rename_i jobRefMap
    simp only
    split
    · right; simp [diag.FromErr]
    · left; exact ⟨_, rfl⟩
    · left; exact ⟨_, rfl⟩

theorem jobCommandJobRefFromResourceData_too_many (key : String) (jobRefsI : List FlatJobRef)
    (h : jobRefsI.length > 1 ∨ ∃ jobRefMap, jobRefsI = [jobRefMap] ∧ jobRefMap.node_filters.length > 1) :
    (jobCommandJobRefFromResourceData key jobRefsI).1 = none ∧
      (jobCommandJobRefFromResourceData key jobRefsI).2 ≠ [] := by
  rcases jobCommandJobRefFromResourceData_cases key jobRefsI with ⟨jobRef, hj⟩ | hj
  · exfalso
    unfold jobCommandJobRefFromResourceData at hj
    rcases h with h | ⟨jobRefMap, rfl, hnf⟩
    · match jobRefsI, h with
      | _ :: _ :: _, _ => simp [diag.FromErr] at hj
    · simp only at hj
      match hm : jobRefMap.node_filters, hnf with
      | _ :: _ :: _, _ => rw [hm] at hj; simp [diag.FromErr] at hj
  · exact hj

theorem singlePluginFromResourceData_cases (key : String) (stepPluginsI : List FlatPlugin) :
    (∃ plugin, singlePluginFromResourceData key stepPluginsI = (plugin, [])) ∨
      ((singlePluginFromResourceData key stepPluginsI).1 = none ∧
        (singlePluginFromResourceData key stepPluginsI).2 ≠ []) := by
  unfold singlePluginFromResourceData
  split
  · right; simp [diag.FromErr]
  · left; exact ⟨_, rfl⟩
  · left; exact ⟨_, rfl⟩

theorem singlePluginFromResourceData_too_many (key : String) (stepPluginsI : List FlatPlugin)
    (h : stepPluginsI.length > 1) :
    (singlePluginFromResourceData key stepPluginsI).1 = none ∧
      (singlePluginFromResourceData key stepPluginsI).2 ≠ [] := by
  match stepPluginsI, h with
  | _ :: _ :: _, _ => simp [singlePluginFromResourceData, diag.FromErr]

theorem commandSubBlocksFromResourceData_cases
    (description shell_command inline_script script_file script_file_args : String)
    (keep_going_on_success : Bool) (errorHandler : Option JobCommand)
    (scriptInterpretersI : List FlatScriptInterpreter) (jobRefsI : List FlatJobRef)
    (stepPluginsI nodeStepPluginsI : List FlatPlugin) :
    (∃ command, commandSubBlocksFromResourceData description shell_command inline_script
        script_file script_file_args keep_going_on_success errorHandler scriptInterpretersI
        jobRefsI stepPluginsI nodeStepPluginsI = (some command, []) ∧
        command.ErrorHandler = errorHandler) ∨
      ((commandSubBlocksFromResourceData description shell_command inline_script
        script_file script_file_args keep_going_on_success errorHandler scriptInterpretersI
        jobRefsI stepPluginsI nodeStepPluginsI).1 = none ∧
       (commandSubBlocksFromResourceData description shell_command inline_script
        script_file script_file_args keep_going_on_success errorHandler scriptInterpretersI
        jobRefsI stepPluginsI nodeStepPluginsI).2 ≠ []) := by
  unfold commandSubBlocksFromResourceData
  split
  · right; simp [diag.FromErr]
  · rcases h1 : jobCommandJobRefFromResourceData "job" jobRefsI with ⟨r1, e1⟩
    cases e1 with
    | cons a l => right; simp
    | nil =>
      rcases h2 : singlePluginFromResourceData "step_plugin" stepPluginsI with ⟨r2, e2⟩
      cases e2 with
      | cons a l => right; simp
      | nil =>
        rcases h3 : singlePluginFromResourceData "node_step_plugin" nodeStepPluginsI with ⟨r3, e3⟩
        cases e3 with
        | cons a l => right; simp
        | nil => left; exact ⟨_, rfl, rfl⟩

theorem commandSubBlocksFromResourceData_too_many
    (description shell_command inline_script script_file script_file_args : String)
    (keep_going_on_success : Bool) (errorHandler : Option JobCommand)
    (scriptInterpretersI : List FlatScriptInterpreter) (jobRefsI : List FlatJobRef)
    (stepPluginsI nodeStepPluginsI : List FlatPlugin)
    (h : scriptInterpretersI.length > 1 ∨ jobRefsI.length > 1 ∨
      (∃ jobRefMap, jobRefsI = [jobRefMap] ∧ jobRefMap.node_filters.length > 1) ∨
      stepPluginsI.length > 1 ∨ nodeStepPluginsI.length > 1) :
    (commandSubBlocksFromResourceData description shell_command inline_script
        script_file script_file_args keep_going_on_success errorHandler scriptInterpretersI
        jobRefsI stepPluginsI nodeStepPluginsI).1 = none ∧
    (commandSubBlocksFromResourceData description shell_command inline_script
        script_file script_file_args keep_going_on_success errorHandler scriptInterpretersI
        jobRefsI stepPluginsI nodeStepPluginsI).2 ≠ [] := by
  rcases commandSubBlocksFromResourceData_cases description shell_command inline_script
    script_file script_file_args keep_going_on_success errorHandler scriptInterpretersI
    jobRefsI stepPluginsI nodeStepPluginsI with ⟨command, hc, _⟩ | hc
  · exfalso
    unfold commandSubBlocksFromResourceData at hc
    split at hc
    · simp [diag.FromErr] at hc
    · rename_i hsi
      have hjob := jobCommandJobRefFromResourceData_too_many "job" jobRefsI
      have hsp := singlePluginFromResourceData_too_many "step_plugin" stepPluginsI
      have hnsp := singlePluginFromResourceData_too_many "node_step_plugin" nodeStepPluginsI
      rcases h1 : jobCommandJobRefFromResourceData "job" jobRefsI with ⟨r1, e1⟩
      rw [h1] at hc hjob
      cases e1 with
      | cons a l => simp at hc
      | nil =>
        rcases h2 : singlePluginFromResourceData "step_plugin" stepPluginsI with ⟨r2, e2⟩
        rw [h2] at hc hsp
        cases e2 with
        | cons a l => simp at hc
        | nil =>
          rcases h3 : singlePluginFromResourceData "node_step_plugin" nodeStepPluginsI with ⟨r3, e3⟩
          rw [h3] at hc hnsp
          cases e3 with
          | cons a l => simp at hc
          | nil =>
            rcases h with h | h | h | h | h
            · match scriptInterpretersI, h, hsi with
              | a :: b :: l, _, hsi => exact hsi a b l rfl
            · exact (hjob (Or.inl h)).2 rfl
            · exact (hjob (Or.inr h)).2 rfl
            · exact (hsp h).2 rfl
            · exact (hnsp h).2 rfl
  · exact hc

theorem commandFromResourceData_cases (commandI : FlatCommand) :
    (∃ command, commandFromResourceData commandI = (some command, [])) ∨
      ((commandFromResourceData commandI).1 = none ∧ (commandFromResourceData commandI).2 ≠ []) := by
  cases commandI with
  | mk description shell_command inline_script script_file script_file_args
      keep_going_on_success error_handler script_interpreter job step_plugin
      node_step_plugin =>
    unfold commandFromResourceData
    split
    · right; simp [diag.FromErr]
    · rename_i errorHandlerMap
      rcases hr : commandFromResourceData errorHandlerMap with ⟨r, e⟩
      cases e with
      | cons a l => right; simp
      | nil =>
        simp only
        rcases commandSubBlocksFromResourceData_cases description shell_command inline_script
          script_file script_file_args keep_going_on_success r script_interpreter job
          step_plugin node_step_plugin with ⟨c, hc, _⟩ | hc
        · left; exact ⟨c, hc⟩
        · right; exact hc
    · rcases commandSubBlocksFromResourceData_cases description shell_command inline_script
        script_file script_file_args keep_going_on_success none script_interpreter job
        step_plugin node_step_plugin with ⟨c, hc, _⟩ | hc
      · left; exact ⟨c, hc⟩
      · right; exact hc

/-- C2 (the code at the failing input): a command record with no `job` entry, no error
handler and no script interpreter is not translated: no command is returned, and the
diagnostics returned are the warning of the job-reference reader, whatever the scalars
and the plugin entries. -/
theorem C2_no_job_reference_fails
    (description shell_command inline_script script_file script_file_args : String)
    (keep_going_on_success : Bool) (step_plugin node_step_plugin : List FlatPlugin) :
    commandFromResourceData
        (FlatCommand.mk description shell_command inline_script script_file script_file_args
          keep_going_on_success (some []) [] [] step_plugin node_step_plugin) =
      (none,
        [{ Severity := DiagSeverity.Warning,
           Summary := "Command Job with key: \"job\" returned no results",
           Detail := "Returning nil" }]) := by
  simp [commandFromResourceData, commandSubBlocksFromResourceData,
    jobCommandJobRefFromResourceData]

/-- C3: a command record in which the error handler, the script interpreter, the job
reference, the step plugin or the node step plugin has more than one entry, or whose
single job entry has more than one node filter, yields no command and diagnostics that
are not `nil`. -/
theorem C3_too_many_blocks
    (description shell_command inline_script script_file script_file_args : String)
    (keep_going_on_success : Bool) (error_handler : Option (List FlatCommand))
    (script_interpreter : List FlatScriptInterpreter) (job : List FlatJobRef)
    (step_plugin node_step_plugin : List FlatPlugin)
    (h : (∃ l, error_handler = some l ∧ l.length > 1) ∨ script_interpreter.length > 1 ∨
      job.length > 1 ∨ (∃ jobRefMap, job = [jobRefMap] ∧ jobRefMap.node_filters.length > 1) ∨
      step_plugin.length > 1 ∨ node_step_plugin.length > 1) :
    (commandFromResourceData
        (FlatCommand.mk description shell_command inline_script script_file script_file_args
          keep_going_on_success error_handler script_interpreter job step_plugin
          node_step_plugin)).1 = none ∧
    (commandFromResourceData
        (FlatCommand.mk description shell_command inline_script script_file script_file_args
          keep_going_on_success error_handler script_interpreter job step_plugin
          node_step_plugin)).2 ≠ [] := by
  rcases h with ⟨l, rfl, hl⟩ | h
  · match l, hl with
    | _ :: _ :: _, _ => simp [commandFromResourceData, diag.FromErr]
  · unfold commandFromResourceData
    split
    · simp [diag.FromErr]
    · rename_i errorHandlerMap
      rcases hr : commandFromResourceData errorHandlerMap with ⟨r, e⟩
      cases e with
      | cons a l => simp
      | nil =>
        exact commandSubBlocksFromResourceData_too_many description shell_command
          inline_script script_file script_file_args keep_going_on_success r
          script_interpreter job step_plugin node_step_plugin h
    · exact commandSubBlocksFromResourceData_too_many description shell_command
        inline_script script_file script_file_args keep_going_on_success none
        script_interpreter job step_plugin node_step_plugin h

theorem C3_too_many_blocks_witness :
    (commandFromResourceData
        (FlatCommand.mk "" "echo hello" "" "" "" false (some [])
          [⟨"bash", false⟩, ⟨"sh", true⟩] [⟨"deploy", "ops", false, "", []⟩] [] [])).1 = none ∧
    (commandFromResourceData
        (FlatCommand.mk "" "echo hello" "" "" "" false (some [])
          [⟨"bash", false⟩, ⟨"sh", true⟩] [⟨"deploy", "ops", false, "", []⟩] [] [])).2 ≠ [] :=
  C3_too_many_blocks "" "echo hello" "" "" "" false (some [])
    [⟨"bash", false⟩, ⟨"sh", true⟩] [⟨"deploy", "ops", false, "", []⟩] [] []
    (Or.inr (Or.inl (by decide)))

/-! ## Options: from the flat view -/

theorem valueChoicesFromResourceData_ok (l : List FlatValueChoice) (choices : List String)
    (h : ∀ v ∈ l, v ≠ none) :
    valueChoicesFromResourceData l choices = (some (choices ++ l.filterMap id), []) := by
  induction l generalizing choices with
  | nil => simp [valueChoicesFromResourceData]
  | cons v rest ih =>
    cases v with
    | none => exact absurd rfl (h none (by simp))
    | some iv =>
      simp only [valueChoicesFromResourceData]
      rw [ih _ (fun w hw => h w (by simp [hw]))]
      simp

theorem valueChoicesFromResourceData_fail (l : List FlatValueChoice) (choices : List String)
    (h : ¬ ∀ v ∈ l, v ≠ none) :
    (valueChoicesFromResourceData l choices).1 = none ∧
      (valueChoicesFromResourceData l choices).2 ≠ [] := by
  induction l generalizing choices with
  | nil => simp at h
  | cons v rest ih =>
    cases v with
    | none => simp [valueChoicesFromResourceData, diag.FromErr]
    | some iv =>
      simp only [valueChoicesFromResourceData]
      apply ih
      intro hall
      apply h
      intro w hw
      rcases List.mem_cons.mp hw with rfl | hw
      · simp
      · exact hall w hw

theorem optionFromResourceData_ok (o : FlatOption) (h : optionInvariants o) :
    optionFromResourceData o = (some o.toJobOption, []) := by
  obtain ⟨h1, h2, h3, h4⟩ := h
  unfold optionFromResourceData
  simp only
  have c1 : ¬ (o.storage_path ≠ "" ∧ o.obscure_input = false) := by
    rintro ⟨a, b⟩; rw [h1 a] at b; exact absurd b (by decide)
  have c2 : ¬ (o.exposed_to_scripts = true ∧ o.obscure_input = false) := by
    rintro ⟨a, b⟩; rw [h2 a] at b; exact absurd b (by decide)
  have c3 : ¬ (o.is_date = true ∧ o.date_format = "") := by
    rintro ⟨a, b⟩; exact h3 a b
  rw [if_neg c1, if_neg c2, if_neg c3, valueChoicesFromResourceData_ok _ _ h4]
  simp [FlatOption.toJobOption]

theorem optionFromResourceData_fail (o : FlatOption) (h : ¬ optionInvariants o) :
    (optionFromResourceData o).1 = none ∧ (optionFromResourceData o).2 ≠ [] := by
  unfold optionFromResourceData
  simp only
  by_cases c1 : o.storage_path ≠ "" ∧ o.obscure_input = false
  · rw [if_pos c1]; simp [diag.FromErr]
  · rw [if_neg c1]
    by_cases c2 : o.exposed_to_scripts = true ∧ o.obscure_input = false
    · rw [if_pos c2]; simp [diag.FromErr]
    · rw [if_neg c2]
      by_cases c3 : o.is_date = true ∧ o.date_format = ""
      · rw [if_pos c3]; simp [diag.FromErr]
      · rw [if_neg c3]
        have h4 : ¬ ∀ v ∈ o.value_choices, v ≠ none := by
          intro h4
          apply h
          refine ⟨fun a => ?_, fun a => ?_, fun a b => c3 ⟨a, b⟩, h4⟩
          · cases hb : o.obscure_input with
            | true => rfl
            | false => exact absurd ⟨a, hb⟩ c1
          · cases hb : o.obscure_input with
            | true => rfl
            | false => exact absurd ⟨a, hb⟩ c2
        have hv := valueChoicesFromResourceData_fail o.value_choices [] h4
        rcases hr : valueChoicesFromResourceData o.value_choices [] with ⟨r, e⟩
        rw [hr] at hv
        cases e with
        | nil => exact absurd rfl hv.2
        | cons a l => simp

theorem optionsFromResourceData_ok (l : List FlatOption) (options : List JobOption)
    (h : ∀ o ∈ l, optionInvariants o) :
    optionsFromResourceData l options = (some (options ++ l.map FlatOption.toJobOption), []) := by
  induction l generalizing options with
  | nil => simp [optionsFromResourceData]
  | cons o rest ih =>
    simp only [optionsFromResourceData]
    rw [optionFromResourceData_ok o (h o (by simp))]
    simp only
    rw [ih _ (fun p hp => h p (by simp [hp]))]
    simp

theorem optionsFromResourceData_fail (l : List FlatOption) (options : List JobOption)
    (h : ¬ ∀ o ∈ l, optionInvariants o) :
    (optionsFromResourceData l options).1 = none ∧
      (optionsFromResourceData l options).2 ≠ [] := by
  induction l generalizing options with
  | nil => simp at h
  | cons o rest ih =>
    simp only [optionsFromResourceData]
    by_cases ho : optionInvariants o
    · rw [optionFromResourceData_ok o ho]
      simp only
      apply ih
      intro hall
      apply h
      intro p hp
      rcases List.mem_cons.mp hp with rfl | hp
      · exact ho
      · exact hall p hp
    · have hf := optionFromResourceData_fail o ho
      rcases hr : optionFromResourceData o with ⟨r, e⟩
      rw [hr] at hf
      cases e with
      | nil => exact absurd rfl hf.2
      | cons a l => simp

/-! ## The job: from the flat view -/

theorem commandsFromResourceData_ok (l : List FlatCommand) (commands : List JobCommand)
    (h : ∀ c ∈ l, (commandFromResourceData c).2 = []) :
    ∃ result, commandsFromResourceData l commands = (some result, []) := by
  induction l generalizing commands with
  | nil => exact ⟨commands, rfl⟩
  | cons c rest ih =>
    simp only [commandsFromResourceData]
    rcases commandFromResourceData_cases c with ⟨command, hc⟩ | hc
    · rw [hc]
      exact ih _ (fun p hp => h p (by simp [hp]))
    · exact absurd (h c (by simp)) hc.2

theorem JobScheduleFromResourceData_diags (d : ResourceData) (job job2 : JobDetail) :
    (JobScheduleFromResourceData d job).2 = (JobScheduleFromResourceData d job2).2 := by
  unfold JobScheduleFromResourceData
  simp only
  split
  · split
    · split
      · split <;> rfl
      · split <;> rfl
    · rfl
  · rfl

theorem notificationFromResourceData_cases (notificationMap : FlatNotification) :
    (∃ notification, notificationFromResourceData notificationMap = (some notification, [])) ∨
      ((notificationFromResourceData notificationMap).1 = none ∧
        (notificationFromResourceData notificationMap).2 ≠ []) ∨
      notificationFromResourceData notificationMap = (none, []) := by
  unfold notificationFromResourceData
  simp only
  split
  · right; right; rfl
  · split
    · right; right; rfl
    · split
      · right; left; simp [diag.FromErr]
      · left; exact ⟨_, rfl⟩
      · left; exact ⟨_, rfl⟩

theorem assignNotification_cases (jobType : String) (notification : Notification)
    (jobNotification : JobNotification) :
    (∃ result, assignNotification jobType notification jobNotification = (some result, [])) ∨
      ((assignNotification jobType notification jobNotification).1 = none ∧
        (assignNotification jobType notification jobNotification).2 ≠ []) := by
  unfold assignNotification
  split
  · split
    · right; simp [diag.FromErr]
    · left; exact ⟨_, rfl⟩
  · split
    · split
      · right; simp [diag.FromErr]
      · left; exact ⟨_, rfl⟩
    · split
      · split
        · right; simp [diag.FromErr]
        · left; exact ⟨_, rfl⟩
      · right; simp [diag.FromErr]

theorem notificationsFromResourceData_cases (l : List FlatNotification)
    (jobNotification : JobNotification) :
    (∃ result, notificationsFromResourceData l jobNotification = (some result, [])) ∨
      ((notificationsFromResourceData l jobNotification).1 = none ∧
        (notificationsFromResourceData l jobNotification).2 ≠ []) ∨
      notificationsFromResourceData l jobNotification = (none, []) := by
  induction l generalizing jobNotification with
  | nil => left; exact ⟨jobNotification, rfl⟩
  | cons n rest ih =>
    simp only [notificationsFromResourceData]
    rcases notificationFromResourceData_cases n with ⟨notification, hn⟩ | hn | hn
    · rw [hn]
      simp only
      rcases assignNotification_cases n.type notification jobNotification with ⟨r, ha⟩ | ha
      · rw [ha]
        exact ih r
      · rcases hr : assignNotification n.type notification jobNotification with ⟨r, e⟩
        rw [hr] at ha
        cases e with
        | nil => exact absurd rfl ha.2
        | cons a l => right; left; simp
    · rcases hr : notificationFromResourceData n with ⟨r, e⟩
      rw [hr] at hn
      cases e with
      | nil => exact absurd rfl hn.2
      | cons a l => right; left; simp
    · rw [hn]
      right; right; rfl

theorem jobNotificationFromResourceData_cases (l : List FlatNotification) :
    (∃ result, jobNotificationFromResourceData l = (some result, [])) ∨
      ((jobNotificationFromResourceData l).1 = none ∧
        (jobNotificationFromResourceData l).2 ≠ []) ∨
      jobNotificationFromResourceData l = (none, []) := by
  unfold jobNotificationFromResourceData
  split
  · exact notificationsFromResourceData_cases l _
  · right; left; simp [diag.FromErr]

theorem JobScheduleFromResourceData_of_ok (d : ResourceData)
    (h : (JobScheduleFromResourceData d JobDetail.blank).2 = []) (job : JobDetail) :
    JobScheduleFromResourceData d job = ((JobScheduleFromResourceData d job).1, []) := by
  have h2 := JobScheduleFromResourceData_diags d job JobDetail.blank
  rw [h] at h2
  rcases hr : JobScheduleFromResourceData d job with ⟨j, e⟩
  rw [hr] at h2
  simp only at h2
  simp [h2]

theorem commandsFromResourceData_cases (l : List FlatCommand) (commands : List JobCommand) :
    (∃ result, commandsFromResourceData l commands = (some result, [])) ∨
      ((commandsFromResourceData l commands).1 = none ∧
        (commandsFromResourceData l commands).2 ≠ []) := by
  induction l generalizing commands with
  | nil => left; exact ⟨commands, rfl⟩
  | cons c rest ih =>
    simp only [commandsFromResourceData]
    rcases commandFromResourceData_cases c with ⟨command, hc⟩ | hc
    · rw [hc]
      exact ih _
    · rcases hr : commandFromResourceData c with ⟨r, e⟩
      rw [hr] at hc
      cases e with
      | nil => exact absurd rfl hc.2
      | cons a l => right; simp

theorem jobFromResourceData_options_fail (d : ResourceData)
    (h : ¬ ∀ o ∈ d.option, optionInvariants o) :
    (jobFromResourceData d).1 = none ∧ (jobFromResourceData d).2 ≠ [] := by
  have hlen : d.option.length > 0 := by
    cases hd : d.option with
    | nil => rw [hd] at h; simp at h
    | cons a l => simp
  have hf := optionsFromResourceData_fail d.option [] h
  have hcs := commandsFromResourceData_cases d.command []
  unfold jobFromResourceData
  simp only
  rcases hc : commandsFromResourceData d.command [] with ⟨r, e⟩
  rw [hc] at hcs
  cases e with
  | cons a l => simp
  | nil =>
    cases r with
    | none => simp at hcs
    | some commands =>
      simp only [hlen, if_true]
      rcases hr : optionsFromResourceData d.option [] with ⟨r, e⟩
      rw [hr] at hf
      cases e with
      | nil => exact absurd rfl hf.2
      | cons a l => simp

theorem jobFromResourceData_of_parts (d : ResourceData)
    (hcmd : ∀ c ∈ d.command, (commandFromResourceData c).2 = [])
    (hopt : ∀ o ∈ d.option, optionInvariants o)
    (hsched : (JobScheduleFromResourceData d JobDetail.blank).2 = [])
    (hnot : d.notification = [] ∨
      ∃ jn, jobNotificationFromResourceData d.notification = (some jn, [])) :
    ∃ job, jobFromResourceData d = (some job, []) := by
  obtain ⟨commands, hc⟩ := commandsFromResourceData_ok d.command [] hcmd
  unfold jobFromResourceData
  simp only [hc, optionsFromResourceData_ok d.option [] hopt]
  have hnot2 : d.notification.length > 0 →
      ∃ jn, jobNotificationFromResourceData d.notification = (some jn, []) := by
    intro hlen
    rcases hnot with h0 | h0
    · rw [h0] at hlen; simp at hlen
    · exact h0
  by_cases hlen : d.option.length > 0
  · simp only [hlen, if_true]
    rw [JobScheduleFromResourceData_of_ok d hsched]
    simp only
    by_cases hn : d.notification.length > 0
    · obtain ⟨jn, hjn⟩ := hnot2 hn
      simp only [hn, if_true, hjn]
      exact ⟨_, rfl⟩
    · simp only [hn, if_false]
      exact ⟨_, rfl⟩
  · simp only [hlen, if_false]
    rw [JobScheduleFromResourceData_of_ok d hsched]
    simp only
    by_cases hn : d.notification.length > 0
    · obtain ⟨jn, hjn⟩ := hnot2 hn
      simp only [hn, if_true, hjn]
      exact ⟨_, rfl⟩
    · simp only [hn, if_false]
      exact ⟨_, rfl⟩

/-- C9: for a flat job record whose commands, schedule and notifications are valid (the
commands and the schedule are read with no diagnostics, and the notification blocks, if
any, are read as a notification set) and whose option list is not empty,
`jobFromResourceData` returns a job with no diagnostics exactly when every option record
satisfies the four rules (a storage path and exposure to scripts each require an obscured
input, a date option requires a date format, no value choice is null); otherwise it
returns no job, with diagnostics. -/
theorem C9_option_invariants (d : ResourceData)
    (hcmd : ∀ c ∈ d.command, (commandFromResourceData c).2 = [])
    (hsched : (JobScheduleFromResourceData d JobDetail.blank).2 = [])
    (hnot : d.notification = [] ∨
      ∃ jn, jobNotificationFromResourceData d.notification = (some jn, [])) :
    ((∃ job, jobFromResourceData d = (some job, [])) ↔ ∀ o ∈ d.option, optionInvariants o) ∧
      ((¬ ∀ o ∈ d.option, optionInvariants o) →
        (jobFromResourceData d).1 = none ∧ (jobFromResourceData d).2 ≠ []) := by
  refine ⟨⟨fun hjob => ?_, fun hall => jobFromResourceData_of_parts d hcmd hall hsched hnot⟩,
    fun hbad => jobFromResourceData_options_fail d hbad⟩
  by_contra hbad
  obtain ⟨job, hjob⟩ := hjob
  have hf := jobFromResourceData_options_fail d hbad
  rw [hjob] at hf
  simp at hf

theorem C9_option_invariants_witness :
    (∃ job, jobFromResourceData
        { ResourceData.empty with
          option := [⟨"key", "", "", [], "", false, "", "", false, false, "", true, false,
            "/keys/x", false, ""⟩] } = (some job, [])) ∧
    (jobFromResourceData
        { ResourceData.empty with
          option := [⟨"key", "", "", [], "", false, "", "", false, false, "", false, false,
            "/keys/x", false, ""⟩] }).1 = none :=
  ⟨(C9_option_invariants
      { ResourceData.empty with
        option := [⟨"key", "", "", [], "", false, "", "", false, false, "", true, false,
          "/keys/x", false, ""⟩] }
      (by decide) (by decide) (Or.inl rfl)).1.mpr (by decide),
   ((C9_option_invariants
      { ResourceData.empty with
        option := [⟨"key", "", "", [], "", false, "", "", false, false, "", false, false,
          "/keys/x", false, ""⟩] }
      (by decide) (by decide) (Or.inl rfl)).2 (by decide)).1⟩

theorem jobFromResourceData_eq (d : ResourceData) (commands : List JobCommand)
    (options : Option JobOptions) (schedule : Option JobSchedule)
    (notification : Option JobNotification)
    (hc : commandsFromResourceData d.command [] = (some commands, []))
    (ho : (d.option = [] ∧ options = none) ∨
      (d.option ≠ [] ∧ ∃ l, optionsFromResourceData d.option [] = (some l, []) ∧
        options = some { PreserveOrder := d.preserve_options_order, Options := l }))
    (hs : ∀ job : JobDetail, job.Schedule = none →
      JobScheduleFromResourceData d job = ({ job with Schedule := schedule }, []))
    (hn : (d.notification = [] ∧ notification = none) ∨
      (d.notification ≠ [] ∧ ∃ jn, jobNotificationFromResourceData d.notification = (some jn, []) ∧
        notification = some jn)) :
    jobFromResourceData d =
      (some
        { ID := d.Id,
          Name := d.name,
          GroupName := d.group_name,
          ProjectName := d.project_name,
          Description := d.description,
          ExecutionEnabled := d.execution_enabled,
          Timeout := d.timeout,
          ScheduleEnabled := d.schedule_enabled,
          TimeZone := d.time_zone,
          LogLevel := d.log_level,
          AllowConcurrentExecutions := d.allow_concurrent_executions,
          Retry := d.retry,
          Dispatch := some
            { MaxThreadCount := d.max_thread_count,
              ContinueNextNodeOnError := d.continue_next_node_on_error,
              RankAttribute := d.rank_attribute,
              RankOrder := d.rank_order,
              SuccessOnEmptyNodeFilter := d.success_on_empty_node_filter },
          CommandSequence := some
            { ContinueOnError := d.continue_on_error,
              OrderingStrategy := d.command_ordering_strategy,
              Commands := commands,
              GlobalLogFilters := globalLogFiltersFromResourceData d.global_log_filter },
          OptionsConfig := options,
          NodeFilter := some
            { ExcludePrecedence := d.node_filter_exclude_precedence,
              Query := d.node_filter_query,
              ExcludeQuery := d.node_filter_exclude_query },
          Schedule := schedule,
          Notification := notification }, []) := by
  have hlen : ∀ {α : Type} (l : List α), l ≠ [] → l.length > 0 := by
    intro α l h; cases l with
    | nil => exact absurd rfl h
    | cons a t => simp
  unfold jobFromResourceData
  simp only [hc]
  rcases ho with ⟨ho1, rfl⟩ | ⟨ho1, l, ho2, rfl⟩
  · rcases hn with ⟨hn1, rfl⟩ | ⟨hn1, jn, hn2, rfl⟩
    · simp only [ho1, hn1, List.length_nil, gt_iff_lt, lt_self_iff_false, if_false]
      rw [hs _ rfl]
      by_cases h1 : d.node_filter_query = "" <;> by_cases h2 : d.node_filter_exclude_query = "" <;>
        simp [h1, h2]
    · simp only [ho1, List.length_nil, gt_iff_lt, lt_self_iff_false, if_false]
      rw [hs _ rfl]
      have := hlen _ hn1
      by_cases h1 : d.node_filter_query = "" <;> by_cases h2 : d.node_filter_exclude_query = "" <;>
        simp [h1, h2, this, hn2]
  · have hol := hlen _ ho1
    rcases hn with ⟨hn1, rfl⟩ | ⟨hn1, jn, hn2, rfl⟩
    · simp only [hol, if_true, ho2, hn1, List.length_nil, gt_iff_lt, lt_self_iff_false, if_false]
      rw [hs _ rfl]
      by_cases h1 : d.node_filter_query = "" <;> by_cases h2 : d.node_filter_exclude_query = "" <;>
        simp [h1, h2]
    · simp only [hol, if_true, ho2]
      rw [hs _ rfl]
      have := hlen _ hn1
      by_cases h1 : d.node_filter_query = "" <;> by_cases h2 : d.node_filter_exclude_query = "" <;>
        simp [h1, h2, this, hn2]

/-! ## Commands: to the flat view and back -/

theorem copyConfig_eq (configI : StringMap) : copyConfig configI = configI := by
  simp [copyConfig]

theorem copyStrings_map_some (l out : List String) :
    copyStrings (l.map some) out = some (out ++ l) := by
  induction l generalizing out with
  | nil => simp [copyStrings]
  | cons a rest ih => simp [copyStrings, ih]

theorem copyStrings_eq (l : List String) : copyStrings (l.map some) [] = some l := by
  simpa using copyStrings_map_some l []

theorem copyStrings_isSome_iff (l : List FlatString) (out : List String) :
    (∃ r, copyStrings l out = some r) ↔ ∀ v ∈ l, v ≠ none := by
  induction l generalizing out with
  | nil => simp [copyStrings]
  | cons v rest ih =>
    cases v with
    | none => simp [copyStrings]
    | some iv => simp [copyStrings, ih]

theorem commandSubBlocksFromResourceData_written
    (description shell_command inline_script script_file script_file_args : String)
    (keep_going_on_success : Bool) (errorHandler : Option JobCommand)
    (scriptInterpreter : Option JobCommandScriptInterpreter) (jobRef : JobCommandJobRef)
    (stepPlugin nodeStepPlugin : Option JobPlugin) (cfg : CommandConfig)
    (h : commandToResourceData (JobCommand.mk description shell_command inline_script
      script_file script_file_args keep_going_on_success none scriptInterpreter (some jobRef)
      stepPlugin nodeStepPlugin) = (some cfg, [])) :
    ∃ si job sp nsp,
      cfg = CommandConfig.mk description shell_command inline_script script_file
        script_file_args keep_going_on_success none si job sp nsp ∧
      commandSubBlocksFromResourceData description shell_command inline_script script_file
        script_file_args keep_going_on_success errorHandler (si.getD [])
        ((job.getD []).map JobRefConfig.stored) (sp.getD []) (nsp.getD []) =
      (some (JobCommand.mk description shell_command inline_script script_file
        script_file_args keep_going_on_success errorHandler scriptInterpreter (some jobRef)
        stepPlugin nodeStepPlugin), []) := by
  simp only [commandToResourceData, Prod.mk.injEq, Option.some.injEq, and_true] at h
  subst h
  refine ⟨_, _, _, _, rfl, ?_⟩
  obtain ⟨n, g, r, a, nf⟩ := jobRef
  cases scriptInterpreter <;> cases nf <;> cases stepPlugin <;> cases nodeStepPlugin <;>
    simp [commandSubBlocksFromResourceData, jobCommandJobRefFromResourceData,
      singlePluginFromResourceData, JobRefConfig.stored, copyConfig_eq]

theorem commandToResourceData_no_handler
    (description shell_command inline_script script_file script_file_args : String)
    (keep_going_on_success : Bool)
    (scriptInterpreter : Option JobCommandScriptInterpreter) (job : Option JobCommandJobRef)
    (stepPlugin nodeStepPlugin : Option JobPlugin) :
    ∃ cfg, commandToResourceData (JobCommand.mk description shell_command inline_script
      script_file script_file_args keep_going_on_success none scriptInterpreter job
      stepPlugin nodeStepPlugin) = (some cfg, []) :=
  ⟨_, rfl⟩

theorem commandToResourceData_with_handler
    (description shell_command inline_script script_file script_file_args : String)
    (keep_going_on_success : Bool) (errorHandler : JobCommand)
    (scriptInterpreter : Option JobCommandScriptInterpreter) (job : Option JobCommandJobRef)
    (stepPlugin nodeStepPlugin : Option JobPlugin) (errorHandlerI : CommandConfig)
    (si : Option (List FlatScriptInterpreter)) (jobL : Option (List JobRefConfig))
    (sp nsp : Option (List FlatPlugin))
    (hh : commandToResourceData errorHandler = (some errorHandlerI, []))
    (h0 : commandToResourceData (JobCommand.mk description shell_command inline_script
      script_file script_file_args keep_going_on_success none scriptInterpreter job
      stepPlugin nodeStepPlugin) =
        (some (CommandConfig.mk description shell_command inline_script script_file
          script_file_args keep_going_on_success none si jobL sp nsp), [])) :
    commandToResourceData (JobCommand.mk description shell_command inline_script
      script_file script_file_args keep_going_on_success (some errorHandler) scriptInterpreter
      job stepPlugin nodeStepPlugin) =
        (some (CommandConfig.mk description shell_command inline_script script_file
          script_file_args keep_going_on_success (some [errorHandlerI]) si jobL sp nsp), []) := by
  simp only [commandToResourceData, Prod.mk.injEq, Option.some.injEq, and_true,
    CommandConfig.mk.injEq, true_and] at h0
  obtain ⟨h1, h2, h3, h4⟩ := h0
  simp only [commandToResourceData, hh, h1, h2, h3, h4]

theorem command_handler_roundTrip (errorHandler : JobCommand)
    (hj : errorHandler.Job ≠ none) (he : errorHandler.ErrorHandler = none) :
    ∃ cfg commandI, commandToResourceData errorHandler = (some cfg, []) ∧
      cfg.storedErrorHandler = some commandI ∧
      commandFromResourceData commandI = (some errorHandler, []) := by
  obtain ⟨d, s, sc, sf, sfa, k, eh, si, job, sp, nsp⟩ := errorHandler
  simp only [JobCommand.ErrorHandler] at he
  subst he
  cases job with
  | none => exact absurd rfl hj
  | some jobRef =>
    obtain ⟨cfg, hcfg⟩ := commandToResourceData_no_handler d s sc sf sfa k si (some jobRef) sp nsp
    obtain ⟨siL, jobL, spL, nspL, rfl, hsub⟩ :=
      commandSubBlocksFromResourceData_written d s sc sf sfa k none si jobRef sp nsp cfg hcfg
    refine ⟨_, _, hcfg, rfl, ?_⟩
    simp only [commandFromResourceData]
    exact hsub

theorem command_roundTrip (command : JobCommand) (h : command.roundTrips) :
    ∃ cfg commandI, commandToResourceData command = (some cfg, []) ∧
      cfg.stored = some commandI ∧
      commandFromResourceData commandI = (some command, []) := by
  obtain ⟨d, s, sc, sf, sfa, k, eh, si, job, sp, nsp⟩ := command
  obtain ⟨hj, heh⟩ := h
  simp only [JobCommand.ErrorHandler, JobCommand.Job] at hj heh
  cases job with
  | none => exact absurd rfl hj
  | some jobRef =>
    obtain ⟨cfg0, hcfg0⟩ := commandToResourceData_no_handler d s sc sf sfa k si (some jobRef) sp nsp
    cases eh with
    | none =>
      obtain ⟨siL, jobL, spL, nspL, rfl, hsub⟩ :=
        commandSubBlocksFromResourceData_written d s sc sf sfa k none si jobRef sp nsp cfg0 hcfg0
      refine ⟨_, _, hcfg0, rfl, ?_⟩
      simp only [commandFromResourceData]
      exact hsub
    | some errorHandler =>
      obtain ⟨hhj, hhe⟩ := heh errorHandler rfl
      obtain ⟨hcfg, handlerI, hto, hst, hfrom⟩ :=
        command_handler_roundTrip errorHandler hhj hhe
      obtain ⟨siL, jobL, spL, nspL, rfl, hsub⟩ :=
        commandSubBlocksFromResourceData_written d s sc sf sfa k (some errorHandler) si jobRef
          sp nsp cfg0 hcfg0
      refine ⟨_, FlatCommand.mk d s sc sf sfa k (some [handlerI]) (siL.getD [])
        ((jobL.getD []).map JobRefConfig.stored) (spL.getD []) (nspL.getD []),
        commandToResourceData_with_handler d s sc sf sfa k errorHandler si
        (some jobRef) sp nsp hcfg siL jobL spL nspL hto hcfg0, ?_, ?_⟩
      · simp only [CommandConfig.stored, Option.getD_some, storedEach, hst]
      · simp only [commandFromResourceData, hfrom]
        exact hsub

theorem commands_roundTrip (l : List JobCommand) (h : ∀ c ∈ l, c.roundTrips)
    (commandConfigsI : List CommandConfig) :
    ∃ cfgs commandsI,
      commandsToResourceData l commandConfigsI = (some (commandConfigsI ++ cfgs), []) ∧
      storedEach CommandConfig.stored cfgs = some commandsI ∧
      ∀ commands, commandsFromResourceData commandsI commands =
        (some (commands ++ l), []) := by
  induction l generalizing commandConfigsI with
  | nil =>
    exact ⟨[], [], by simp [commandsToResourceData], rfl, by simp [commandsFromResourceData]⟩
  | cons c rest ih =>
    obtain ⟨cfg, commandI, hto, hst, hfrom⟩ := command_roundTrip c (h c (by simp))
    obtain ⟨cfgs, commandsI, htos, hsts, hfroms⟩ :=
      ih (fun p hp => h p (by simp [hp])) (commandConfigsI ++ [cfg])
    refine ⟨cfg :: cfgs, commandI :: commandsI, ?_, ?_, ?_⟩
    · simp only [commandsToResourceData, hto, htos]
      simp
    · simp only [storedEach, hst, hsts]
    · intro commands
      simp only [commandsFromResourceData, hfrom, hfroms]
      simp

theorem notification_roundTrip (notification : Notification) (notificationType : String)
    (h : notification.roundTrips) :
    notificationFromResourceData (readNotification notification notificationType).stored =
      (some notification, []) := by
  obtain ⟨email, webHook, plugin, format, method⟩ := notification
  obtain ⟨h1, h2⟩ := h
  simp only at h1 h2
  cases webHook with
  | none =>
    obtain ⟨rfl, rfl⟩ := h2 rfl
    cases email <;> cases plugin <;>
      simp [notificationFromResourceData, readNotification, NotificationConfig.stored,
        EmailConfig.stored, copyConfig_eq, copyStrings_eq]
  | some w =>
    have hw : w.Urls.length > 0 := by
      have := h1 w rfl
      cases hu : w.Urls with
      | nil => exact absurd hu this
      | cons a l => simp
    cases email <;> cases plugin <;>
      simp [notificationFromResourceData, readNotification, NotificationConfig.stored,
        EmailConfig.stored, copyConfig_eq, copyStrings_eq, hw]

theorem readNotification_type (notification : Notification) (notificationType : String) :
    (readNotification notification notificationType).stored.type = notificationType := by
  unfold readNotification NotificationConfig.stored
  simp only
  cases notification.WebHook <;> cases notification.Email <;> cases notification.Plugin <;> rfl

/-! ## Notifications: to the flat view and back -/

theorem jobNotification_roundTrip (jobNotification : JobNotification)
    (h : jobNotification.roundTrips) :
    ((jobNotificationToResourceData (some jobNotification)).map
        NotificationConfig.stored).length > 0 ∧
      jobNotificationFromResourceData
        ((jobNotificationToResourceData (some jobNotification)).map NotificationConfig.stored) =
        (some jobNotification, []) := by
  obtain ⟨os, ofl, ost⟩ := jobNotification
  obtain ⟨hne, hs, hf, ht⟩ := h
  simp only at hne hs hf ht
  cases os with
  | none =>
    cases ofl with
    | none =>
      cases ost with
      | none => simp at hne
      | some c =>
        simp [jobNotificationToResourceData, jobNotificationFromResourceData,
          notificationsFromResourceData, notification_roundTrip c _ (ht c rfl),
          readNotification_type, assignNotification]
    | some b =>
      cases ost with
      | none =>
        simp [jobNotificationToResourceData, jobNotificationFromResourceData,
          notificationsFromResourceData, notification_roundTrip b _ (hf b rfl),
          readNotification_type, assignNotification]
      | some c =>
        simp [jobNotificationToResourceData, jobNotificationFromResourceData,
          notificationsFromResourceData, notification_roundTrip b _ (hf b rfl),
          notification_roundTrip c _ (ht c rfl), readNotification_type, assignNotification]
  | some a =>
    cases ofl with
    | none =>
      cases ost with
      | none =>
        simp [jobNotificationToResourceData, jobNotificationFromResourceData,
          notificationsFromResourceData, notification_roundTrip a _ (hs a rfl),
          readNotification_type, assignNotification]
      | some c =>
        simp [jobNotificationToResourceData, jobNotificationFromResourceData,
          notificationsFromResourceData, notification_roundTrip a _ (hs a rfl),
          notification_roundTrip c _ (ht c rfl), readNotification_type, assignNotification]
    | some b =>
      cases ost with
      | none =>
        simp [jobNotificationToResourceData, jobNotificationFromResourceData,
          notificationsFromResourceData, notification_roundTrip a _ (hs a rfl),
          notification_roundTrip b _ (hf b rfl), readNotification_type, assignNotification]
      | some c =>
        simp [jobNotificationToResourceData, jobNotificationFromResourceData,
          notificationsFromResourceData, notification_roundTrip a _ (hs a rfl),
          notification_roundTrip b _ (hf b rfl), notification_roundTrip c _ (ht c rfl),
          readNotification_type, assignNotification]

/-! ## Options, log filters and schedule: to the flat view and back -/

theorem optionsToResourceData_some (optionsConfig : JobOptions) :
    optionsToResourceData (some optionsConfig) =
      optionsConfig.Options.map optionToResourceData := by
  unfold optionsToResourceData
  have h : ∀ (l : List JobOption) (acc : List OptionConfig),
      l.foldl (fun acc option => acc ++ [optionToResourceData option]) acc =
        acc ++ l.map optionToResourceData := by
    intro l
    induction l with
    | nil => simp
    | cons a rest ih => intro acc; simp [ih]
  simpa using h optionsConfig.Options []

theorem option_roundTrip (o : JobOption) (h : o.roundTrips) :
    optionInvariants (optionToResourceData o).stored ∧
      (optionToResourceData o).stored.toJobOption = o := by
  obtain ⟨h1, h2, h3, h4⟩ := h
  obtain ⟨n, l, dv, vc, vcu, rpc, vr, de, ir, amv, mvd, oi, ves, sp, isd, df⟩ := o
  simp only at h1 h2 h3 h4
  subst h3 h4
  refine ⟨⟨h1, h2, by simp [optionToResourceData, OptionConfig.stored],
    by simp [optionToResourceData, OptionConfig.stored]⟩, ?_⟩
  simp [optionToResourceData, OptionConfig.stored, FlatOption.toJobOption,
    List.filterMap_map]

theorem options_roundTrip (l : List JobOption) (h : ∀ o ∈ l, o.roundTrips) :
    optionsFromResourceData ((l.map optionToResourceData).map OptionConfig.stored) [] =
      (some l, []) := by
  rw [optionsFromResourceData_ok _ _ (by
    intro o ho
    simp only [List.mem_map] at ho
    obtain ⟨c, ⟨p, hp, rfl⟩, rfl⟩ := ho
    exact (option_roundTrip p (h p hp)).1)]
  simp only [List.nil_append, List.map_map, Prod.mk.injEq, Option.some.injEq, and_true]
  conv => rhs; rw [← List.map_id l]
  apply List.map_congr_left
  intro p hp
  exact (option_roundTrip p (h p hp)).2

theorem globalLogFilters_roundTrip (l : List JobLogFilter) (h : ∀ f ∈ l, f.Config ≠ none)
    (acc : List FlatLogFilter) :
    ∃ cfgs, globalLogFiltersToResourceData l acc = some (acc ++ cfgs) ∧
      cfgs.length = l.length ∧
      ∀ acc2 : List JobLogFilter,
        cfgs.foldl
          (fun globalLogFilters logFilterMap =>
            globalLogFilters ++
              [{ Type_ := logFilterMap.type, Config := some (copyConfig logFilterMap.config) }])
          acc2 = acc2 ++ l := by
  induction l generalizing acc with
  | nil => exact ⟨[], by simp [globalLogFiltersToResourceData], rfl, by simp⟩
  | cons f rest ih =>
    obtain ⟨t, c⟩ := f
    cases c with
    | none => exact absurd rfl (h ⟨t, none⟩ (by simp))
    | some config =>
      obtain ⟨cfgs, h1, h2, h3⟩ := ih (fun g hg => h g (by simp [hg]))
        (acc ++ [{ type := t, config := config }])
      refine ⟨{ type := t, config := config } :: cfgs, ?_, by simp [h2], ?_⟩
      · simp only [globalLogFiltersToResourceData, h1]
        simp
      · intro acc2
        simp only [List.foldl_cons, h3]
        simp [copyConfig_eq]

theorem JobScheduleFromResourceData_empty (d : ResourceData) (job : JobDetail)
    (h : d.schedule = "") : JobScheduleFromResourceData d job = (job, []) := by
  simp [JobScheduleFromResourceData, h]

theorem JobScheduleFromResourceData_written (d : ResourceData) (job : JobDetail)
    (s : JobSchedule) (hs : s.roundTrips) (hd : d.schedule = (scheduleToCronSpec s).2.1) :
    JobScheduleFromResourceData d job = ({ job with Schedule := some s }, []) := by
  obtain ⟨hsp, hdom, hdow, hx⟩ := hs
  rw [scheduleToCronSpec_of_days s hdom hdow] at hd
  simp only at hd
  have hsplit : strings.Split d.schedule ' ' = s.fields := by
    rw [hd]
    exact strings_Split_Join s.fields ' ' (by simp [JobSchedule.fields]) hsp
  rw [JobScheduleFromResourceData_seven d job s.Time.Seconds s.Time.Minute s.Time.Hour
    s.Month.Day s.Month.Month s.WeekDay.Day s.Year.Year hsplit]
  simp [hx]

theorem commandSequenceToResourceData_roundTrips (sequence : JobCommandSequence)
    (d : ResourceData) (hcmds : ∀ c ∈ sequence.Commands, c.roundTrips)
    (hlog : (sequence.GlobalLogFilters = none ∧ d.global_log_filter = []) ∨
      ∃ l, sequence.GlobalLogFilters = some l ∧ l ≠ [] ∧ ∀ f ∈ l, f.Config ≠ none) :
    ∃ (G : List FlatLogFilter) (commandsI : List FlatCommand),
      commandSequenceToResourceData (some sequence) d =
        some ({ d with
          command_ordering_strategy := sequence.OrderingStrategy,
          continue_on_error := sequence.ContinueOnError,
          global_log_filter := G,
          command := commandsI }, []) ∧
      globalLogFiltersFromResourceData G = sequence.GlobalLogFilters ∧
      commandsFromResourceData commandsI [] = (some sequence.Commands, []) := by
  obtain ⟨cfgs, commandsI, hto, hst, hfrom⟩ := commands_roundTrip sequence.Commands hcmds []
  have hfrom2 := hfrom []
  simp only [List.nil_append] at hto hfrom2
  rcases hlog with ⟨hl, hd⟩ | ⟨l, hl, hne, hcfg⟩
  · refine ⟨d.global_log_filter, commandsI, ?_, ?_, hfrom2⟩
    · simp [commandSequenceToResourceData, hl, hto, hst]
    · simp [globalLogFiltersFromResourceData, hd, hl]
  · obtain ⟨G, h1, h2, h3⟩ := globalLogFilters_roundTrip l hcfg []
    have hlen : l.length > 0 := by
      cases l with
      | nil => exact absurd rfl hne
      | cons a t => simp
    refine ⟨G, commandsI, ?_, ?_, hfrom2⟩
    · simp only [List.nil_append] at h1
      simp [commandSequenceToResourceData, hl, hto, hst, hlen, h1]
    · have hG : G.length > 0 := by rw [h2]; exact hlen
      simp only [globalLogFiltersFromResourceData, hG, if_true, h3, List.nil_append, hl]

theorem jobAttributesToResourceData_eq (job : JobDetail) (d : ResourceData)
    (dispatch : JobDispatch) (nodeFilter : JobNodeFilter)
    (hD : job.Dispatch = some dispatch) (hN : job.NodeFilter = some nodeFilter) :
    jobAttributesToResourceData job d =
      { d with
        Id := job.ID,
        name := job.Name,
        group_name := job.GroupName,
        project_name := if job.ProjectName ≠ "" then job.ProjectName else d.project_name,
        description := job.Description,
        execution_enabled := job.ExecutionEnabled,
        schedule_enabled := job.ScheduleEnabled,
        time_zone := job.TimeZone,
        log_level := job.LogLevel,
        allow_concurrent_executions := job.AllowConcurrentExecutions,
        retry := job.Retry,
        max_thread_count := dispatch.MaxThreadCount,
        continue_next_node_on_error := dispatch.ContinueNextNodeOnError,
        rank_attribute := dispatch.RankAttribute,
        rank_order := dispatch.RankOrder,
        node_filter_query := nodeFilter.Query,
        node_filter_exclude_query := nodeFilter.ExcludeQuery,
        node_filter_exclude_precedence := nodeFilter.ExcludePrecedence,
        preserve_options_order :=
          (job.OptionsConfig.map (fun optionsConfig => optionsConfig.PreserveOrder)).getD
            d.preserve_options_order,
        option := (optionsToResourceData job.OptionsConfig).map OptionConfig.stored } := by
  unfold jobAttributesToResourceData
  simp only [hD, hN]
  by_cases hp : job.ProjectName = "" <;> cases job.OptionsConfig <;> simp [hp]

theorem jobScheduleToResourceData_eq (schedule : Option JobSchedule) (d : ResourceData) :
    jobScheduleToResourceData schedule d =
      ({ d with
        schedule :=
          (schedule.map (fun s => (scheduleToCronSpec s).2.1)).getD d.schedule }, []) := by
  cases schedule with
  | none => rfl
  | some s => simp [jobScheduleToResourceData, scheduleToCronSpec]

theorem roundTrip_of_roundTripsFrom (job : JobDetail) (d : ResourceData)
    (h : job.roundTripsFrom d) : roundTrip job d = (some job, []) := by
  obtain ⟨⟨dispatch, hD, hsucc⟩, hN0, ⟨sequence, hS, hcmds, hlog⟩, hopts, hsched, hnot,
    htimeout, hproject⟩ := h
  obtain ⟨nodeFilter, hN⟩ : ∃ nodeFilter, job.NodeFilter = some nodeFilter := by
    cases hn : job.NodeFilter with
    | none => exact absurd hn hN0
    | some nf => exact ⟨nf, rfl⟩
  clear hN0
  have hlog1 : (sequence.GlobalLogFilters = none ∧
      (jobAttributesToResourceData job d).global_log_filter = []) ∨
      ∃ l, sequence.GlobalLogFilters = some l ∧ l ≠ [] ∧ ∀ f ∈ l, f.Config ≠ none := by
    rcases hlog with ⟨a, b⟩ | hl
    · left
      rw [jobAttributesToResourceData_eq job d dispatch nodeFilter hD hN]
      exact ⟨a, b⟩
    · right; exact hl
  obtain ⟨G, commandsI, hseq, hG, hcfgs⟩ :=
    commandSequenceToResourceData_roundTrips sequence (jobAttributesToResourceData job d)
      hcmds hlog1
  clear hlog1 hlog
  unfold roundTrip jobToResourceData
  simp only [hS, hseq, jobScheduleToResourceData_eq]
  rw [jobAttributesToResourceData_eq job d dispatch nodeFilter hD hN]
  rw [jobFromResourceData_eq _ sequence.Commands job.OptionsConfig job.Schedule job.Notification]
  · obtain ⟨ID, Name, GroupName, ProjectName, Description, ExecutionEnabled, Timeout,
      ScheduleEnabled, TimeZone, LogLevel, AllowConcurrentExecutions, Retry, Dispatch,
      CommandSequence, OptionsConfig, NodeFilter, Schedule, Notification⟩ := job
    simp only at hD hN hS htimeout hproject
    subst hD hN hS
    obtain ⟨mt, cn, ra, ro, so⟩ := dispatch
    obtain ⟨ep, q, eq⟩ := nodeFilter
    obtain ⟨coe, os, cmds, glf⟩ := sequence
    simp only at hsucc hG
    by_cases hp : ProjectName = ""
    · simp [hp, hproject hp, htimeout, hsucc, hG]
    · simp [hp, htimeout, hsucc, hG]
  · exact hcfgs
  · simp only
    cases hoc : job.OptionsConfig with
    | none => left; exact ⟨rfl, rfl⟩
    | some optionsConfig =>
      right
      obtain ⟨hne, hall⟩ := hopts optionsConfig hoc
      rw [optionsToResourceData_some]
      refine ⟨?_, optionsConfig.Options, options_roundTrip optionsConfig.Options hall, ?_⟩
      · intro hnil
        apply hne
        simpa using hnil
      · simp
  · intro job2 hjob2
    rcases hsched with ⟨hnone, hempty⟩ | ⟨schedule, hsome, hrt⟩
    · rw [JobScheduleFromResourceData_empty _ _ (by simp [hnone, hempty]), hnone]
      obtain ⟨ID, Name, GroupName, ProjectName, Description, ExecutionEnabled, Timeout,
        ScheduleEnabled, TimeZone, LogLevel, AllowConcurrentExecutions, Retry, Dispatch,
        CommandSequence, OptionsConfig, NodeFilter, Schedule, Notification⟩ := job2
      simp only at hjob2
      subst hjob2
      rfl
    · rw [JobScheduleFromResourceData_written _ _ schedule hrt (by simp [hsome]), hsome]
  · simp only
    cases hjn : job.Notification with
    | none => left; exact ⟨rfl, rfl⟩
    | some jobNotification =>
      right
      obtain ⟨hlen, hfrom⟩ := jobNotification_roundTrip jobNotification (hnot jobNotification hjn)
      refine ⟨?_, jobNotification, hfrom, rfl⟩
      intro hnil
      rw [hnil] at hlen
      simp at hlen

/-! ## The job: to the flat view and back -/

/-- C10 (the code at the failing input): for a job holding one option with `is_date`
true and the date format `YYYY-MM-DD`, the option records written by `jobToResourceData`
read back with `jobFromResourceData` give the option with `is_date` false and an empty
date format, the other fields being kept. -/
theorem C10_date_option_lost :
    (roundTrip jobWithDateOption ResourceData.empty).2 = [] ∧
    (roundTrip jobWithDateOption ResourceData.empty).1.map (fun job => job.OptionsConfig) =
      some (some
        { PreserveOrder := false,
          Options :=
            [{ Name := "when", Label := "", DefaultValue := "", ValueChoices := [],
               ValueChoicesURL := "", RequirePredefinedChoice := false, ValidationRegex := "",
               Description := "", IsRequired := false, AllowsMultipleValues := false,
               MultiValueDelimiter := "", ObscureInput := false,
               ValueIsExposedToScripts := false, StoragePath := "", IsDate := false,
               DateFormat := "" }] }) ∧
    (roundTrip jobWithDateOption ResourceData.empty).1.map (fun job => job.OptionsConfig) ≠
      some jobWithDateOption.OptionsConfig := by
  decide

/-- C1 (the code at the failing input): a job that has dispatch settings, a node filter
and one command that runs a shell command, with no error handler, no options, no schedule
and no notifications, is written by `jobToResourceData` with no diagnostics; reading the
resource data back with `jobFromResourceData` returns no job, with the warning that the
key `job` of the command returned no results. -/
theorem C1_shell_command_job_not_read_back :
    (jobToResourceData jobWithShellCommand ResourceData.empty).map Prod.snd = some [] ∧
    roundTrip jobWithShellCommand ResourceData.empty =
      (none,
        [{ Severity := DiagSeverity.Warning,
           Summary := "Command Job with key: \"job\" returned no results",
           Detail := "Returning nil" }]) :=
  ⟨by decide, rfl⟩

theorem roundTrip_jobWithoutDispatch :
    (roundTrip jobWithoutDispatch ResourceData.empty).2 = [] ∧
    (roundTrip jobWithoutDispatch ResourceData.empty).1.map (fun job => job.Dispatch) =
      some (some ⟨1, false, "", "ascending", false⟩) ∧
    jobWithoutDispatch.Dispatch = none := by
  decide

theorem roundTrip_sampleJob : roundTrip sampleJob ResourceData.empty = (some sampleJob, []) :=
  roundTrip_of_roundTripsFrom sampleJob ResourceData.empty
    ⟨⟨⟨2, true, "rank", "descending", false⟩, rfl, rfl⟩,
     by decide,
     ⟨⟨true, "step-first", [sampleCommand], none⟩, rfl,
      by
        intro c hc
        simp only [List.mem_singleton] at hc
        subst hc
        refine ⟨by simp [sampleCommand, JobCommand.Job], ?_⟩
        intro errorHandler he
        simp only [sampleCommand, JobCommand.ErrorHandler, Option.some.injEq] at he
        subst he
        exact ⟨by simp [sampleErrorHandler, JobCommand.Job],
          by simp [sampleErrorHandler, JobCommand.ErrorHandler]⟩,
      Or.inl ⟨rfl, rfl⟩⟩,
     by
       intro optionsConfig hoc
       simp only [sampleJob, Option.some.injEq] at hoc
       subst hoc
       refine ⟨by simp, ?_⟩
       intro o ho
       simp only [List.mem_singleton] at ho
       subst ho
       simp [JobOption.roundTrips],
     Or.inr ⟨⟨⟨"0", "0", "12"⟩, ⟨"?", "1"⟩, ⟨"MON"⟩, ⟨"*"⟩⟩, rfl,
       by decide, by decide, by decide, by decide⟩,
     by
       intro jobNotification hjn
       simp only [sampleJob, Option.some.injEq] at hjn
       subst hjn
       refine ⟨Or.inl (by simp), ?_, ?_, ?_⟩
       · intro n hn
         simp only [Option.some.injEq] at hn
         subst hn
         simp [Notification.roundTrips]
       · intro n hn
         simp at hn
       · intro n hn
         simp only [Option.some.injEq] at hn
         subst hn
         simp [Notification.roundTrips],
     rfl,
     by decide⟩

theorem JobScheduleFromResourceData_shape (d : ResourceData) :
    ∃ (schedule : Option JobSchedule) (e : Diagnostics),
      ∀ job : JobDetail, job.Schedule = none →
        JobScheduleFromResourceData d job = ({ job with Schedule := schedule }, e) := by
  have hnone : ∀ job : JobDetail, job.Schedule = none → { job with Schedule := none } = job := by
    intro job hj
    obtain ⟨ID, Name, GroupName, ProjectName, Description, ExecutionEnabled, Timeout,
      ScheduleEnabled, TimeZone, LogLevel, AllowConcurrentExecutions, Retry, Dispatch,
      CommandSequence, OptionsConfig, NodeFilter, Schedule, Notification⟩ := job
    simp only at hj
    subst hj
    rfl
  by_cases hne : d.schedule = ""
  · refine ⟨none, [], fun job hj => ?_⟩
    rw [JobScheduleFromResourceData_empty d job hne, hnone job hj]
  · by_cases hlen : (strings.Split d.schedule ' ').length = 7
    · obtain ⟨s0, s1, s2, s3, s4, s5, s6, hs⟩ := exists_of_length_seven _ hlen
      exact ⟨_, _, fun job _ => JobScheduleFromResourceData_seven d job s0 s1 s2 s3 s4 s5 s6 hs⟩
    · refine ⟨none, diag.FromErr malformedScheduleMessage, fun job hj => ?_⟩
      rw [JobScheduleFromResourceData_not_seven d job hne hlen, hnone job hj]

theorem length_pos_of_ne_nil {α : Type} (l : List α) (h : l ≠ []) : l.length > 0 := by
  cases l with
  | nil => exact absurd rfl h
  | cons a t => simp

theorem jobFromResourceData_commands_fail (d : ResourceData)
    (h : (commandsFromResourceData d.command []).1 = none ∧
      (commandsFromResourceData d.command []).2 ≠ []) :
    (jobFromResourceData d).1 = none ∧ (jobFromResourceData d).2 ≠ [] := by
  unfold jobFromResourceData
  simp only
  rcases hc : commandsFromResourceData d.command [] with ⟨r, e⟩
  rw [hc] at h
  cases e with
  | nil => exact absurd rfl h.2
  | cons a l => simp

theorem jobFromResourceData_schedule_fail (d : ResourceData) (commands : List JobCommand)
    (schedule : Option JobSchedule) (e : Diagnostics)
    (hc : commandsFromResourceData d.command [] = (some commands, []))
    (ho : ∀ o ∈ d.option, optionInvariants o)
    (hs : ∀ job : JobDetail, job.Schedule = none →
      JobScheduleFromResourceData d job = ({ job with Schedule := schedule }, e))
    (he : e ≠ []) :
    jobFromResourceData d = (none, e) := by
  unfold jobFromResourceData
  simp only [hc, optionsFromResourceData_ok d.option [] ho]
  cases e with
  | nil => exact absurd rfl he
  | cons a l =>
    by_cases hlen : d.option.length > 0
    · simp only [hlen, if_true]
      rw [hs _ rfl]
    · simp only [hlen, if_false]
      rw [hs _ rfl]

theorem jobFromResourceData_notification_fail (d : ResourceData) (commands : List JobCommand)
    (schedule : Option JobSchedule)
    (hc : commandsFromResourceData d.command [] = (some commands, []))
    (ho : ∀ o ∈ d.option, optionInvariants o)
    (hs : ∀ job : JobDetail, job.Schedule = none →
      JobScheduleFromResourceData d job = ({ job with Schedule := schedule }, []))
    (hne : d.notification ≠ [])
    (hn : (jobNotificationFromResourceData d.notification).1 = none ∧
      (jobNotificationFromResourceData d.notification).2 ≠ []) :
    jobFromResourceData d = (none, (jobNotificationFromResourceData d.notification).2) ∧
      (jobNotificationFromResourceData d.notification).2 ≠ [] := by
  refine ⟨?_, hn.2⟩
  have hlenn := length_pos_of_ne_nil _ hne
  unfold jobFromResourceData
  simp only [hc, optionsFromResourceData_ok d.option [] ho]
  rcases hr : jobNotificationFromResourceData d.notification with ⟨r, e⟩
  rw [hr] at hn
  cases e with
  | nil => exact absurd rfl hn.2
  | cons a l =>
    by_cases hlen : d.option.length > 0
    · simp only [hlen, if_true]
      rw [hs _ rfl]
      simp only [hlenn, if_true, hr]
    · simp only [hlen, if_false]
      rw [hs _ rfl]
      simp only [hlenn, if_true, hr]

theorem jobFromResourceData_notification_panic (d : ResourceData)
    (commands : List JobCommand) (schedule : Option JobSchedule)
    (hc : commandsFromResourceData d.command [] = (some commands, []))
    (ho : ∀ o ∈ d.option, optionInvariants o)
    (hs : ∀ job : JobDetail, job.Schedule = none →
      JobScheduleFromResourceData d job = ({ job with Schedule := schedule }, []))
    (hne : d.notification ≠ [])
    (hn : jobNotificationFromResourceData d.notification = (none, [])) :
    jobFromResourceData d = (none, []) := by
  have hlenn := length_pos_of_ne_nil _ hne
  unfold jobFromResourceData
  simp only [hc, optionsFromResourceData_ok d.option [] ho]
  by_cases hlen : d.option.length > 0
  · simp only [hlen, if_true]
    rw [hs _ rfl]
    simp only [hlenn, if_true, hn]
  · simp only [hlen, if_false]
    rw [hs _ rfl]
    simp only [hlenn, if_true, hn]

theorem jobFromResourceData_cases (d : ResourceData) :
    (∃ (commands : List JobCommand) (options : Option JobOptions)
        (schedule : Option JobSchedule) (notification : Option JobNotification),
      commandsFromResourceData d.command [] = (some commands, []) ∧
      ((d.option = [] ∧ options = none) ∨
        (d.option ≠ [] ∧ (∀ o ∈ d.option, optionInvariants o) ∧
          options = some
            { PreserveOrder := d.preserve_options_order,
              Options := d.option.map FlatOption.toJobOption })) ∧
      (∀ job : JobDetail, job.Schedule = none →
        JobScheduleFromResourceData d job = ({ job with Schedule := schedule }, [])) ∧
      ((d.notification = [] ∧ notification = none) ∨
        (d.notification ≠ [] ∧ ∃ jn,
          jobNotificationFromResourceData d.notification = (some jn, []) ∧
          notification = some jn)) ∧
      jobFromResourceData d =
        (some (JobDetail.ofParts d commands options schedule notification), [])) ∨
    ((jobFromResourceData d).1 = none ∧ (jobFromResourceData d).2 ≠ []) ∨
    (jobFromResourceData d = (none, []) ∧ d.notification ≠ [] ∧
      jobNotificationFromResourceData d.notification = (none, [])) := by
  rcases commandsFromResourceData_cases d.command [] with ⟨commands, hc⟩ | hc
  · by_cases ho : ∀ o ∈ d.option, optionInvariants o
    · obtain ⟨schedule, e, hs⟩ := JobScheduleFromResourceData_shape d
      cases e with
      | cons a l =>
        right; left
        rw [jobFromResourceData_schedule_fail d commands schedule (a :: l) hc ho hs (by simp)]
        simp
      | nil =>
        have hopt : ∃ options : Option JobOptions, ((d.option = [] ∧ options = none) ∨
            (d.option ≠ [] ∧ (∀ o ∈ d.option, optionInvariants o) ∧
              options = some
                { PreserveOrder := d.preserve_options_order,
                  Options := d.option.map FlatOption.toJobOption })) := by
          by_cases hd : d.option = []
          · exact ⟨none, Or.inl ⟨hd, rfl⟩⟩
          · exact ⟨_, Or.inr ⟨hd, ho, rfl⟩⟩
        obtain ⟨options, hopt⟩ := hopt
        have hopt2 : (d.option = [] ∧ options = none) ∨
            (d.option ≠ [] ∧ ∃ l, optionsFromResourceData d.option [] = (some l, []) ∧
              options = some { PreserveOrder := d.preserve_options_order, Options := l }) := by
          rcases hopt with h1 | ⟨h1, _, h3⟩
          · exact Or.inl h1
          · refine Or.inr ⟨h1, _, optionsFromResourceData_ok d.option [] ho, ?_⟩
            simpa using h3
        by_cases hn0 : d.notification = []
        · left
          exact ⟨commands, options, schedule, none, hc, hopt, hs, Or.inl ⟨hn0, rfl⟩,
            jobFromResourceData_eq d commands options schedule none hc hopt2 hs
              (Or.inl ⟨hn0, rfl⟩)⟩
        · rcases jobNotificationFromResourceData_cases d.notification with
            ⟨jn, hjn⟩ | hjn | hjn
          · left
            exact ⟨commands, options, schedule, some jn, hc, hopt, hs,
              Or.inr ⟨hn0, jn, hjn, rfl⟩,
              jobFromResourceData_eq d commands options schedule (some jn) hc hopt2 hs
                (Or.inr ⟨hn0, jn, hjn, rfl⟩)⟩
          · right; left
            obtain ⟨h1, h2⟩ :=
              jobFromResourceData_notification_fail d commands schedule hc ho hs hn0 hjn
            rw [h1]
            exact ⟨rfl, h2⟩
          · right; right
            exact ⟨jobFromResourceData_notification_panic d commands schedule hc ho hs hn0 hjn,
              hn0, hjn⟩
    · right; left
      exact jobFromResourceData_options_fail d ho
  · right; left
    exact jobFromResourceData_commands_fail d hc

theorem filterMap_id_map_some (l : List FlatValueChoice) (h : ∀ v ∈ l, v ≠ none) :
    (l.filterMap id).map some = l := by
  induction l with
  | nil => rfl
  | cons v rest ih =>
    cases v with
    | none => exact absurd rfl (h none (by simp))
    | some iv =>
      simp only [List.filterMap_cons, id_eq, List.map_cons]
      rw [ih (fun w hw => h w (by simp [hw]))]

theorem jobFromResourceData_some (d : ResourceData) (job : JobDetail)
    (h : (jobFromResourceData d).1 = some job) :
    ∃ (commands : List JobCommand) (options : Option JobOptions)
        (schedule : Option JobSchedule) (notification : Option JobNotification),
      commandsFromResourceData d.command [] = (some commands, []) ∧
      ((d.option = [] ∧ options = none) ∨
        (d.option ≠ [] ∧ (∀ o ∈ d.option, optionInvariants o) ∧
          options = some
            { PreserveOrder := d.preserve_options_order,
              Options := d.option.map FlatOption.toJobOption })) ∧
      (∀ job : JobDetail, job.Schedule = none →
        JobScheduleFromResourceData d job = ({ job with Schedule := schedule }, [])) ∧
      ((d.notification = [] ∧ notification = none) ∨
        (d.notification ≠ [] ∧ ∃ jn,
          jobNotificationFromResourceData d.notification = (some jn, []) ∧
          notification = some jn)) ∧
      jobFromResourceData d = (some job, []) ∧
      job = JobDetail.ofParts d commands options schedule notification := by
  rcases jobFromResourceData_cases d with ⟨c, o, s, n, hc, ho, hs, hn, hj⟩ | hf | hf
  · rw [hj] at h
    simp only [Option.some.injEq] at h
    subst h
    exact ⟨c, o, s, n, hc, ho, hs, hn, hj, rfl⟩
  · rw [hf.1] at h
    simp at h
  · rw [hf.1] at h
    simp at h

/-- C11: when `jobFromResourceData` returns a job for resource data with a non-empty
option list, the job has options whose preserve-order flag is the attribute
`preserve_options_order`, whose list has the length of the input, and whose entry at
each position is the option built from the record at that position, with its name and
its value choices in the order given. -/
theorem C11_options_order (d : ResourceData) (job : JobDetail) (hne : d.option ≠ [])
    (hjob : (jobFromResourceData d).1 = some job) :
    ∃ optionsConfig, job.OptionsConfig = some optionsConfig ∧
      optionsConfig.PreserveOrder = d.preserve_options_order ∧
      optionsConfig.Options.length = d.option.length ∧
      ∀ (i : Nat) (hi : i < d.option.length), ∃ option,
        optionsConfig.Options[i]? = some option ∧
        optionFromResourceData (d.option.get ⟨i, hi⟩) = (some option, []) ∧
        option.Name = (d.option.get ⟨i, hi⟩).name ∧
        option.ValueChoices.map some = (d.option.get ⟨i, hi⟩).value_choices := by
  obtain ⟨c, o, s, n, _, ho, _, _, _, hjob⟩ := jobFromResourceData_some d job hjob
  rcases ho with ⟨h0, _⟩ | ⟨_, hall, ho⟩
  · exact absurd h0 hne
  · subst hjob ho
    refine ⟨_, rfl, rfl, by simp, fun i hi => ?_⟩
    have hmem : d.option.get ⟨i, hi⟩ ∈ d.option := List.get_mem _ _ _
    refine ⟨(d.option.get ⟨i, hi⟩).toJobOption, ?_,
      optionFromResourceData_ok _ (hall _ hmem), rfl, ?_⟩
    · simp [List.getElem?_map, List.getElem?_eq_getElem hi]
    · exact filterMap_id_map_some _ (hall _ hmem).2.2.2

theorem C11_options_order_witness :
    ∃ optionsConfig,
      (JobDetail.ofParts twoOptionsData [] (some ⟨true, twoOptionsData.option.map
        FlatOption.toJobOption⟩) none none).OptionsConfig = some optionsConfig ∧
      optionsConfig.PreserveOrder = twoOptionsData.preserve_options_order ∧
      optionsConfig.Options.length = twoOptionsData.option.length ∧
      ∀ (i : Nat) (hi : i < twoOptionsData.option.length), ∃ option,
        optionsConfig.Options[i]? = some option ∧
        optionFromResourceData (twoOptionsData.option.get ⟨i, hi⟩) = (some option, []) ∧
        option.Name = (twoOptionsData.option.get ⟨i, hi⟩).name ∧
        option.ValueChoices.map some = (twoOptionsData.option.get ⟨i, hi⟩).value_choices :=
  C11_options_order twoOptionsData
    (JobDetail.ofParts twoOptionsData [] (some ⟨true, twoOptionsData.option.map
      FlatOption.toJobOption⟩) none none) (by decide) rfl

/-- C19: every job that `jobFromResourceData` returns has a dispatch sub-object whose
five fields are the dispatch attributes of the resource data, and a node filter whose
exclude-precedence flag, query and exclude query are the node filter attributes (the
queries are empty when the attributes are unset). -/
theorem C19_dispatch_and_node_filter (d : ResourceData) (job : JobDetail)
    (h : (jobFromResourceData d).1 = some job) :
    job.Dispatch = some
        { MaxThreadCount := d.max_thread_count,
          ContinueNextNodeOnError := d.continue_next_node_on_error,
          RankAttribute := d.rank_attribute,
          RankOrder := d.rank_order,
          SuccessOnEmptyNodeFilter := d.success_on_empty_node_filter } ∧
      job.NodeFilter = some
        { ExcludePrecedence := d.node_filter_exclude_precedence,
          Query := d.node_filter_query,
          ExcludeQuery := d.node_filter_exclude_query } := by
  obtain ⟨c, o, s, n, _, _, _, _, _, hjob⟩ := jobFromResourceData_some d job h
  subst hjob
  exact ⟨rfl, rfl⟩

theorem C19_dispatch_and_node_filter_witness :
    (JobDetail.ofParts dispatchData [] none none none).Dispatch =
        some ⟨4, true, "rank", "descending", true⟩ ∧
      (JobDetail.ofParts dispatchData [] none none none).NodeFilter = some ⟨true, "", ""⟩ :=
  C19_dispatch_and_node_filter dispatchData (JobDetail.ofParts dispatchData [] none none none)
    rfl

/-- C20 (the code at the failing input): for resource data whose only notification block
has a `webhook_urls` list with one `nil` entry, `jobFromResourceData` returns neither a
job nor diagnostics, the call ending in the panic of the type assertion on that entry;
the same holds when the `nil` entry is in the recipients of the email entry. For
`commandFromResourceData` the claim holds: it returns either a command with no
diagnostics, or no command with diagnostics that are not empty. -/
theorem C20_nil_entry_returns_neither :
    jobFromResourceData nilWebhookUrlData = (none, []) ∧
    jobFromResourceData nilRecipientData = (none, []) ∧
    ∀ commandI : FlatCommand,
      (∃ command, commandFromResourceData commandI = (some command, [])) ∨
        ((commandFromResourceData commandI).1 = none ∧
          (commandFromResourceData commandI).2 ≠ []) :=
  ⟨rfl, rfl, commandFromResourceData_cases⟩

theorem optionFromResourceData_message (o : FlatOption) (h : ¬ optionInvariants o) :
    (optionFromResourceData o).1 = none ∧
      ∃ m ∈ optionErrorMessages, (optionFromResourceData o).2 = diag.FromErr m := by
  unfold optionFromResourceData
  simp only
  by_cases c1 : o.storage_path ≠ "" ∧ o.obscure_input = false
  · rw [if_pos c1]; exact ⟨rfl, _, by simp [optionErrorMessages], rfl⟩
  · rw [if_neg c1]
    by_cases c2 : o.exposed_to_scripts = true ∧ o.obscure_input = false
    · rw [if_pos c2]; exact ⟨rfl, _, by simp [optionErrorMessages], rfl⟩
    · rw [if_neg c2]
      by_cases c3 : o.is_date = true ∧ o.date_format = ""
      · rw [if_pos c3]; exact ⟨rfl, _, by simp [optionErrorMessages], rfl⟩
      · rw [if_neg c3]
        have h4 : ¬ ∀ v ∈ o.value_choices, v ≠ none := by
          intro h4
          apply h
          refine ⟨fun a => ?_, fun a => ?_, fun a b => c3 ⟨a, b⟩, h4⟩
          · cases hb : o.obscure_input with
            | true => rfl
            | false => exact absurd ⟨a, hb⟩ c1
          · cases hb : o.obscure_input with
            | true => rfl
            | false => exact absurd ⟨a, hb⟩ c2
        have hv : ∀ (l : List FlatValueChoice) (acc : List String), (¬ ∀ v ∈ l, v ≠ none) →
            valueChoicesFromResourceData l acc =
              (none, diag.FromErr
                "argument \"value_choices\" can not have empty values; try \"required\"") := by
          intro l
          induction l with
          | nil => intro acc hl; simp at hl
          | cons v rest ih =>
            intro acc hl
            cases v with
            | none => simp [valueChoicesFromResourceData]
            | some iv =>
              simp only [valueChoicesFromResourceData]
              apply ih
              intro hall
              apply hl
              intro w hw
              rcases List.mem_cons.mp hw with rfl | hw
              · simp
              · exact hall w hw
        rw [hv _ _ h4]
        exact ⟨rfl, _, by simp [optionErrorMessages], rfl⟩

theorem optionsFromResourceData_first_invalid (pre : List FlatOption) (o : FlatOption)
    (post : List FlatOption) (options : List JobOption)
    (hpre : ∀ p ∈ pre, optionInvariants p) (ho : ¬ optionInvariants o) :
    optionsFromResourceData (pre ++ o :: post) options = (none, (optionFromResourceData o).2) := by
  induction pre generalizing options with
  | nil =>
    obtain ⟨h1, m, _, h2⟩ := optionFromResourceData_message o ho
    rcases hr : optionFromResourceData o with ⟨r, e⟩
    rw [hr] at h1 h2
    simp only at h1 h2
    subst h1 h2
    simp [optionsFromResourceData, hr, diag.FromErr]
  | cons p rest ih =>
    simp only [List.cons_append, optionsFromResourceData]
    rw [optionFromResourceData_ok p (hpre p (by simp))]
    simp only
    exact ih _ (fun q hq => hpre q (by simp [hq]))

theorem jobFromResourceData_options_error (d : ResourceData) (e : Diagnostics)
    (hcmd : ∀ c ∈ d.command, (commandFromResourceData c).2 = [])
    (ho : optionsFromResourceData d.option [] = (none, e)) (hne : d.option ≠ [])
    (he : e ≠ []) : jobFromResourceData d = (none, e) := by
  obtain ⟨commands, hc⟩ := commandsFromResourceData_ok d.command [] hcmd
  have hlen := length_pos_of_ne_nil _ hne
  unfold jobFromResourceData
  simp only [hc, hlen, if_true, ho]
  cases e with
  | nil => exact absurd rfl he
  | cons a l => rfl

/-- C12 (counterexample): a record whose only option, named `alpha`, has a storage path
without an obscured input, and a record whose second option, named `beta`, breaks the
same rule, are both rejected, and with the same diagnostics. -/
theorem C12_counterexample :
    (jobFromResourceData badOptionAlphaData).1 = none ∧
    (jobFromResourceData badOptionBetaData).1 = none ∧
    (jobFromResourceData badOptionAlphaData).2 ≠ [] ∧
    (jobFromResourceData badOptionAlphaData).2 = (jobFromResourceData badOptionBetaData).2 := by
  refine ⟨rfl, rfl, by decide, rfl⟩

/-- C12 (amended): when the commands are valid and an option record breaks a rule, the
diagnostics that `jobFromResourceData` returns are those of the first such record taken
alone, a single error whose message is one of four fixed texts naming the fields of the
rule (for a storage path without an obscured input, the first of them); the message
holds neither the name nor the position of the option. -/
theorem C12_option_error_message (d : ResourceData) (pre : List FlatOption) (o : FlatOption)
    (post : List FlatOption)
    (hcmd : ∀ c ∈ d.command, (commandFromResourceData c).2 = [])
    (hd : d.option = pre ++ o :: post) (hpre : ∀ p ∈ pre, optionInvariants p)
    (ho : ¬ optionInvariants o) :
    jobFromResourceData d = (none, (optionFromResourceData o).2) ∧
      (∃ m ∈ optionErrorMessages, (optionFromResourceData o).2 = diag.FromErr m) ∧
      (o.storage_path ≠ "" → o.obscure_input = false →
        (optionFromResourceData o).2 = diag.FromErr
          "argument \"obscure_input\" must be set to `true` when \"storage_path\" is not empty") := by
  obtain ⟨_, m, hm, hmsg⟩ := optionFromResourceData_message o ho
  refine ⟨?_, ⟨m, hm, hmsg⟩, fun h1 h2 => ?_⟩
  · apply jobFromResourceData_options_error d _ hcmd
    · rw [hd]
      exact optionsFromResourceData_first_invalid pre o post [] hpre ho
    · rw [hd]; simp
    · rw [hmsg]; simp [diag.FromErr]
  · simp [optionFromResourceData, h1, h2]

theorem C12_option_error_message_witness :
    jobFromResourceData badOptionBetaData =
      (none, diag.FromErr
        "argument \"obscure_input\" must be set to `true` when \"storage_path\" is not empty") :=
  ((C12_option_error_message badOptionBetaData
      [⟨"first", "", "", [], "", false, "", "", false, false, "", false, false, "", false, ""⟩]
      ⟨"beta", "", "", [], "", false, "", "", false, false, "", false, false, "/keys/b",
        false, ""⟩ []
      (by decide) rfl (by decide) (by decide)).2.2 (by decide) rfl) ▸
    (C12_option_error_message badOptionBetaData
      [⟨"first", "", "", [], "", false, "", "", false, false, "", false, false, "", false, ""⟩]
      ⟨"beta", "", "", [], "", false, "", "", false, false, "", false, false, "/keys/b",
        false, ""⟩ []
      (by decide) rfl (by decide) (by decide)).1

theorem copyStrings_eq_none_iff (l : List FlatString) (out : List String) :
    copyStrings l out = none ↔ ¬ ∀ v ∈ l, v ≠ none := by
  rw [← copyStrings_isSome_iff l out]
  cases copyStrings l out <;> simp

theorem notificationFromResourceData_ok_iff (b : FlatNotification) :
    (∃ n, notificationFromResourceData b = (some n, [])) ↔
      b.hasNoNilEntry ∧ b.plugin.length ≤ 1 := by
  obtain ⟨t, email, urls, method, format, plugin⟩ := b
  unfold notificationFromResourceData FlatNotification.hasNoNilEntry
  simp only
  have hu := copyStrings_isSome_iff urls []
  cases email with
  | nil =>
    simp only [List.head?_nil, Option.map_none', Option.getD_none, List.not_mem_nil,
      false_implies, implies_true, true_and]
    rw [← hu]
    cases urls with
    | nil =>
      cases plugin with
      | nil => simp [copyStrings]
      | cons p rest => cases rest <;> simp [diag.FromErr, copyStrings]
    | cons u rest =>
      cases hc : copyStrings (u :: rest) [] with
      | none => simp
      | some r =>
        cases plugin with
        | nil => simp
        | cons p rest => cases rest <;> simp [diag.FromErr]
  | cons e rest =>
    simp only [List.head?_cons, Option.map_some', Option.getD_some]
    rw [← copyStrings_isSome_iff e.recipients [], ← hu]
    cases hrec : copyStrings e.recipients [] with
    | none => simp
    | some recipients =>
      cases urls with
      | nil =>
        cases plugin with
        | nil => simp [copyStrings]
        | cons p rest => cases rest <;> simp [diag.FromErr, copyStrings]
      | cons u rest =>
        cases hc : copyStrings (u :: rest) [] with
        | none => simp
        | some r =>
          cases plugin with
          | nil => simp
          | cons p rest => cases rest <;> simp [diag.FromErr]

theorem assignNotification_ok_iff (t : String) (n : Notification) (acc : JobNotification) :
    (∃ r, assignNotification t n acc = (some r, [])) ↔
      t ∈ notificationTypes ∧ acc.slot t = none := by
  unfold assignNotification JobNotification.slot notificationTypes
  by_cases h1 : t = "on_success"
  · subst h1
    by_cases hs : acc.OnSuccess = none <;> simp [hs, diag.FromErr]
  · by_cases h2 : t = "on_failure"
    · subst h2
      by_cases hs : acc.OnFailure = none <;> simp [hs, diag.FromErr]
    · by_cases h3 : t = "on_start"
      · subst h3
        by_cases hs : acc.OnStart = none <;> simp [hs, diag.FromErr]
      · simp [h1, h2, h3, diag.FromErr]

theorem assignNotification_slot (t : String) (n : Notification) (acc r : JobNotification)
    (h : assignNotification t n acc = (some r, [])) (t2 : String) :
    r.slot t2 = if t2 = t then some n else acc.slot t2 := by
  have hok := (assignNotification_ok_iff t n acc).mp ⟨r, h⟩
  obtain ⟨hmem, hnone⟩ := hok
  unfold assignNotification at h
  unfold JobNotification.slot at hnone ⊢
  simp only [notificationTypes, List.mem_cons, List.mem_singleton, List.not_mem_nil,
    or_false] at hmem
  rcases hmem with rfl | rfl | rfl
  · simp only [if_true] at hnone
    simp only [if_true, hnone, ne_eq, not_true_eq_false, if_false, Prod.mk.injEq,
      Option.some.injEq, and_true] at h
    subst h
    by_cases a : t2 = "on_success"
    · simp [a]
    · simp [a]
  · simp only [show ¬ ("on_failure" = "on_success") by decide, if_false, if_true] at hnone
    simp only [show ¬ ("on_failure" = "on_success") by decide, if_false, if_true, hnone,
      ne_eq, not_true_eq_false, Prod.mk.injEq, Option.some.injEq, and_true] at h
    subst h
    by_cases a : t2 = "on_success"
    · subst a; simp
    · by_cases b : t2 = "on_failure"
      · simp [b]
      · simp [a, b]
  · simp only [show ¬ ("on_start" = "on_success") by decide,
      show ¬ ("on_start" = "on_failure") by decide, if_false, if_true] at hnone
    simp only [show ¬ ("on_start" = "on_success") by decide,
      show ¬ ("on_start" = "on_failure") by decide, if_false, if_true, hnone,
      ne_eq, not_true_eq_false, Prod.mk.injEq, Option.some.injEq, and_true] at h
    subst h
    by_cases a : t2 = "on_success"
    · subst a; simp
    · by_cases b : t2 = "on_failure"
      · subst b; simp
      · by_cases c : t2 = "on_start"
        · simp [c]
        · simp [a, b, c]

theorem notificationsFromResourceData_cons (b : FlatNotification)
    (rest : List FlatNotification) (acc : JobNotification) :
    (∃ n acc2, notificationFromResourceData b = (some n, []) ∧
        assignNotification b.type n acc = (some acc2, []) ∧
        notificationsFromResourceData (b :: rest) acc = notificationsFromResourceData rest acc2) ∨
      ((notificationsFromResourceData (b :: rest) acc).1 = none ∧
        (¬ ((b.hasNoNilEntry ∧ b.plugin.length ≤ 1) ∧ b.type ∈ notificationTypes ∧
          acc.slot b.type = none))) := by
  simp only [notificationsFromResourceData]
  by_cases hok : ∃ n, notificationFromResourceData b = (some n, [])
  · obtain ⟨n, hn⟩ := hok
    rw [hn]
    simp only
    rcases assignNotification_cases b.type n acc with ⟨r, ha⟩ | ha
    · left
      exact ⟨n, r, rfl, ha, by rw [ha]⟩
    · right
      have hnot : ¬ (b.type ∈ notificationTypes ∧ acc.slot b.type = none) := by
        intro hh
        obtain ⟨r, hr⟩ := (assignNotification_ok_iff b.type n acc).mpr hh
        rw [hr] at ha
        simp at ha
      rcases hr : assignNotification b.type n acc with ⟨r, e⟩
      rw [hr] at ha
      cases e with
      | nil => exact absurd rfl ha.2
      | cons a l => exact ⟨by simp, fun hh => hnot hh.2⟩
  · right
    have hnot : ¬ (b.hasNoNilEntry ∧ b.plugin.length ≤ 1) :=
      fun hh => hok ((notificationFromResourceData_ok_iff b).mpr hh)
    refine ⟨?_, fun hh => hnot hh.1⟩
    rcases notificationFromResourceData_cases b with ⟨n, hn⟩ | hn | hn
    · exact absurd ⟨n, hn⟩ hok
    · rcases hr : notificationFromResourceData b with ⟨r, e⟩
      rw [hr] at hn
      cases e with
      | nil => exact absurd rfl hn.2
      | cons a l => simp
    · rw [hn]

theorem notificationsFromResourceData_ok_iff (l : List FlatNotification)
    (acc : JobNotification) :
    (∃ r, notificationsFromResourceData l acc = (some r, [])) ↔
      (∀ b ∈ l, (b.hasNoNilEntry ∧ b.plugin.length ≤ 1) ∧ b.type ∈ notificationTypes ∧
          acc.slot b.type = none) ∧
        (l.map (fun b => b.type)).Nodup := by
  induction l generalizing acc with
  | nil => simp [notificationsFromResourceData]
  | cons b rest ih =>
    rcases notificationsFromResourceData_cons b rest acc with ⟨n, acc2, hn, ha, hl⟩ | ⟨hf, hnot⟩
    · rw [hl, ih acc2]
      have hb : (b.hasNoNilEntry ∧ b.plugin.length ≤ 1) ∧ b.type ∈ notificationTypes ∧
          acc.slot b.type = none :=
        ⟨(notificationFromResourceData_ok_iff b).mp ⟨n, hn⟩,
          (assignNotification_ok_iff b.type n acc).mp ⟨acc2, ha⟩⟩
      have hslot := assignNotification_slot b.type n acc acc2 ha
      constructor
      · rintro ⟨hall, hnd⟩
        refine ⟨?_, ?_⟩
        · intro c hc
          rcases List.mem_cons.mp hc with rfl | hc
          · exact hb
          · obtain ⟨h1, h2, h3⟩ := hall c hc
            refine ⟨h1, h2, ?_⟩
            rw [hslot] at h3
            by_cases hct : c.type = b.type
            · simp [hct] at h3
            · simpa [hct] using h3
        · simp only [List.map_cons, List.nodup_cons]
          refine ⟨?_, hnd⟩
          intro hmem
          simp only [List.mem_map] at hmem
          obtain ⟨c, hc, hct⟩ := hmem
          have h3 := (hall c hc).2.2
          rw [hslot] at h3
          simp [hct] at h3
      · rintro ⟨hall, hnd⟩
        simp only [List.map_cons, List.nodup_cons] at hnd
        refine ⟨?_, hnd.2⟩
        intro c hc
        obtain ⟨h1, h2, h3⟩ := hall c (by simp [hc])
        refine ⟨h1, h2, ?_⟩
        rw [hslot]
        have hct : c.type ≠ b.type := by
          intro heq
          apply hnd.1
          simp only [List.mem_map]
          exact ⟨c, hc, heq⟩
        simpa [hct] using h3
    · constructor
      · rintro ⟨r, hr⟩
        rw [hr] at hf
        simp at hf
      · rintro ⟨hall, _⟩
        exact absurd (hall b (by simp)) hnot

theorem notificationsFromResourceData_slots (l : List FlatNotification)
    (acc r : JobNotification) (h : notificationsFromResourceData l acc = (some r, []))
    (t : String) :
    (r.slot t).isSome ↔ ((acc.slot t).isSome ∨ t ∈ l.map (fun b => b.type)) := by
  induction l generalizing acc with
  | nil =>
    simp only [notificationsFromResourceData, Prod.mk.injEq, Option.some.injEq, and_true] at h
    subst h
    simp
  | cons b rest ih =>
    rcases notificationsFromResourceData_cons b rest acc with ⟨n, acc2, hn, ha, hl⟩ | ⟨hf, _⟩
    · rw [hl] at h
      rw [ih acc2 h, assignNotification_slot b.type n acc acc2 ha]
      have hb := ((assignNotification_ok_iff b.type n acc).mp ⟨acc2, ha⟩).2
      by_cases ht : t = b.type
      · subst ht
        simp
      · simp only [ht, if_false, List.map_cons, List.mem_cons, false_or]
    · rw [h] at hf
      simp at hf

theorem jobNotificationFromResourceData_ok_iff (l : List FlatNotification) :
    (∃ jn, jobNotificationFromResourceData l = (some jn, [])) ↔
      notificationBlocksValid l ∧ ∀ b ∈ l, b.hasNoNilEntry := by
  unfold jobNotificationFromResourceData notificationBlocksValid
  by_cases hlen : l.length ≤ 3
  · simp only [hlen, if_true, true_and]
    rw [notificationsFromResourceData_ok_iff]
    constructor
    · rintro ⟨hall, hnd⟩
      exact ⟨⟨fun b hb => (hall b hb).2.1, fun b hb => (hall b hb).1.2, hnd⟩,
        fun b hb => (hall b hb).1.1⟩
    · rintro ⟨⟨h1, h2, hnd⟩, h3⟩
      refine ⟨fun b hb => ⟨⟨h3 b hb, h2 b hb⟩, h1 b hb, ?_⟩, hnd⟩
      simp [JobNotification.slot]
  · simp [hlen, diag.FromErr]

theorem jobNotificationFromResourceData_slots (l : List FlatNotification)
    (jn : JobNotification) (h : jobNotificationFromResourceData l = (some jn, []))
    (t : String) : (jn.slot t).isSome ↔ t ∈ l.map (fun b => b.type) := by
  unfold jobNotificationFromResourceData at h
  by_cases hlen : l.length ≤ 3
  · simp only [hlen, if_true] at h
    rw [notificationsFromResourceData_slots l _ jn h t]
    simp [JobNotification.slot]
  · simp [hlen, diag.FromErr] at h

theorem notificationFromResourceData_plugin_cases (b : FlatNotification)
    (hb : b.hasNoNilEntry) :
    b.plugin.length ≤ 1 ∨ (notificationFromResourceData b).2 ≠ [] := by
  by_cases hp : b.plugin.length ≤ 1
  · exact Or.inl hp
  · right
    have hne : ¬ ∃ n, notificationFromResourceData b = (some n, []) := by
      rw [notificationFromResourceData_ok_iff]
      exact fun hh => hp hh.2
    obtain ⟨t, email, urls, method, format, plugin⟩ := b
    obtain ⟨h1, h2⟩ := hb
    simp only at hp h1 h2
    have hu := (copyStrings_isSome_iff urls []).mpr h2
    obtain ⟨u, hu⟩ := hu
    unfold notificationFromResourceData
    simp only
    cases plugin with
    | nil => simp at hp
    | cons p rest =>
      cases rest with
      | nil => simp at hp
      | cons q rest2 =>
        cases email with
        | nil =>
          by_cases hl : urls.length > 0 <;> simp [hl, hu, diag.FromErr]
        | cons e rest3 =>
          simp only [List.head?_cons, Option.map_some', Option.getD_some] at h1
          obtain ⟨r, hr⟩ := (copyStrings_isSome_iff e.recipients []).mpr h1
          by_cases hl : urls.length > 0 <;> simp [hl, hu, hr, diag.FromErr]
theorem notificationsFromResourceData_neither (l : List FlatNotification)
    (acc : JobNotification) (h : notificationsFromResourceData l acc = (none, [])) :
    ∃ b ∈ l, ¬ b.hasNoNilEntry := by
  induction l generalizing acc with
  | nil => simp [notificationsFromResourceData] at h
  | cons b rest ih =>
    by_cases hb : b.hasNoNilEntry
    · rcases notificationsFromResourceData_cons b rest acc with
        ⟨n, acc2, hn, ha, hl⟩ | ⟨hf, hnot⟩
      · rw [hl] at h
        obtain ⟨c, hc, hcn⟩ := ih acc2 h
        exact ⟨c, by simp [hc], hcn⟩
      · simp only [notificationsFromResourceData] at h
        rcases notificationFromResourceData_cases b with ⟨n, hn⟩ | hn | hn
        · rw [hn] at h
          simp only at h
          rcases assignNotification_cases b.type n acc with ⟨r, ha⟩ | ha
          · rw [ha] at h
            obtain ⟨c, hc, hcn⟩ := ih r h
            exact ⟨c, by simp [hc], hcn⟩
          · rcases hr : assignNotification b.type n acc with ⟨r, e⟩
            rw [hr] at ha h
            cases e with
            | nil => exact absurd rfl ha.2
            | cons a t => simp at h
        · rcases hr : notificationFromResourceData b with ⟨r, e⟩
          rw [hr] at hn h
          cases e with
          | nil => exact absurd rfl hn.2
          | cons a t => simp at h
        · have hne : ¬ ∃ n, notificationFromResourceData b = (some n, []) := by
            rintro ⟨n, hn2⟩
            rw [hn] at hn2
            simp at hn2
          rw [notificationFromResourceData_ok_iff] at hne
          rcases notificationFromResourceData_plugin_cases b hb with hp | hp
          · exact absurd ⟨hb, hp⟩ hne
          · rw [hn] at hp
            simp at hp
    · exact ⟨b, by simp, hb⟩

theorem jobFromResourceData_fail_fast (d : ResourceData)
    (hnil : ∀ b ∈ d.notification, b.hasNoNilEntry) :
    (∃ job, jobFromResourceData d = (some job, [])) ∨
      ((jobFromResourceData d).1 = none ∧ (jobFromResourceData d).2 ≠ []) := by
  rcases jobFromResourceData_cases d with ⟨c, o, s, n, _, _, _, _, hj⟩ | hf | ⟨_, _, hf⟩
  · exact Or.inl ⟨_, hj⟩
  · exact Or.inr hf
  · unfold jobNotificationFromResourceData at hf
    split at hf
    · obtain ⟨b, hb, hbn⟩ := notificationsFromResourceData_neither _ _ hf
      exact absurd (hnil b hb) hbn
    · simp [diag.FromErr] at hf

theorem jobFromResourceData_notification_blocks (d : ResourceData)
    (hcmd : ∀ c ∈ d.command, (commandFromResourceData c).2 = [])
    (hopt : ∀ o ∈ d.option, optionInvariants o)
    (hsched : (JobScheduleFromResourceData d JobDetail.blank).2 = []) :
    ((∃ job, jobFromResourceData d = (some job, [])) ↔
        notificationBlocksValid d.notification ∧ ∀ b ∈ d.notification, b.hasNoNilEntry) ∧
      (∀ job, jobFromResourceData d = (some job, []) →
        ∀ t, ((job.Notification.bind (fun jn => jn.slot t)).isSome ↔
          t ∈ d.notification.map (fun b => b.type))) := by
  constructor
  · constructor
    · rintro ⟨job, hjob⟩
      obtain ⟨c, o, s, n, _, _, _, hn, _, _⟩ :=
        jobFromResourceData_some d job (by rw [hjob])
      rcases hn with ⟨h0, _⟩ | ⟨_, jn, hjn, _⟩
      · rw [h0]
        exact ⟨by decide, by simp⟩
      · exact (jobNotificationFromResourceData_ok_iff d.notification).mp ⟨jn, hjn⟩
    · intro hvalid
      exact jobFromResourceData_of_parts d hcmd hopt hsched
        (Or.inr ((jobNotificationFromResourceData_ok_iff d.notification).mpr hvalid))
  · intro job hjob t
    obtain ⟨c, o, s, n, _, _, _, hn, _, hj⟩ :=
      jobFromResourceData_some d job (by rw [hjob])
    subst hj
    rcases hn with ⟨h0, rfl⟩ | ⟨_, jn, hjn, rfl⟩
    · simp [JobDetail.ofParts, h0]
    · simpa [JobDetail.ofParts] using jobNotificationFromResourceData_slots d.notification jn hjn t

/-- C13 (the code at the failing input): the resource data whose only notification block
has type `on_success` and an email entry with one `nil` recipient (the recipient list
`[""]` of the configuration) have no command and no option, an empty schedule, one block
of a known type with no plugin entry, so every condition of the claim holds; yet
`jobFromResourceData` does not succeed: it returns no job, and no diagnostics either, the
call ending in the panic of the type assertion on the recipient. -/
theorem C13_nil_recipient_not_read :
    nilRecipientData.command = [] ∧ nilRecipientData.option = [] ∧
    nilRecipientData.schedule = "" ∧
    notificationBlocksValid nilRecipientData.notification ∧
    (¬ ∃ job, jobFromResourceData nilRecipientData = (some job, [])) ∧
    (jobFromResourceData nilRecipientData).1 = none ∧
    (jobFromResourceData nilRecipientData).2 = [] :=
  ⟨rfl, rfl, rfl, by decide,
    fun ⟨_, h⟩ => Option.noConfusion (congrArg Prod.fst h), rfl, rfl⟩

theorem commandToResourceData_eq
    (d s sc sf sfa : String) (k : Bool) (eh : Option JobCommand)
    (si : Option JobCommandScriptInterpreter) (job : Option JobCommandJobRef)
    (sp nsp : Option JobPlugin) (ehI : Option (List CommandConfig))
    (heh : (eh = none ∧ ehI = none) ∨
      (∃ h hcfg, eh = some h ∧ commandToResourceData h = (some hcfg, []) ∧ ehI = some [hcfg])) :
    commandToResourceData (JobCommand.mk d s sc sf sfa k eh si job sp nsp) =
      (some (CommandConfig.mk d s sc sf sfa k ehI
        (si.map
          (fun si => [{ invocation_string := si.InvocationString, args_quoted := si.ArgsQuoted }]))
        (job.map
          (fun jobRef =>
            [{ name := jobRef.Name, group_name := jobRef.GroupName,
               run_for_each_node := jobRef.RunForEachNode, args := jobRef.Arguments,
               node_filters :=
                 jobRef.NodeFilter.map
                   (fun nodeFilter =>
                     [{ exclude_precedence := nodeFilter.ExcludePrecedence,
                        filter := nodeFilter.Query,
                        exclude_filter := nodeFilter.ExcludeQuery }]) }]))
        (sp.map (fun plugin => [{ type := plugin.Type_, config := plugin.Config }]))
        (nsp.map (fun plugin => [{ type := plugin.Type_, config := plugin.Config }]))), []) := by
  rcases heh with ⟨rfl, rfl⟩ | ⟨h, hcfg, rfl, hh, rfl⟩
  · cases si <;> cases sp <;> cases nsp <;> cases job with
    | none => simp [commandToResourceData]
    | some jobRef => cases hnf : jobRef.NodeFilter <;> simp [commandToResourceData, hnf]
  · cases si <;> cases sp <;> cases nsp <;> cases job with
    | none => simp [commandToResourceData, hh]
    | some jobRef => cases hnf : jobRef.NodeFilter <;> simp [commandToResourceData, hh, hnf]

theorem commandToResourceData_total : ∀ command : JobCommand,
    ∃ cfg, commandToResourceData command = (some cfg, [])
  | .mk d s sc sf sfa k none si job sp nsp =>
    ⟨_, commandToResourceData_eq d s sc sf sfa k none si job sp nsp none (Or.inl ⟨rfl, rfl⟩)⟩
  | .mk d s sc sf sfa k (some h) si job sp nsp => by
    obtain ⟨hcfg, hh⟩ := commandToResourceData_total h
    exact ⟨_, commandToResourceData_eq d s sc sf sfa k (some h) si job sp nsp (some [hcfg])
      (Or.inr ⟨h, hcfg, rfl, hh, rfl⟩)⟩

theorem commandToResourceData_shape (command : JobCommand) :
    ∃ cfg, commandToResourceData command = (some cfg, []) ∧
      cfg.description = command.Description ∧
      cfg.shell_command = command.ShellCommand ∧
      cfg.inline_script = command.Script ∧
      cfg.script_file = command.ScriptFile ∧
      cfg.script_file_args = command.ScriptFileArgs ∧
      cfg.keep_going_on_success = command.KeepGoingOnSuccess ∧
      (command.ErrorHandler = none → cfg.error_handler = none) ∧
      (∀ errorHandler, command.ErrorHandler = some errorHandler →
        ∃ errorHandlerI, commandToResourceData errorHandler = (some errorHandlerI, []) ∧
          cfg.error_handler = some [errorHandlerI]) ∧
      cfg.script_interpreter =
        command.ScriptInterpreter.map
          (fun si => [{ invocation_string := si.InvocationString, args_quoted := si.ArgsQuoted }]) ∧
      cfg.job =
        command.Job.map
          (fun jobRef =>
            [{ name := jobRef.Name, group_name := jobRef.GroupName,
               run_for_each_node := jobRef.RunForEachNode, args := jobRef.Arguments,
               node_filters :=
                 jobRef.NodeFilter.map
                   (fun nodeFilter =>
                     [{ exclude_precedence := nodeFilter.ExcludePrecedence,
                        filter := nodeFilter.Query,
                        exclude_filter := nodeFilter.ExcludeQuery }]) }]) ∧
      cfg.step_plugin =
        command.StepPlugin.map (fun plugin => [{ type := plugin.Type_, config := plugin.Config }]) ∧
      cfg.node_step_plugin =
        command.NodeStepPlugin.map
          (fun plugin => [{ type := plugin.Type_, config := plugin.Config }]) := by
  obtain ⟨d, s, sc, sf, sfa, k, eh, si, job, sp, nsp⟩ := command
  cases eh with
  | none =>
    refine ⟨_, commandToResourceData_eq d s sc sf sfa k none si job sp nsp none
      (Or.inl ⟨rfl, rfl⟩), rfl, rfl, rfl, rfl, rfl, rfl, fun _ => rfl, ?_, rfl, rfl, rfl, rfl⟩
    intro eh he
    simp [JobCommand.ErrorHandler] at he
  | some h =>
    obtain ⟨hcfg, hh⟩ := commandToResourceData_total h
    refine ⟨_, commandToResourceData_eq d s sc sf sfa k (some h) si job sp nsp (some [hcfg])
      (Or.inr ⟨h, hcfg, rfl, hh, rfl⟩), rfl, rfl, rfl, rfl, rfl, rfl, ?_, ?_, rfl, rfl, rfl, rfl⟩
    · intro he
      simp [JobCommand.ErrorHandler] at he
    · intro eh he
      simp only [JobCommand.ErrorHandler, Option.some.injEq] at he
      subst he
      exact ⟨hcfg, hh, rfl⟩

theorem commandsToResourceData_total (l : List JobCommand)
    (commandConfigsI : List CommandConfig) :
    ∃ cfgs, commandsToResourceData l commandConfigsI = (some cfgs, []) := by
  induction l generalizing commandConfigsI with
  | nil => exact ⟨_, rfl⟩
  | cons c rest ih =>
    obtain ⟨cfg, hc⟩ := commandToResourceData_total c
    simp only [commandsToResourceData, hc]
    exact ih _

theorem storedEach_isSome_iff {α β : Type} (stored : α → Option β) (l : List α) :
    (∃ r, storedEach stored l = some r) ↔ ∀ a ∈ l, ∃ b, stored a = some b := by
  induction l with
  | nil => simp [storedEach]
  | cons a rest ih =>
    simp only [storedEach, List.mem_cons, forall_eq_or_imp]
    rw [← ih]
    cases stored a <;> cases storedEach stored rest <;> simp

theorem CommandConfig.storedErrorHandler_isSome_iff (cfg : CommandConfig) :
    (∃ commandI, cfg.storedErrorHandler = some commandI) ↔ cfg.error_handler = none := by
  obtain ⟨d, s, sc, sf, sfa, k, eh, si, job, sp, nsp⟩ := cfg
  cases eh <;> simp [CommandConfig.storedErrorHandler, CommandConfig.error_handler]

theorem CommandConfig.stored_isSome_iff (cfg : CommandConfig) :
    (∃ commandI, cfg.stored = some commandI) ↔
      ∀ errorHandlerI ∈ cfg.error_handler.getD [], errorHandlerI.error_handler = none := by
  obtain ⟨d, s, sc, sf, sfa, k, eh, si, job, sp, nsp⟩ := cfg
  have h := storedEach_isSome_iff CommandConfig.storedErrorHandler (eh.getD [])
  simp only [CommandConfig.storedErrorHandler_isSome_iff] at h
  have he : (CommandConfig.mk d s sc sf sfa k eh si job sp nsp).error_handler = eh := rfl
  rw [he, ← h]
  unfold CommandConfig.stored
  cases hs : storedEach CommandConfig.storedErrorHandler (eh.getD []) <;> simp [hs]

theorem commandToResourceData_stored (command : JobCommand) (cfg : CommandConfig)
    (h : commandToResourceData command = (some cfg, [])) :
    (∃ commandI, cfg.stored = some commandI) ↔
      ∀ errorHandler, command.ErrorHandler = some errorHandler →
        errorHandler.ErrorHandler = none := by
  rw [CommandConfig.stored_isSome_iff]
  obtain ⟨cfg2, h2, _, _, _, _, _, _, hnone, hsome, _⟩ := commandToResourceData_shape command
  rw [h] at h2
  simp only [Prod.mk.injEq, Option.some.injEq, and_true] at h2
  subst h2
  cases heh : command.ErrorHandler with
  | none => simp [hnone heh]
  | some errorHandler =>
    obtain ⟨errorHandlerI, hI, hcfg⟩ := hsome errorHandler heh
    obtain ⟨cfg3, h3, _, _, _, _, _, _, hnone3, hsome3, _⟩ :=
      commandToResourceData_shape errorHandler
    rw [hI] at h3
    simp only [Prod.mk.injEq, Option.some.injEq, and_true] at h3
    subst h3
    rw [hcfg]
    simp only [Option.getD_some, List.mem_singleton, forall_eq]
    constructor
    · intro hk errorHandler2 he2
      simp only [Option.some.injEq] at he2
      subst he2
      cases hh : errorHandler.ErrorHandler with
      | none => rfl
      | some inner =>
        obtain ⟨innerI, _, hkey⟩ := hsome3 inner hh
        rw [hkey] at hk
        simp at hk
    · intro hk
      exact hnone3 (hk errorHandler rfl)

theorem commandsToResourceData_stored (l : List JobCommand)
    (commandConfigsI : List CommandConfig) :
    ∃ cfgs, commandsToResourceData l commandConfigsI = (some (commandConfigsI ++ cfgs), []) ∧
      ((∃ commandsI, storedEach CommandConfig.stored cfgs = some commandsI) ↔
        ∀ command ∈ l, ∀ errorHandler, command.ErrorHandler = some errorHandler →
          errorHandler.ErrorHandler = none) := by
  induction l generalizing commandConfigsI with
  | nil => exact ⟨[], by simp [commandsToResourceData], by simp [storedEach]⟩
  | cons c rest ih =>
    obtain ⟨cfg, hc⟩ := commandToResourceData_total c
    obtain ⟨cfgs, hto, hst⟩ := ih (commandConfigsI ++ [cfg])
    refine ⟨cfg :: cfgs, ?_, ?_⟩
    · simp only [commandsToResourceData, hc, hto]
      simp
    · rw [storedEach_isSome_iff] at hst ⊢
      simp only [List.mem_cons, forall_eq_or_imp]
      rw [hst, commandToResourceData_stored c cfg hc]

theorem commandSequenceToResourceData_some (sequence : JobCommandSequence)
    (d d1 : ResourceData) (e : Diagnostics)
    (h : commandSequenceToResourceData (some sequence) d = some (d1, e)) :
    ∃ (G : List FlatLogFilter),
      ((sequence.GlobalLogFilters = none ∨ sequence.GlobalLogFilters = some []) →
        G = d.global_log_filter) ∧
      ((∃ C, d1 = { d with
            command_ordering_strategy := sequence.OrderingStrategy,
            continue_on_error := sequence.ContinueOnError,
            global_log_filter := G, command := C } ∧
          e = [] ∧
          ∀ command ∈ sequence.Commands, ∀ errorHandler,
            command.ErrorHandler = some errorHandler → errorHandler.ErrorHandler = none) ∨
        (d1 = { d with
            command_ordering_strategy := sequence.OrderingStrategy,
            continue_on_error := sequence.ContinueOnError,
            global_log_filter := G } ∧
          e = diag.FromErr ("failed to set `command`: " ++ invalidAddressMessage) ∧
          ¬ ∀ command ∈ sequence.Commands, ∀ errorHandler,
            command.ErrorHandler = some errorHandler → errorHandler.ErrorHandler = none)) := by
  obtain ⟨cfgs, hc, hst⟩ := commandsToResourceData_stored sequence.Commands []
  simp only [List.nil_append] at hc
  have key : ∀ d2 : ResourceData,
      (match storedEach CommandConfig.stored cfgs with
        | some commandsI => some (({ d2 with command := commandsI } : ResourceData), ([] : Diagnostics))
        | none =>
          some (d2, diag.FromErr ("failed to set `command`: " ++ invalidAddressMessage))) =
        some (d1, e) →
      (∃ C, d1 = { d2 with command := C } ∧ e = [] ∧
          ∀ command ∈ sequence.Commands, ∀ errorHandler,
            command.ErrorHandler = some errorHandler → errorHandler.ErrorHandler = none) ∨
        (d1 = d2 ∧
          e = diag.FromErr ("failed to set `command`: " ++ invalidAddressMessage) ∧
          ¬ ∀ command ∈ sequence.Commands, ∀ errorHandler,
            command.ErrorHandler = some errorHandler → errorHandler.ErrorHandler = none) := by
    intro d2 h2
    cases hs : storedEach CommandConfig.stored cfgs with
    | none =>
      rw [hs] at h2
      simp only [Option.some.injEq, Prod.mk.injEq] at h2
      obtain ⟨rfl, rfl⟩ := h2
      right
      refine ⟨rfl, rfl, fun hall => ?_⟩
      obtain ⟨r, hr⟩ := hst.mpr hall
      rw [hs] at hr
      simp at hr
    | some commandsI =>
      rw [hs] at h2
      simp only [Option.some.injEq, Prod.mk.injEq] at h2
      obtain ⟨rfl, rfl⟩ := h2
      left
      exact ⟨commandsI, rfl, rfl, hst.mp ⟨commandsI, hs⟩⟩
  simp only [commandSequenceToResourceData, hc] at h
  split at h
  · rename_i d2 heq
    have hk := key d2 h
    split at heq
    · rename_i filters hf
      split at heq
      · split at heq
        · rename_i hlen G hG
          simp only [Option.some.injEq] at heq
          subst heq
          refine ⟨G, fun hno => ?_, ?_⟩
          · rcases hno with h0 | h0
            · rw [hf] at h0; simp at h0
            · rw [hf] at h0
              simp only [Option.some.injEq] at h0
              subst h0
              simp_all
          · rcases hk with ⟨C, h1, h2, h3⟩ | ⟨h1, h2, h3⟩
            · exact Or.inl ⟨C, h1, h2, h3⟩
            · exact Or.inr ⟨h1, h2, h3⟩
        · simp at heq
      · simp only [Option.some.injEq] at heq
        subst heq
        refine ⟨d.global_log_filter, fun _ => rfl, ?_⟩
        rcases hk with ⟨C, h1, h2, h3⟩ | ⟨h1, h2, h3⟩
        · exact Or.inl ⟨C, h1, h2, h3⟩
        · exact Or.inr ⟨h1, h2, h3⟩
    · simp only [Option.some.injEq] at heq
      subst heq
      refine ⟨d.global_log_filter, fun _ => rfl, ?_⟩
      rcases hk with ⟨C, h1, h2, h3⟩ | ⟨h1, h2, h3⟩
      · exact Or.inl ⟨C, h1, h2, h3⟩
      · exact Or.inr ⟨h1, h2, h3⟩
  · simp at h
theorem commandSequenceToResourceData_frame (commandSequence : Option JobCommandSequence)
    (d d1 : ResourceData) (e : Diagnostics)
    (h : commandSequenceToResourceData commandSequence d = some (d1, e)) :
    ∃ (cos : String) (coe : Bool) (G : List FlatLogFilter) (C : List FlatCommand),
      d1 = { d with
        command_ordering_strategy := cos, continue_on_error := coe,
        global_log_filter := G, command := C } ∧
      ((∀ sequence, commandSequence = some sequence →
          sequence.GlobalLogFilters = none ∨ sequence.GlobalLogFilters = some []) →
        G = d.global_log_filter) ∧
      (e = [] ↔ ∀ sequence, commandSequence = some sequence →
        ∀ command ∈ sequence.Commands, ∀ errorHandler,
          command.ErrorHandler = some errorHandler → errorHandler.ErrorHandler = none) ∧
      (e = [] ∨ e = diag.FromErr ("failed to set `command`: " ++ invalidAddressMessage)) := by
  cases commandSequence with
  | none =>
    simp only [commandSequenceToResourceData, Option.some.injEq, Prod.mk.injEq] at h
    obtain ⟨rfl, rfl⟩ := h
    exact ⟨_, _, _, _, rfl, fun _ => rfl, by simp, Or.inl rfl⟩
  | some sequence =>
    obtain ⟨G, hG, hcases⟩ := commandSequenceToResourceData_some sequence d d1 e h
    rcases hcases with ⟨C, h1, h2, h3⟩ | ⟨h1, h2, h3⟩
    · refine ⟨_, _, G, C, h1, fun hno => hG (hno sequence rfl), ?_, Or.inl h2⟩
      subst h2
      simp only [Option.some.injEq, forall_eq', true_iff]
      exact h3
    · refine ⟨_, _, G, d.command, h1, fun hno => hG (hno sequence rfl), ?_, Or.inr h2⟩
      subst h2
      simp only [Option.some.injEq, forall_eq']
      constructor
      · intro hnil
        simp [diag.FromErr] at hnil
      · intro hall
        exact absurd hall h3

theorem commandSequenceToResourceData_returned (commandSequence : Option JobCommandSequence)
    (d d1 : ResourceData) (e : Diagnostics)
    (h : commandSequenceToResourceData commandSequence d = some (d1, e)) :
    d1.notification = d.notification ∧ d1.schedule = d.schedule := by
  obtain ⟨cos, coe, G, C, h1, _⟩ := commandSequenceToResourceData_frame _ _ _ _ h
  subst h1
  exact ⟨rfl, rfl⟩

theorem commandSequenceToResourceData_total (commandSequence : Option JobCommandSequence)
    (d : ResourceData)
    (h : ∀ sequence filters, commandSequence = some sequence →
      sequence.GlobalLogFilters = some filters → ∀ f ∈ filters, f.Config ≠ none) :
    ∃ d1 e, commandSequenceToResourceData commandSequence d = some (d1, e) := by
  cases commandSequence with
  | none => exact ⟨d, [], rfl⟩
  | some sequence =>
    obtain ⟨cfgs, hc⟩ := commandsToResourceData_total sequence.Commands []
    simp only [commandSequenceToResourceData, hc]
    cases hst : storedEach CommandConfig.stored cfgs <;>
    cases hf : sequence.GlobalLogFilters with
    | none => exact ⟨_, _, rfl⟩
    | some filters =>
      obtain ⟨G, hG, _⟩ := globalLogFilters_roundTrip filters (h sequence filters rfl hf) []
      by_cases hlen : filters.length > 0
      · simp only [hlen, if_true, hG]
        exact ⟨_, _, rfl⟩
      · simp only [hlen, if_false]
        exact ⟨_, _, rfl⟩

theorem jobToResourceData_frame (job : JobDetail) (d d1 : ResourceData) (e : Diagnostics)
    (h : jobToResourceData job d = some (d1, e)) :
    ∃ (cos : String) (coe : Bool) (G : List FlatLogFilter) (C : List FlatCommand)
        (sched : String) (notif : List FlatNotification),
      d1 = { jobAttributesToResourceData job d with
        command_ordering_strategy := cos, continue_on_error := coe,
        global_log_filter := G, command := C, schedule := sched, notification := notif } ∧
      (job.hasNoGlobalLogFilters → G = (jobAttributesToResourceData job d).global_log_filter) ∧
      (job.Schedule = none → sched = (jobAttributesToResourceData job d).schedule) ∧
      (e = [] →
        sched = (job.Schedule.map (fun s => (scheduleToCronSpec s).2.1)).getD
          (jobAttributesToResourceData job d).schedule ∧
        notif = (jobNotificationToResourceData job.Notification).map
          NotificationConfig.stored) ∧
      (e = [] ↔ job.handlersHaveNoHandler) ∧
      (e = [] ∨ e = diag.FromErr ("failed to set `command`: " ++ invalidAddressMessage)) := by
  unfold jobToResourceData at h
  simp only at h
  rcases hc : commandSequenceToResourceData job.CommandSequence
      (jobAttributesToResourceData job d) with _ | ⟨d2, e2⟩
  · rw [hc] at h
    simp at h
  · obtain ⟨cos, coe, G, C, hd2, hG, he2, hmsg⟩ := commandSequenceToResourceData_frame _ _ _ _ hc
    rw [hc] at h
    cases e2 with
    | nil =>
      simp only [jobScheduleToResourceData_eq, Option.some.injEq, Prod.mk.injEq] at h
      obtain ⟨rfl, rfl⟩ := h
      subst hd2
      refine ⟨cos, coe, G, C, _, _, rfl, fun hno => hG (fun s hs => hno s hs), ?_,
        fun _ => ⟨rfl, rfl⟩, ?_, Or.inl rfl⟩
      · intro hnone
        simp [hnone]
      · simp only [true_iff] at he2 ⊢
        exact he2
    | cons a l =>
      simp only [Option.some.injEq, Prod.mk.injEq] at h
      obtain ⟨rfl, rfl⟩ := h
      subst hd2
      refine ⟨cos, coe, G, C, (jobAttributesToResourceData job d).schedule,
        (jobAttributesToResourceData job d).notification, rfl,
        fun hno => hG (fun s hs => hno s hs), fun _ => rfl, ?_, ?_, hmsg⟩
      · intro hnil
        simp at hnil
      · exact he2

theorem jobToResourceData_total (job : JobDetail) (d : ResourceData)
    (h : job.logFiltersHaveConfig) :
    ∃ d1 e, jobToResourceData job d = some (d1, e) ∧ (job.handlersHaveNoHandler → e = []) := by
  obtain ⟨d2, e2, hd2⟩ := commandSequenceToResourceData_total job.CommandSequence
    (jobAttributesToResourceData job d) (fun s f hs hf => h s f hs hf)
  have hex : ∃ d1 e, jobToResourceData job d = some (d1, e) := by
    unfold jobToResourceData
    simp only [hd2, jobScheduleToResourceData_eq]
    cases e2 with
    | nil => exact ⟨_, _, rfl⟩
    | cons a l => exact ⟨_, _, rfl⟩
  obtain ⟨d1, e, hr⟩ := hex
  obtain ⟨_, _, _, _, _, _, _, _, _, _, he, _⟩ := jobToResourceData_frame job d d1 e hr
  exact ⟨d1, e, hr, he.mpr⟩

theorem readNotification_stored (notification : Notification) (notificationType : String) :
    (readNotification notification notificationType).stored =
      expectedNotificationBlock notificationType notification := by
  obtain ⟨email, webHook, plugin, format, method⟩ := notification
  cases email <;> cases webHook <;> cases plugin <;>
    simp [readNotification, NotificationConfig.stored, EmailConfig.stored,
      expectedNotificationBlock]

theorem jobNotificationToResourceData_stored (notification : Option JobNotification) :
    (jobNotificationToResourceData notification).map NotificationConfig.stored =
      expectedNotificationBlocks notification := by
  cases notification with
  | none => rfl
  | some jn =>
    obtain ⟨os, ofl, ost⟩ := jn
    cases os <;> cases ofl <;> cases ost <;>
      simp [jobNotificationToResourceData, expectedNotificationBlocks, readNotification_stored]

/-- C14: for every job whose global log filters each have a configuration and whose error
handlers have no error handler of their own (the jobs on which the writes that come
before succeed), `jobToResourceData` returns with no diagnostics, and the attribute
`notification` of the resource data it leaves is the list of blocks of the
specification: one block per populated slot of the notification set, in the order
success, failure, start, each with the type literal of its slot and with the email, web
hook and plugin entries exactly for the payloads that are present; for an absent set, or
a set with no populated slot, it is the empty list. -/
theorem C14_notification_blocks_written (job : JobDetail) (d : ResourceData)
    (hcfg : job.logFiltersHaveConfig) (hdepth : job.handlersHaveNoHandler) :
    ∃ d1, jobToResourceData job d = some (d1, []) ∧
      d1.notification = expectedNotificationBlocks job.Notification ∧
      (job.Notification = none → d1.notification = []) ∧
      (job.Notification = some ⟨none, none, none⟩ → d1.notification = []) := by
  obtain ⟨d1, e, hr, he⟩ := jobToResourceData_total job d hcfg
  have he2 := he hdepth
  subst he2
  obtain ⟨cos, coe, G, C, sched, notif, hd1, _, _, hok, _, _⟩ :=
    jobToResourceData_frame job d d1 [] hr
  have hn : d1.notification = expectedNotificationBlocks job.Notification := by
    subst hd1
    simp only
    rw [(hok rfl).2, jobNotificationToResourceData_stored]
  refine ⟨d1, hr, hn, ?_, ?_⟩
  · intro h0
    rw [hn, h0]
    rfl
  · intro h0
    rw [hn, h0]
    rfl

theorem C14_notification_blocks_written_witness :
    ∃ d1, jobToResourceData notifyingJob ResourceData.empty = some (d1, []) ∧
      d1.notification =
        [⟨"on_success", [⟨true, [some "a@example.org"], "done"⟩], [], "", "",
            [⟨"pager", []⟩]⟩,
         ⟨"on_start", [], [some "http://hook.example.org"], "post", "json", []⟩] := by
  obtain ⟨d1, h, hn, _⟩ := C14_notification_blocks_written notifyingJob ResourceData.empty
    (by intro s f hs hf; simp [notifyingJob, JobDetail.blank] at hs; subst hs; simp at hf)
    (by intro s hs c hc; simp [notifyingJob, JobDetail.blank] at hs; subst hs; simp at hc)
  exact ⟨d1, h, hn.trans (by decide)⟩

/-- C15: for every command, `commandToResourceData` returns a map with no diagnostics;
the map copies the six scalars, and each of the keys `error_handler`,
`script_interpreter`, `job`, `step_plugin`, `node_step_plugin` (and `node_filters` inside
`job`) holds a single-entry list when the field of the command is present and is not
written when the field is absent. -/
theorem C15_command_written (command : JobCommand) :
    ∃ cfg, commandToResourceData command = (some cfg, []) ∧
      cfg.description = command.Description ∧
      cfg.shell_command = command.ShellCommand ∧
      cfg.inline_script = command.Script ∧
      cfg.script_file = command.ScriptFile ∧
      cfg.script_file_args = command.ScriptFileArgs ∧
      cfg.keep_going_on_success = command.KeepGoingOnSuccess ∧
      (command.ErrorHandler = none → cfg.error_handler = none) ∧
      (∀ errorHandler, command.ErrorHandler = some errorHandler →
        ∃ errorHandlerI, commandToResourceData errorHandler = (some errorHandlerI, []) ∧
          cfg.error_handler = some [errorHandlerI]) ∧
      cfg.script_interpreter =
        command.ScriptInterpreter.map
          (fun si => [{ invocation_string := si.InvocationString, args_quoted := si.ArgsQuoted }]) ∧
      cfg.job =
        command.Job.map
          (fun jobRef =>
            [{ name := jobRef.Name, group_name := jobRef.GroupName,
               run_for_each_node := jobRef.RunForEachNode, args := jobRef.Arguments,
               node_filters :=
                 jobRef.NodeFilter.map
                   (fun nodeFilter =>
                     [{ exclude_precedence := nodeFilter.ExcludePrecedence,
                        filter := nodeFilter.Query,
                        exclude_filter := nodeFilter.ExcludeQuery }]) }]) ∧
      cfg.step_plugin =
        command.StepPlugin.map (fun plugin => [{ type := plugin.Type_, config := plugin.Config }]) ∧
      cfg.node_step_plugin =
        command.NodeStepPlugin.map
          (fun plugin => [{ type := plugin.Type_, config := plugin.Config }]) :=
  commandToResourceData_shape command

theorem C15_command_written_witness :
    ∃ cfg, commandToResourceData sampleCommand = (some cfg, []) ∧
      cfg.description = "run deploy" ∧
      cfg.node_step_plugin = none ∧
      cfg.step_plugin = some [⟨"plug", [("k", "v")]⟩] ∧
      cfg.job = some [⟨"deploy", "ops", true, "-x", some [⟨false, "name: a", ""⟩]⟩] := by
  obtain ⟨cfg, h, h1, _, _, _, _, _, _, _, _, h10, h11, h12⟩ := C15_command_written sampleCommand
  exact ⟨cfg, h, h1, h12, h11, h10⟩

/-- C16 (the code at the failing input): a command with no job reference and no error
handler, whatever its scalars, script interpreter and plugins, is written by
`commandToResourceData` with no diagnostics, the map is stored, and reading the stored
map back with `commandFromResourceData` returns no command and the warning of the
job-reference reader. -/
theorem C16_no_job_reference_not_read_back
    (description shellCommand script scriptFile scriptFileArgs : String)
    (keepGoingOnSuccess : Bool) (scriptInterpreter : Option JobCommandScriptInterpreter)
    (stepPlugin nodeStepPlugin : Option JobPlugin) :
    ∃ cfg commandI, commandToResourceData
        (JobCommand.mk description shellCommand script scriptFile scriptFileArgs
          keepGoingOnSuccess none scriptInterpreter none stepPlugin nodeStepPlugin) =
        (some cfg, []) ∧
      cfg.stored = some commandI ∧
      commandFromResourceData commandI =
        (none,
          [{ Severity := DiagSeverity.Warning,
             Summary := "Command Job with key: \"job\" returned no results",
             Detail := "Returning nil" }]) := by
  refine ⟨_, _, commandToResourceData_eq description shellCommand script scriptFile
    scriptFileArgs keepGoingOnSuccess none scriptInterpreter none stepPlugin nodeStepPlugin
    none (Or.inl ⟨rfl, rfl⟩), rfl, ?_⟩
  cases scriptInterpreter <;>
    simp [commandFromResourceData, commandSubBlocksFromResourceData,
      jobCommandJobRefFromResourceData]

theorem commandFromResourceData_no_key (commandI : FlatCommand) (command : JobCommand)
    (hkey : commandI.isErrorHandlerRecord)
    (h : commandFromResourceData commandI = (some command, [])) :
    command.ErrorHandler = none := by
  obtain ⟨d, s, sc, sf, sfa, k, eh, si, job, sp, nsp⟩ := commandI
  simp only [FlatCommand.isErrorHandlerRecord, FlatCommand.error_handler] at hkey
  subst hkey
  simp only [commandFromResourceData] at h
  rcases commandSubBlocksFromResourceData_cases d s sc sf sfa k none si job sp nsp with
    ⟨c, hc, he⟩ | hc
  · rw [hc] at h
    simp only [Prod.mk.injEq, Option.some.injEq, and_true] at h
    subst h
    exact he
  · rw [h] at hc
    simp at hc

theorem commandFromResourceData_handler_depth (commandI : FlatCommand) (command : JobCommand)
    (hshape : commandI.isCommandRecord)
    (h : commandFromResourceData commandI = (some command, []))
    (errorHandler : JobCommand) (heh : command.ErrorHandler = some errorHandler) :
    errorHandler.ErrorHandler = none := by
  obtain ⟨d, s, sc, sf, sfa, k, eh, si, job, sp, nsp⟩ := commandI
  obtain ⟨l, hl, hall⟩ := hshape
  simp only [FlatCommand.error_handler] at hl
  subst hl
  match l, hall with
  | [], _ =>
    simp only [commandFromResourceData] at h
    rcases commandSubBlocksFromResourceData_cases d s sc sf sfa k none si job sp nsp with
      ⟨c, hc, he⟩ | hc
    · rw [hc] at h
      simp only [Prod.mk.injEq, Option.some.injEq, and_true] at h
      subst h
      rw [he] at heh
      simp at heh
    · rw [h] at hc
      simp at hc
  | [e], hall =>
    simp only [commandFromResourceData] at h
    rcases hr : commandFromResourceData e with ⟨r, err⟩
    rw [hr] at h
    cases err with
    | cons a t => simp at h
    | nil =>
      simp only at h
      rcases commandSubBlocksFromResourceData_cases d s sc sf sfa k r si job sp nsp with
        ⟨c, hc, he⟩ | hc
      · rw [hc] at h
        simp only [Prod.mk.injEq, Option.some.injEq, and_true] at h
        subst h
        rw [he] at heh
        subst heh
        exact commandFromResourceData_no_key e errorHandler (hall e (by simp)) hr
      · rw [h] at hc
        simp at hc
  | _ :: _ :: _, _ =>
    simp [commandFromResourceData, diag.FromErr] at h

/-- C17: for a flat command record of the command schema (its error-handler entries are
records of the error-handler schema, which has no key `error_handler`), and for a record
of the error-handler schema itself, a command returned by `commandFromResourceData` has
an error handler, if any, whose own error handler is unset. -/
theorem C17_error_handler_depth_on_write (commandI : FlatCommand) (command : JobCommand)
    (hshape : commandI.isCommandRecord ∨ commandI.isErrorHandlerRecord)
    (h : commandFromResourceData commandI = (some command, [])) :
    ∀ errorHandler, command.ErrorHandler = some errorHandler →
      errorHandler.ErrorHandler = none := by
  intro errorHandler heh
  rcases hshape with hs | hs
  · exact commandFromResourceData_handler_depth commandI command hs h errorHandler heh
  · rw [commandFromResourceData_no_key commandI command hs h] at heh
    simp at heh

theorem C17_error_handler_depth_on_write_witness :
    sampleCommand.ErrorHandler = some sampleErrorHandler ∧
      sampleErrorHandler.ErrorHandler = none :=
  ⟨rfl, C17_error_handler_depth_on_write
    (FlatCommand.mk "run deploy" "" "" "" "" true
      (some [FlatCommand.mk "notify" "" "" "" "" false none [] [⟨"alert", "ops", false, "", []⟩]
        [] []])
      [⟨"bash", true⟩] [⟨"deploy", "ops", true, "-x", [⟨false, "name: a", ""⟩]⟩]
      [⟨"plug", [("k", "v")]⟩] [])
    sampleCommand
    (Or.inl ⟨_, rfl, by
      intro e he
      simp only [List.mem_singleton] at he
      subst he
      rfl⟩)
    rfl sampleErrorHandler rfl⟩

/-- C18 (counterexample): for a command whose error handler has an error handler of its
own, the map written by `commandToResourceData` holds under `error_handler` one record
that carries a key `error_handler` itself. -/
theorem C18_counterexample :
    ((commandToResourceData nestedHandlerCommand).1.bind
        (fun cfg => cfg.error_handler)).map
      (fun l => l.map (fun errorHandlerI => errorHandlerI.error_handler.isSome)) =
      some [true] := by
  rfl

/-- C18 (amended): for every command with an error handler, the map written by
`commandToResourceData` holds under `error_handler` the single record written for the
handler, and that record has no key `error_handler` exactly when the handler has no error
handler of its own. -/
theorem C18_error_handler_depth_on_read (command errorHandler : JobCommand)
    (h : command.ErrorHandler = some errorHandler) :
    ∃ cfg errorHandlerI, commandToResourceData command = (some cfg, []) ∧
      commandToResourceData errorHandler = (some errorHandlerI, []) ∧
      cfg.error_handler = some [errorHandlerI] ∧
      (errorHandlerI.error_handler = none ↔ errorHandler.ErrorHandler = none) := by
  obtain ⟨cfg, hc, _, _, _, _, _, _, _, hsome, _⟩ := commandToResourceData_shape command
  obtain ⟨errorHandlerI, hh, heq⟩ := hsome errorHandler h
  obtain ⟨cfg2, hc2, _, _, _, _, _, _, hnone2, hsome2, _⟩ :=
    commandToResourceData_shape errorHandler
  rw [hh] at hc2
  simp only [Prod.mk.injEq, Option.some.injEq, and_true] at hc2
  subst hc2
  refine ⟨cfg, errorHandlerI, hc, hh, heq, ⟨fun hk => ?_, hnone2⟩⟩
  cases he : errorHandler.ErrorHandler with
  | none => rfl
  | some inner =>
    obtain ⟨innerI, _, hk2⟩ := hsome2 inner he
    rw [hk] at hk2
    simp at hk2

theorem C18_error_handler_depth_on_read_witness :
    ∃ cfg errorHandlerI, commandToResourceData sampleCommand = (some cfg, []) ∧
      commandToResourceData sampleErrorHandler = (some errorHandlerI, []) ∧
      cfg.error_handler = some [errorHandlerI] ∧
      (errorHandlerI.error_handler = none ↔ sampleErrorHandler.ErrorHandler = none) :=
  C18_error_handler_depth_on_read sampleCommand sampleErrorHandler rfl

theorem jobAttributesToResourceData_fields (job : JobDetail) (d : ResourceData) :
    (jobAttributesToResourceData job d).schedule = d.schedule ∧
    (jobAttributesToResourceData job d).global_log_filter = d.global_log_filter ∧
    (jobAttributesToResourceData job d).timeout = d.timeout ∧
    (jobAttributesToResourceData job d).success_on_empty_node_filter =
      d.success_on_empty_node_filter ∧
    (jobAttributesToResourceData job d).project_name =
      (if job.ProjectName ≠ "" then job.ProjectName else d.project_name) ∧
    (job.Dispatch = none →
      (jobAttributesToResourceData job d).max_thread_count = 1 ∧
      (jobAttributesToResourceData job d).continue_next_node_on_error = false ∧
      (jobAttributesToResourceData job d).rank_attribute = "" ∧
      (jobAttributesToResourceData job d).rank_order = "ascending") ∧
    (∀ dispatch, job.Dispatch = some dispatch →
      (jobAttributesToResourceData job d).max_thread_count = dispatch.MaxThreadCount ∧
      (jobAttributesToResourceData job d).continue_next_node_on_error =
        dispatch.ContinueNextNodeOnError ∧
      (jobAttributesToResourceData job d).rank_attribute = dispatch.RankAttribute ∧
      (jobAttributesToResourceData job d).rank_order = dispatch.RankOrder) := by
  unfold jobAttributesToResourceData
  by_cases hp : job.ProjectName = "" <;> cases hd : job.Dispatch <;>
    cases hn : job.NodeFilter <;> cases ho : job.OptionsConfig <;> simp [hp]

theorem jobToResourceData_dispatch (job : JobDetail) (d d1 : ResourceData) (e : Diagnostics)
    (h : jobToResourceData job d = some (d1, e)) :
    (job.Dispatch = none →
      d1.max_thread_count = 1 ∧ d1.continue_next_node_on_error = false ∧
      d1.rank_attribute = "" ∧ d1.rank_order = "ascending") ∧
    (∀ dispatch, job.Dispatch = some dispatch →
      d1.max_thread_count = dispatch.MaxThreadCount ∧
      d1.continue_next_node_on_error = dispatch.ContinueNextNodeOnError ∧
      d1.rank_attribute = dispatch.RankAttribute ∧
      d1.rank_order = dispatch.RankOrder) := by
  obtain ⟨cos, coe, G, C, sched, notif, hd1, _⟩ := jobToResourceData_frame job d d1 e h
  obtain ⟨_, _, _, _, _, hnone, hsome⟩ := jobAttributesToResourceData_fields job d
  subst hd1
  exact ⟨hnone, hsome⟩

/-- C21 (the code at the failing input): for the retrieved job without dispatch settings
whose command `outer` has an error handler with an error handler of its own,
`jobToResourceData` sets the four dispatch attributes to 1, false, unset (the empty
string) and `ascending`, and then fails: it returns the error of the refused write of
`command`. For the job without dispatch settings whose global log filter has no
configuration it does not return at all. -/
theorem C21_dispatch_absent_job_fails :
    retrievedNestedJob.Dispatch = none ∧
    (∃ d1, jobToResourceData retrievedNestedJob priorData =
        some (d1, diag.FromErr ("failed to set `command`: " ++ invalidAddressMessage)) ∧
      d1.max_thread_count = 1 ∧ d1.continue_next_node_on_error = false ∧
      d1.rank_attribute = "" ∧ d1.rank_order = "ascending") ∧
    ({ jobWithBareLogFilter with Dispatch := none } : JobDetail).Dispatch = none ∧
    jobToResourceData { jobWithBareLogFilter with Dispatch := none } priorData = none :=
  ⟨rfl, ⟨_, rfl, rfl, rfl, rfl, rfl⟩, rfl, rfl⟩

/-- C22: whenever `jobToResourceData` returns, with diagnostics or without, the attribute
`project_name` is the project name of the job when that name is not empty, and is the
prior value of the attribute when the name is empty; and it returns for every job whose
global log filters each have a configuration, with no diagnostics when no error handler
of the job has an error handler of its own. -/
theorem C22_project_name (job : JobDetail) (d : ResourceData) :
    (∀ d1 e, jobToResourceData job d = some (d1, e) →
      (job.ProjectName ≠ "" → d1.project_name = job.ProjectName) ∧
      (job.ProjectName = "" → d1.project_name = d.project_name)) ∧
    (job.logFiltersHaveConfig →
      ∃ d1 e, jobToResourceData job d = some (d1, e) ∧
        (job.handlersHaveNoHandler → e = [])) := by
  refine ⟨fun d1 e h => ?_, fun hcfg => jobToResourceData_total job d hcfg⟩
  obtain ⟨cos, coe, G, C, sched, notif, hd1, _⟩ := jobToResourceData_frame job d d1 e h
  obtain ⟨_, _, _, _, hp, _, _⟩ := jobAttributesToResourceData_fields job d
  subst hd1
  simp only [hp]
  constructor
  · intro hne; simp [hne]
  · intro heq; simp [heq]

theorem C22_project_name_witness :
    (∃ d1, jobToResourceData retrievedJob priorData = some (d1, []) ∧
      d1.project_name = "ops") ∧
    (∃ d2, jobToResourceData { retrievedJob with ProjectName := "web" } priorData =
      some (d2, []) ∧ d2.project_name = "web") ∧
    (∃ d3 e3, jobToResourceData { retrievedNestedJob with ProjectName := "web" } priorData =
      some (d3, e3) ∧ e3 ≠ [] ∧ d3.project_name = "web") := by
  obtain ⟨d1, e1, h1, he1⟩ := (C22_project_name retrievedJob priorData).2
    (by intro s f hs hf; simp [retrievedJob, JobDetail.blank] at hs; subst hs; simp at hf)
  have hnil1 := he1
    (by intro s hs c hc; simp [retrievedJob, JobDetail.blank] at hs; subst hs; simp at hc)
  subst hnil1
  obtain ⟨d2, e2, h2, he2⟩ :=
    (C22_project_name { retrievedJob with ProjectName := "web" } priorData).2
    (by intro s f hs hf; simp [retrievedJob, JobDetail.blank] at hs; subst hs; simp at hf)
  have hnil2 := he2
    (by intro s hs c hc; simp [retrievedJob, JobDetail.blank] at hs; subst hs; simp at hc)
  subst hnil2
  refine ⟨⟨d1, h1, ((C22_project_name retrievedJob priorData).1 d1 [] h1).2 rfl⟩,
    ⟨d2, h2, ((C22_project_name { retrievedJob with ProjectName := "web" } priorData).1
      d2 [] h2).1 (by decide)⟩,
    ⟨_, _, rfl, by simp [diag.FromErr],
      ((C22_project_name { retrievedNestedJob with ProjectName := "web" } priorData).1
        _ _ rfl).1 (by decide)⟩⟩

/-- C29: whenever `jobToResourceData` returns, with diagnostics or without, the attribute
`schedule` has its prior value when the job has no schedule, and the attribute
`global_log_filter` has its prior value when the job has no global log filters; and it
returns for every job without global log filters, with no diagnostics when no error
handler of the job has an error handler of its own. -/
theorem C29_schedule_and_log_filters_kept (job : JobDetail) (d : ResourceData) :
    (∀ d1 e, jobToResourceData job d = some (d1, e) →
      (job.Schedule = none → d1.schedule = d.schedule) ∧
      (job.hasNoGlobalLogFilters → d1.global_log_filter = d.global_log_filter)) ∧
    (job.hasNoGlobalLogFilters →
      ∃ d1 e, jobToResourceData job d = some (d1, e) ∧
        (job.handlersHaveNoHandler → e = [])) := by
  refine ⟨fun d1 e h => ?_, fun hno => jobToResourceData_total job d ?_⟩
  · obtain ⟨cos, coe, G, C, sched, notif, hd1, hG, hsched, _⟩ :=
      jobToResourceData_frame job d d1 e h
    obtain ⟨hs, hg, _⟩ := jobAttributesToResourceData_fields job d
    subst hd1
    constructor
    · intro hnone
      simp only
      rw [hsched hnone, hs]
    · intro hno
      simp only
      rw [hG hno, hg]
  · intro s f hs hf g hg
    rcases hno s hs with h0 | h0
    · rw [hf] at h0; simp at h0
    · rw [hf] at h0
      simp only [Option.some.injEq] at h0
      subst h0
      simp at hg

theorem C29_schedule_and_log_filters_kept_witness :
    (∃ d1, jobToResourceData retrievedJob priorData = some (d1, []) ∧
      d1.schedule = "0 0 12 ? 1 MON *" ∧
      d1.global_log_filter = [⟨"mask-passwords", [("color", "red")]⟩]) ∧
    (∃ d3 e3, jobToResourceData retrievedNestedJob priorData = some (d3, e3) ∧ e3 ≠ [] ∧
      d3.schedule = "0 0 12 ? 1 MON *" ∧
      d3.global_log_filter = [⟨"mask-passwords", [("color", "red")]⟩]) := by
  have hno : retrievedJob.hasNoGlobalLogFilters := by
    intro s hs
    simp [retrievedJob, JobDetail.blank] at hs
    subst hs
    exact Or.inl rfl
  have hno3 : retrievedNestedJob.hasNoGlobalLogFilters := by
    intro s hs
    simp [retrievedNestedJob, JobDetail.blank] at hs
    subst hs
    exact Or.inl rfl
  obtain ⟨d1, e1, h1, he1⟩ := (C29_schedule_and_log_filters_kept retrievedJob priorData).2 hno
  have hnil1 := he1
    (by intro s hs c hc; simp [retrievedJob, JobDetail.blank] at hs; subst hs; simp at hc)
  subst hnil1
  exact ⟨⟨d1, h1,
    ((C29_schedule_and_log_filters_kept retrievedJob priorData).1 d1 [] h1).1 rfl,
    ((C29_schedule_and_log_filters_kept retrievedJob priorData).1 d1 [] h1).2 hno⟩,
    ⟨_, _, rfl, by simp [diag.FromErr],
      ((C29_schedule_and_log_filters_kept retrievedNestedJob priorData).1 _ _ rfl).1 rfl,
      ((C29_schedule_and_log_filters_kept retrievedNestedJob priorData).1 _ _ rfl).2 hno3⟩⟩

/-- C23: for resource data whose attribute `schedule` is the empty string and whose
commands, options and notifications are valid (the commands are read with no
diagnostics, the options satisfy their rules, and the notification blocks, if any, are
read as a notification set), `jobFromResourceData` returns a job with no diagnostics and
the job has no schedule; and whenever a job returned has a schedule, the attribute is not
empty, the schedule reader accepts it and the schedule is the one it decodes. -/
theorem C23_schedule_optional (d : ResourceData) :
    (d.schedule = "" → (∀ c ∈ d.command, (commandFromResourceData c).2 = []) →
      (∀ o ∈ d.option, optionInvariants o) →
      (d.notification = [] ∨
        ∃ jn, jobNotificationFromResourceData d.notification = (some jn, [])) →
      ∃ job, jobFromResourceData d = (some job, []) ∧ job.Schedule = none) ∧
    (∀ job schedule, (jobFromResourceData d).1 = some job → job.Schedule = some schedule →
      d.schedule ≠ "" ∧ (JobScheduleFromResourceData d JobDetail.blank).2 = [] ∧
      (JobScheduleFromResourceData d JobDetail.blank).1.Schedule = some schedule) := by
  constructor
  · intro hempty hcmd hopt hnot
    have hsched : (JobScheduleFromResourceData d JobDetail.blank).2 = [] := by
      rw [JobScheduleFromResourceData_empty d _ hempty]
    obtain ⟨job, hjob⟩ := jobFromResourceData_of_parts d hcmd hopt hsched hnot
    refine ⟨job, hjob, ?_⟩
    obtain ⟨c, o, s, n, _, _, hs, _, _, hj⟩ := jobFromResourceData_some d job (by rw [hjob])
    have h1 := hs JobDetail.blank rfl
    rw [JobScheduleFromResourceData_empty d _ hempty] at h1
    have h2 := congrArg (fun p => p.1.Schedule) h1
    simp only [JobDetail.blank] at h2
    subst hj
    exact h2.symm
  · intro job schedule hjob hsome
    obtain ⟨c, o, s, n, _, _, hs, _, _, hj⟩ := jobFromResourceData_some d job hjob
    have h1 := hs JobDetail.blank rfl
    subst hj
    simp only [JobDetail.ofParts] at hsome
    subst hsome
    refine ⟨fun hempty => ?_, by rw [h1], by rw [h1]⟩
    rw [JobScheduleFromResourceData_empty d _ hempty] at h1
    have h2 := congrArg (fun p => p.1.Schedule) h1
    simp [JobDetail.blank] at h2

theorem C23_schedule_optional_witness :
    ∃ job, jobFromResourceData dispatchData = (some job, []) ∧ job.Schedule = none :=
  (C23_schedule_optional dispatchData).1 rfl (by decide) (by decide) (Or.inl rfl)

/-- C24 (the code at the failing input): for a job whose command sequence holds a global
log filter without a configuration, `jobToResourceData` does not return. -/
theorem C24_log_filter_without_config :
    jobToResourceData jobWithBareLogFilter ResourceData.empty = none := by
  rfl

/-- C25 (counterexample): for a schedule with an empty day-of-month and the day-of-week
`MON`, the schedule after the call of `scheduleToCronSpec` has the day-of-month `?`. -/
theorem C25_counterexample :
    (scheduleToCronSpec ⟨⟨"0", "0", "12"⟩, ⟨"", "1"⟩, ⟨"MON"⟩, ⟨"*"⟩⟩).1 =
        ⟨⟨"0", "0", "12"⟩, ⟨"?", "1"⟩, ⟨"MON"⟩, ⟨"*"⟩⟩ ∧
      (scheduleToCronSpec ⟨⟨"0", "0", "12"⟩, ⟨"", "1"⟩, ⟨"MON"⟩, ⟨"*"⟩⟩).1 ≠
        ⟨⟨"0", "0", "12"⟩, ⟨"", "1"⟩, ⟨"MON"⟩, ⟨"*"⟩⟩ := by
  decide

/-- C25 (amended): the schedule after the call of `scheduleToCronSpec` has the time,
month and year of the schedule passed, keeps each day field that was not empty, and its
seven fields are the ones joined in the text returned; when neither day field is empty
it is the schedule passed. -/
theorem C25_schedule_after_call (s : JobSchedule) :
    (scheduleToCronSpec s).1.Time = s.Time ∧
    (scheduleToCronSpec s).1.Year = s.Year ∧
    (scheduleToCronSpec s).1.Month.Month = s.Month.Month ∧
    (s.Month.Day ≠ "" → (scheduleToCronSpec s).1.Month.Day = s.Month.Day) ∧
    (s.WeekDay.Day ≠ "" → (scheduleToCronSpec s).1.WeekDay.Day = s.WeekDay.Day) ∧
    (scheduleToCronSpec s).2.1 = strings.Join (scheduleToCronSpec s).1.fields ' ' ∧
    (s.Month.Day ≠ "" → s.WeekDay.Day ≠ "" → (scheduleToCronSpec s).1 = s) := by
  refine ⟨?_, ?_, ?_, ?_, ?_, ?_, ?_⟩
  all_goals
    unfold scheduleToCronSpec
    by_cases hdom : s.Month.Day = "" <;> by_cases hdow : s.WeekDay.Day = "" <;>
      by_cases hdoms : s.Month.Day = "*" <;> by_cases hdows : s.WeekDay.Day = "*" <;>
      simp_all [JobSchedule.fields]

theorem C25_schedule_after_call_witness :
    (scheduleToCronSpec ⟨⟨"0", "0", "12"⟩, ⟨"15", "1"⟩, ⟨"?"⟩, ⟨"*"⟩⟩).1 =
      ⟨⟨"0", "0", "12"⟩, ⟨"15", "1"⟩, ⟨"?"⟩, ⟨"*"⟩⟩ :=
  (C25_schedule_after_call ⟨⟨"0", "0", "12"⟩, ⟨"15", "1"⟩, ⟨"?"⟩, ⟨"*"⟩⟩).2.2.2.2.2.2
    (by decide) (by decide)

theorem jobFromResourceData_commands_error (d : ResourceData)
    (h : (commandsFromResourceData d.command []).2 ≠ []) :
    jobFromResourceData d = (none, (commandsFromResourceData d.command []).2) := by
  unfold jobFromResourceData
  simp only
  rcases hc : commandsFromResourceData d.command [] with ⟨r, e⟩
  rw [hc] at h
  cases e with
  | nil => exact absurd rfl h
  | cons a l => simp

theorem commandsFromResourceData_of_diags (l : List FlatCommand) (commands : List JobCommand)
    (h : (commandsFromResourceData l commands).2 = []) :
    ∃ result, commandsFromResourceData l commands = (some result, []) := by
  rcases commandsFromResourceData_cases l commands with hc | hc
  · exact hc
  · exact absurd h hc.2

theorem optionInvariants_of_diags (l : List FlatOption)
    (h : (optionsFromResourceData l []).2 = []) : ∀ o ∈ l, optionInvariants o := by
  by_contra hbad
  exact (optionsFromResourceData_fail l [] hbad).2 h

theorem jobFromResourceData_options_error2 (d : ResourceData)
    (hc : (commandsFromResourceData d.command []).2 = [])
    (ho : (optionsFromResourceData d.option []).2 ≠ []) :
    jobFromResourceData d = (none, (optionsFromResourceData d.option []).2) := by
  obtain ⟨commands, hc⟩ := commandsFromResourceData_of_diags _ _ hc
  have hlen : d.option.length > 0 := by
    cases hd : d.option with
    | nil => rw [hd] at ho; simp [optionsFromResourceData] at ho
    | cons a l => simp
  unfold jobFromResourceData
  simp only [hc, hlen, if_true]
  rcases hr : optionsFromResourceData d.option [] with ⟨r, e⟩
  rw [hr] at ho
  cases e with
  | nil => exact absurd rfl ho
  | cons a l => simp

/-- C26 (counterexample): for resource data with both a schedule whose day fields break
the exclusivity rule and an option with a storage path and no obscured input, the error
returned by `jobFromResourceData` is the error of the option, not that of the schedule. -/
theorem C26_counterexample :
    (JobScheduleFromResourceData badScheduleAndOptionData JobDetail.blank).2 =
        diag.FromErr (invalidScheduleMessage "schedule" "0 0 12 15 1 MON *") ∧
      jobFromResourceData badScheduleAndOptionData =
        (none, diag.FromErr
          "argument \"obscure_input\" must be set to `true` when \"storage_path\" is not empty") ∧
      (jobFromResourceData badScheduleAndOptionData).2 ≠
        (JobScheduleFromResourceData badScheduleAndOptionData JobDetail.blank).2 := by
  refine ⟨rfl, rfl, by decide⟩

/-- C26 (amended): `jobFromResourceData` returns the diagnostics of the earliest failing
part in the sequence commands, options, schedule, notifications: those of the commands
when they fail; those of the options when the commands are valid; those of the schedule
when commands and options are valid; those of the notifications when the three others
are valid. -/
theorem C26_error_order (d : ResourceData) :
    ((commandsFromResourceData d.command []).2 ≠ [] →
      jobFromResourceData d = (none, (commandsFromResourceData d.command []).2)) ∧
    ((commandsFromResourceData d.command []).2 = [] →
      (optionsFromResourceData d.option []).2 ≠ [] →
      jobFromResourceData d = (none, (optionsFromResourceData d.option []).2)) ∧
    ((commandsFromResourceData d.command []).2 = [] →
      (optionsFromResourceData d.option []).2 = [] →
      (JobScheduleFromResourceData d JobDetail.blank).2 ≠ [] →
      jobFromResourceData d = (none, (JobScheduleFromResourceData d JobDetail.blank).2)) ∧
    ((commandsFromResourceData d.command []).2 = [] →
      (optionsFromResourceData d.option []).2 = [] →
      (JobScheduleFromResourceData d JobDetail.blank).2 = [] →
      d.notification ≠ [] → (jobNotificationFromResourceData d.notification).2 ≠ [] →
      jobFromResourceData d = (none, (jobNotificationFromResourceData d.notification).2)) := by
  refine ⟨jobFromResourceData_commands_error d, jobFromResourceData_options_error2 d, ?_, ?_⟩
  · intro hc ho hs
    obtain ⟨commands, hc⟩ := commandsFromResourceData_of_diags _ _ hc
    obtain ⟨schedule, e, hsh⟩ := JobScheduleFromResourceData_shape d
    have he : (JobScheduleFromResourceData d JobDetail.blank).2 = e := by
      rw [hsh JobDetail.blank rfl]
    rw [he] at hs ⊢
    exact jobFromResourceData_schedule_fail d commands schedule e hc
      (optionInvariants_of_diags _ ho) hsh hs
  · intro hc ho hs hne hn
    obtain ⟨commands, hc⟩ := commandsFromResourceData_of_diags _ _ hc
    obtain ⟨schedule, e, hsh⟩ := JobScheduleFromResourceData_shape d
    have he : (JobScheduleFromResourceData d JobDetail.blank).2 = e := by
      rw [hsh JobDetail.blank rfl]
    rw [he] at hs
    subst hs
    rcases jobNotificationFromResourceData_cases d.notification with ⟨jn, hjn⟩ | hf | hf
    · rw [hjn] at hn
      exact absurd rfl hn
    · exact (jobFromResourceData_notification_fail d commands schedule hc
        (optionInvariants_of_diags _ ho) hsh hne hf).1
    · rw [hf] at hn
      exact absurd rfl hn

theorem C26_error_order_witness :
    jobFromResourceData badScheduleAndOptionData =
      (none, (optionsFromResourceData badScheduleAndOptionData.option []).2) :=
  (C26_error_order badScheduleAndOptionData).2.1 (by decide) (by decide)

/-- C27 (the code at the failing input): a job with the timeout `30s` and the dispatch
flag for success on an empty node filter set, written into empty resource data and read
back, comes back with an empty timeout and the flag unset; the name, the rank order and
the other dispatch fields come back as they were. -/
theorem C27_timeout_and_flag_lost :
    (roundTrip jobWithTimeout ResourceData.empty).2 = [] ∧
    (roundTrip jobWithTimeout ResourceData.empty).1.map (fun job => job.Timeout) = some "" ∧
    (roundTrip jobWithTimeout ResourceData.empty).1.map (fun job => job.Dispatch) =
      some (some ⟨2, true, "rank", "descending", false⟩) ∧
    (roundTrip jobWithTimeout ResourceData.empty).1.map (fun job => job.Name) =
      some "nightly" ∧
    jobWithTimeout.Timeout = "30s" ∧
    jobWithTimeout.Dispatch = some ⟨2, true, "rank", "descending", true⟩ := by
  decide

theorem scheduleToCronSpec_after (s : JobSchedule) :
    (scheduleToCronSpec s).2.1 = strings.Join (scheduleToCronSpec s).1.fields ' ' ∧
    (scheduleToCronSpec s).1.Time = s.Time ∧
    (scheduleToCronSpec s).1.Year = s.Year ∧
    (scheduleToCronSpec s).1.Month.Month = s.Month.Month ∧
    (scheduleToCronSpec s).1.Month.Day =
      (if s.Month.Day ≠ "" then s.Month.Day
        else if s.WeekDay.Day = "*" ∨ s.WeekDay.Day = "" then "*" else "?") ∧
    (scheduleToCronSpec s).1.WeekDay.Day =
      (if s.WeekDay.Day ≠ "" then s.WeekDay.Day
        else if s.Month.Day = "*" ∨ s.Month.Day = "" then "*" else "?") := by
  refine ⟨?_, ?_, ?_, ?_, ?_, ?_⟩
  all_goals
    unfold scheduleToCronSpec
    by_cases hdom : s.Month.Day = "" <;> by_cases hdow : s.WeekDay.Day = "" <;>
      by_cases hdoms : s.Month.Day = "*" <;> by_cases hdows : s.WeekDay.Day = "*" <;>
      simp_all [JobSchedule.fields]

/-- C28 (counterexample): the schedule with an empty day-of-month and the day-of-week
`?`, its other fields non-empty and without a space, is encoded as `0 0 12 ? 1 ? *`,
which the decoder rejects. -/
theorem C28_counterexample :
    (scheduleToCronSpec ⟨⟨"0", "0", "12"⟩, ⟨"", "1"⟩, ⟨"?"⟩, ⟨"*"⟩⟩).2.1 = "0 0 12 ? 1 ? *" ∧
    (JobScheduleFromResourceData
        { ResourceData.empty with
          schedule := (scheduleToCronSpec ⟨⟨"0", "0", "12"⟩, ⟨"", "1"⟩, ⟨"?"⟩, ⟨"*"⟩⟩).2.1 }
        JobDetail.blank).2 =
      diag.FromErr (invalidScheduleMessage "schedule" "0 0 12 ? 1 ? *") := by
  decide

/-- C28 (amended): for every schedule in which the day-of-month or the day-of-week is
empty, no field holds a space and neither day field is `?`, the text returned by
`scheduleToCronSpec` is accepted by `JobScheduleFromResourceData`. -/
theorem C28_defaulted_text_accepted (s : JobSchedule) (d : ResourceData) (job : JobDetail)
    (hempty : s.Month.Day = "" ∨ s.WeekDay.Day = "")
    (hsp : ∀ f ∈ s.fields, ' ' ∉ f.data)
    (hq : s.Month.Day ≠ "?" ∧ s.WeekDay.Day ≠ "?") :
    (JobScheduleFromResourceData { d with schedule := (scheduleToCronSpec s).2.1 } job).2 =
      [] := by
  obtain ⟨htext, ht, hy, hm, hdom, hdow⟩ := scheduleToCronSpec_after s
  have hsp2 : ∀ f ∈ (scheduleToCronSpec s).1.fields, ' ' ∉ f.data := by
    intro f hf
    simp only [JobSchedule.fields, List.mem_cons, List.mem_singleton, List.not_mem_nil,
      or_false] at hf
    simp only [JobSchedule.fields, List.mem_cons, List.mem_singleton, List.not_mem_nil,
      or_false, forall_eq_or_imp, forall_eq] at hsp
    obtain ⟨h0, h1, h2, h3, h4, h5, h6⟩ := hsp
    rcases hf with rfl | rfl | rfl | rfl | rfl | rfl | rfl
    · rw [ht]; exact h0
    · rw [ht]; exact h1
    · rw [ht]; exact h2
    · rw [hdom]
      by_cases a : s.Month.Day = ""
      · by_cases b : s.WeekDay.Day = "*" ∨ s.WeekDay.Day = ""
        · simp only [a, ne_eq, not_true_eq_false, if_false, b, if_true]; decide
        · simp only [a, ne_eq, not_true_eq_false, if_false, b]; decide
      · simp only [ne_eq, a, not_false_eq_true, if_true]; exact h3
    · rw [hm]; exact h4
    · rw [hdow]
      by_cases a : s.WeekDay.Day = ""
      · by_cases b : s.Month.Day = "*" ∨ s.Month.Day = ""
        · simp only [a, ne_eq, not_true_eq_false, if_false, b, if_true]; decide
        · simp only [a, ne_eq, not_true_eq_false, if_false, b]; decide
      · simp only [ne_eq, a, not_false_eq_true, if_true]; exact h5
    · rw [hy]; exact h6
  rw [htext, JobScheduleFromResourceData_encoded _ d job hsp2]
  have hx : dayFieldsExclusive (scheduleToCronSpec s).1.Month.Day
      (scheduleToCronSpec s).1.WeekDay.Day := by
    rw [hdom, hdow]
    unfold dayFieldsExclusive
    obtain ⟨hq1, hq2⟩ := hq
    by_cases a : s.Month.Day = "" <;> by_cases b : s.WeekDay.Day = "" <;>
      by_cases c : s.Month.Day = "*" <;> by_cases e : s.WeekDay.Day = "*" <;>
      simp_all
  simp [hx]

theorem C28_defaulted_text_accepted_witness :
    (JobScheduleFromResourceData
        { ResourceData.empty with
          schedule := (scheduleToCronSpec ⟨⟨"0", "0", "12"⟩, ⟨"", "1"⟩, ⟨"MON"⟩, ⟨"*"⟩⟩).2.1 }
        JobDetail.blank).2 = [] :=
  C28_defaulted_text_accepted ⟨⟨"0", "0", "12"⟩, ⟨"", "1"⟩, ⟨"MON"⟩, ⟨"*"⟩⟩ ResourceData.empty
    JobDetail.blank (Or.inl rfl) (by decide) (by decide)

theorem notificationFromResourceData_no_urls (notificationMap : FlatNotification)
    (notification : Notification) (hurls : notificationMap.webhook_urls = [])
    (hres : notificationFromResourceData notificationMap = (some notification, [])) :
    notification.WebHook = none ∧ notification.Format = "" ∧ notification.HttpMethod = "" := by
  obtain ⟨t, email, urls, method, format, plugin⟩ := notificationMap
  simp only at hurls
  subst hurls
  unfold notificationFromResourceData at hres
  simp only [List.length_nil, gt_iff_lt, lt_self_iff_false, if_false] at hres
  cases email with
  | nil =>
    cases plugin with
    | nil =>
      simp only [Prod.mk.injEq, Option.some.injEq, and_true] at hres
      subst hres
      exact ⟨rfl, rfl, rfl⟩
    | cons p rest =>
      cases rest with
      | nil =>
        simp only [Prod.mk.injEq, Option.some.injEq, and_true] at hres
        subst hres
        exact ⟨rfl, rfl, rfl⟩
      | cons q rest2 => simp [diag.FromErr] at hres
  | cons e rest =>
    cases hrec : copyStrings e.recipients [] with
    | none => simp [hrec] at hres
    | some recipients =>
      simp only [hrec] at hres
      cases plugin with
      | nil =>
        simp only [Prod.mk.injEq, Option.some.injEq, and_true] at hres
        subst hres
        exact ⟨rfl, rfl, rfl⟩
      | cons p rest =>
        cases rest with
        | nil =>
          simp only [Prod.mk.injEq, Option.some.injEq, and_true] at hres
          subst hres
          exact ⟨rfl, rfl, rfl⟩
        | cons q rest2 => simp [diag.FromErr] at hres

theorem jobWithNotification_roundTripsFrom (jobNotification : JobNotification)
    (hrt : jobNotification.roundTrips) :
    (jobWithNotification jobNotification).roundTripsFrom ResourceData.empty := by
  refine ⟨⟨_, rfl, rfl⟩, by simp [jobWithNotification], ⟨_, rfl, by simp, Or.inl ⟨rfl, rfl⟩⟩,
    by simp [jobWithNotification, JobDetail.blank], Or.inl ⟨rfl, rfl⟩, ?_, rfl, fun _ => rfl⟩
  intro jn hjn
  simp only [jobWithNotification, Option.some.injEq] at hjn
  subst hjn
  exact hrt

/-- C30: for a notification set with a populated slot, a URL in every web hook and an
empty format and method where there is no web hook: when `jobToResourceData` has written
a job that holds the set, with no diagnostics, and the commands, options and schedule it
has written are accepted by their readers, `jobFromResourceData` returns a job with no
diagnostics and the job holds that set; in particular the job that holds the set, dispatch
settings, a node filter and an empty command sequence is written and read back as
itself; and a block without web hook URLs is read as a notification with no web hook and
an empty format and method, whatever its `webhook_format` and `webhook_http_method`. -/
theorem C30_notification_round_trip (job : JobDetail) (d d1 : ResourceData)
    (jobNotification : JobNotification) (hn : job.Notification = some jobNotification)
    (hrt : jobNotification.roundTrips) (h : jobToResourceData job d = some (d1, []))
    (hcmd : ∀ c ∈ d1.command, (commandFromResourceData c).2 = [])
    (hopt : ∀ o ∈ d1.option, optionInvariants o)
    (hsched : (JobScheduleFromResourceData d1 JobDetail.blank).2 = []) :
    (∃ job2, jobFromResourceData d1 = (some job2, []) ∧
      job2.Notification = some jobNotification) ∧
    roundTrip (jobWithNotification jobNotification) ResourceData.empty =
      (some (jobWithNotification jobNotification), []) ∧
    (∀ (notificationMap : FlatNotification) (notification : Notification),
      notificationMap.webhook_urls = [] →
      notificationFromResourceData notificationMap = (some notification, []) →
      notification.WebHook = none ∧ notification.Format = "" ∧
        notification.HttpMethod = "") := by
  refine ⟨?_, roundTrip_of_roundTripsFrom _ _
    (jobWithNotification_roundTripsFrom jobNotification hrt),
    notificationFromResourceData_no_urls⟩
  obtain ⟨cos, coe, G, C, sched, notif, hd1, _, _, hok, _, _⟩ :=
    jobToResourceData_frame job d d1 [] h
  have hnot : d1.notification =
      (jobNotificationToResourceData (some jobNotification)).map NotificationConfig.stored := by
    subst hd1
    simp only
    rw [(hok rfl).2, hn]
  obtain ⟨hlen, hfrom⟩ := jobNotification_roundTrip jobNotification hrt
  rw [← hnot] at hlen hfrom
  have hne : d1.notification ≠ [] := by
    intro h0
    rw [h0] at hlen
    simp at hlen
  obtain ⟨job2, hjob2⟩ := jobFromResourceData_of_parts d1 hcmd hopt hsched
    (Or.inr ⟨jobNotification, hfrom⟩)
  refine ⟨job2, hjob2, ?_⟩
  obtain ⟨c, o, s, n, _, _, _, hnot2, _, hj⟩ :=
    jobFromResourceData_some d1 job2 (by rw [hjob2])
  subst hj
  rcases hnot2 with ⟨h0, _⟩ | ⟨_, jn, hjn, rfl⟩
  · exact absurd h0 hne
  · rw [hfrom] at hjn
    simp only [Prod.mk.injEq, Option.some.injEq, and_true] at hjn
    subst hjn
    rfl

theorem C30_notification_round_trip_witness :
    ∃ d1 job2, jobToResourceData notifyingJob ResourceData.empty = some (d1, []) ∧
      jobFromResourceData d1 = (some job2, []) ∧
      job2.Notification = notifyingJob.Notification := by
  have hrt : JobNotification.roundTrips
      { OnStart := some
          { Email := none, WebHook := some ⟨["http://hook.example.org"]⟩, Plugin := none,
            Format := "json", HttpMethod := "post" },
        OnFailure := none,
        OnSuccess := some
          { Email := some ⟨true, ["a@example.org"], "done"⟩, WebHook := none,
            Plugin := some ⟨"pager", []⟩, Format := "", HttpMethod := "" } } := by
    refine ⟨Or.inl (by simp), ?_, ?_, ?_⟩
    · intro n hn
      simp only [Option.some.injEq] at hn
      subst hn
      simp [Notification.roundTrips]
    · intro n hn
      simp at hn
    · intro n hn
      simp only [Option.some.injEq] at hn
      subst hn
      simp [Notification.roundTrips]
  obtain ⟨job2, hj, hn2⟩ :=
    (C30_notification_round_trip notifyingJob ResourceData.empty _ _ rfl hrt rfl
      (by decide) (by decide) (by decide)).1
  exact ⟨_, job2, rfl, hj, hn2⟩

end Rundeck
